import Mathlib

/-!
CSS live-edit engine: history, style editor and selection controller; SEO score;
link classification.

A shallow embedding of `css-inspector/content/history.js` (class `HistoryManager`),
of `css-inspector/content/editor.js` (class `CSSEditor`), of `CSSParser.parseValue`
and `CSSParser.isValidValue` from `css-inspector/content/utils/cssParser.js`, of
`css-inspector/content/inspector.js` (class `CSSInspector`), of `calculateScore` from
`page-seo-inspector/popup.js` and of `analyzeLink` from `link-highlighter/content.js`.

DOM nodes are opaque handles (natural numbers); a `Document` maps a handle to the
node's current state.  The browser's style engine is not part of the repository and
is a parameter (`StyleEngine`), as are the URL parser and the page's host name for
`analyzeLink` (`LinkContext`).
-/

namespace CssInspector

/-! ## DOM model -/

/-- The state of one DOM element, as far as the code reads or writes it.
`style` is the inline declaration block (`element.style`), in declaration order. -/
structure Element where
  id : String
  className : String
  classList : List String
  tagName : String
  parentElement : Option Nat
  children : List Nat
  isConnected : Bool
  style : List (String × String)
  previousElementSibling : Option Nat := none
  nextElementSibling : Option Nat := none

/-- The page: every handle's element state.  `depth` bounds the length of every
ancestor chain (the DOM is a finite tree); `body` and `documentElement` are
`document.body` and `document.documentElement` (`none` is null). -/
structure Document where
  node : Nat → Element
  depth : Nat
  body : Option Nat := none
  documentElement : Option Nat := none

/-- The browser facilities the code calls.
* `parse property value` is the value the engine stores for the declaration
  `property: value` written with `style.setProperty`, or `none` when the engine
  rejects it (the write is then ignored);
* `readBack property value` is what `tempEl.style[property]` reads after
  `tempEl.style[property] = value` on a fresh element;
* `computed doc e` is `window.getComputedStyle(e)`: the enumerated computed
  declarations of element `e`. -/
structure StyleEngine where
  parse : String → String → Option String
  readBack : String → String → String
  computed : Document → Nat → List (String × String)

/-- JavaScript `a || b` on strings: the empty string is falsy. -/
def jsOr (a b : String) : String :=
  if a = "" then b else a

/-- JavaScript `xs[i]` for an integer `i`: `undefined` (none) outside `0 .. length-1`. -/
def jsIndex {α : Type} (xs : List α) (i : Int) : Option α :=
  if i < 0 then none else xs.get? i.toNat

/-- JavaScript `xs.slice(0, stop)`: a negative `stop` counts from the end. -/
def jsSlice0 {α : Type} (xs : List α) (stop : Int) : List α :=
  if stop < 0 then xs.take ((xs.length : Int) + stop).toNat
  else xs.take stop.toNat

/-- JavaScript `s.toLowerCase()`, on ASCII letters. -/
def jsToLowerCase (s : String) : String :=
  String.mk (s.data.map Char.toLower)

/-- JavaScript `xs.indexOf(x)`: `-1` when `x` does not occur. -/
def jsIndexOf (xs : List Nat) (x : Nat) : Int :=
  if x ∈ xs then (xs.indexOf x : Int) else -1

/-- `style.getPropertyValue(property)`: the empty string when not declared. -/
def getPropertyValue (style : List (String × String)) (property : String) : String :=
  match style.find? (fun d => decide (d.1 = property)) with
  | some d => d.2
  | none => ""

/-- `style.removeProperty(property)`. -/
def removeDeclaration (style : List (String × String)) (property : String) :
    List (String × String) :=
  style.filter (fun d => decide (d.1 ≠ property))

/-- Store `property: value`: an existing declaration is updated in place, a new one
is appended. -/
def putDeclaration (style : List (String × String)) (property value : String) :
    List (String × String) :=
  if style.any (fun d => decide (d.1 = property)) then
    style.map (fun d => if d.1 = property then (property, value) else d)
  else style ++ [(property, value)]

/-- `style.setProperty(property, value)`: the empty string removes the declaration,
a value the engine rejects is ignored, any other value is stored in the engine's form. -/
def styleSetProperty (eng : StyleEngine) (style : List (String × String))
    (property value : String) : List (String × String) :=
  if value = "" then removeDeclaration style property
  else match eng.parse property value with
    | none => style
    | some stored => putDeclaration style property stored

/-- The inline value of `property` once `style.setProperty(property, value)` has taken
effect: empty for the empty string (the declaration is removed), the engine's stored
form otherwise; `none` when the engine rejects the value. -/
def storedValue (eng : StyleEngine) (property value : String) : Option String :=
  if value = "" then some "" else eng.parse property value

/-- Replace the inline declaration block of element `e`. -/
def Document.setStyle (doc : Document) (e : Nat) (style : List (String × String)) :
    Document :=
  { doc with node := Function.update doc.node e { doc.node e with style := style } }

/-- The statement `element.style.setProperty(property, value)` on the page. -/
def Document.writeProperty (eng : StyleEngine) (doc : Document) (e : Nat)
    (property value : String) : Document :=
  doc.setStyle e (styleSetProperty eng (doc.node e).style property value)

/-! ## history.js -/

/-- One entry of `HistoryManager.history`. -/
structure ChangeRecord where
  element : Nat
  selector : String
  property : String
  oldValue : String
  newValue : String
  timestamp : Nat
deriving DecidableEq, Repr

/-- The fields of `HistoryManager`. -/
structure HistoryManager where
  history : List ChangeRecord
  currentIndex : Int
  maxHistory : Nat
deriving DecidableEq, Repr

/-- How a method call ends: it returns a value, or a `TypeError` is thrown
(reading a field of `undefined`). -/
inductive Completion (α : Type) where
  | normal (value : α)
  | typeError
deriving DecidableEq, Repr

/-- The outcome of a `HistoryManager` method: the manager and the page afterwards,
and how the call ended. -/
structure HistoryResult (α : Type) where
  manager : HistoryManager
  doc : Document
  completion : Completion α

/-- The state of `new HistoryManager()`. -/
def HistoryManager.initial : HistoryManager :=
  { history := [], currentIndex := -1, maxHistory := 50 }

/-- `getElementSelector(element)`, the recursion over `parentElement` bounded by `fuel`.
With `fuel` at least the number of ancestors of `element` the bound is never hit; when
it is hit the chain is cut as if the node had no parent. -/
def getElementSelectorAux (doc : Document) : Nat → Nat → String
  | 0, element => jsToLowerCase (doc.node element).tagName
  | fuel + 1, element =>
    let el := doc.node element
    if el.id ≠ "" then "#" ++ el.id
    else if el.className ≠ "" then
      jsToLowerCase el.tagName ++ "." ++ ".".intercalate el.classList
    else match el.parentElement with
      | some parent =>
        let index := jsIndexOf (doc.node parent).children element + 1
        getElementSelectorAux doc fuel parent ++ " > " ++ jsToLowerCase el.tagName
          ++ ":nth-child(" ++ toString index ++ ")"
      | none => jsToLowerCase el.tagName

/-- `HistoryManager.getElementSelector(element)`. -/
def getElementSelector (doc : Document) (element : Nat) : String :=
  getElementSelectorAux doc doc.depth element

/-- `HistoryManager.canUndo()`. -/
def HistoryManager.canUndo (h : HistoryManager) : Bool :=
  decide (h.currentIndex ≥ 0)

/-- `HistoryManager.canRedo()`. -/
def HistoryManager.canRedo (h : HistoryManager) : Bool :=
  decide (h.currentIndex < (h.history.length : Int) - 1)

/-- The object pushed by `addChange`; `now` is the value of `Date.now()`. -/
def newRecord (doc : Document) (element : Nat) (property oldValue newValue : String)
    (now : Nat) : ChangeRecord :=
  { element := element
    selector := getElementSelector doc element
    property := property
    oldValue := oldValue
    newValue := newValue
    timestamp := now }

/-- `HistoryManager.addChange(element, property, oldValue, newValue)`.
The page is read (selector) but not written. -/
def HistoryManager.addChange (h : HistoryManager) (doc : Document) (element : Nat)
    (property oldValue newValue : String) (now : Nat) : HistoryManager :=
  let sliced := jsSlice0 h.history (h.currentIndex + 1)
  let pushed := sliced ++ [newRecord doc element property oldValue newValue now]
  if pushed.length > h.maxHistory then
    { h with history := pushed.tail }
  else
    { h with history := pushed, currentIndex := h.currentIndex + 1 }

/-- `HistoryManager.undo()`. -/
def HistoryManager.undo (eng : StyleEngine) (h : HistoryManager) (doc : Document) :
    HistoryResult (Option ChangeRecord) :=
  if ¬ h.canUndo then ⟨h, doc, .normal none⟩
  else
    let h1 := { h with currentIndex := h.currentIndex - 1 }
    match jsIndex h.history h.currentIndex with
    | none => ⟨h1, doc, .typeError⟩
    | some change =>
      if (doc.node change.element).isConnected then
        ⟨h1, doc.writeProperty eng change.element change.property change.oldValue,
          .normal (some change)⟩
      else ⟨h1, doc, .normal (some change)⟩

/-- `HistoryManager.redo()`. -/
def HistoryManager.redo (eng : StyleEngine) (h : HistoryManager) (doc : Document) :
    HistoryResult (Option ChangeRecord) :=
  if ¬ h.canRedo then ⟨h, doc, .normal none⟩
  else
    let h1 := { h with currentIndex := h.currentIndex + 1 }
    match jsIndex h1.history h1.currentIndex with
    | none => ⟨h1, doc, .typeError⟩
    | some change =>
      if (doc.node change.element).isConnected then
        ⟨h1, doc.writeProperty eng change.element change.property change.newValue,
          .normal (some change)⟩
      else ⟨h1, doc, .normal (some change)⟩

/-- `HistoryManager.clear()`. -/
def HistoryManager.clear (h : HistoryManager) : HistoryManager :=
  { h with history := [], currentIndex := -1 }

/-- `HistoryManager.getElementChanges(element)`. -/
def HistoryManager.getElementChanges (h : HistoryManager) (element : Nat) :
    List ChangeRecord :=
  h.history.filter (fun change => decide (change.element = element))

/-- The body of the `forEach` in `resetElement`: one change is reset on the page. -/
def resetChange (eng : StyleEngine) (doc : Document) (change : ChangeRecord) : Document :=
  if (doc.node change.element).isConnected then
    doc.writeProperty eng change.element change.property ""
  else doc

/-- The outcome of `HistoryManager.resetElement`: the manager and the page afterwards
and the returned number (`changes.length`). -/
structure ResetResult where
  manager : HistoryManager
  doc : Document
  count : Nat

/-- `HistoryManager.resetElement(element)`. -/
def HistoryManager.resetElement (eng : StyleEngine) (h : HistoryManager) (doc : Document)
    (element : Nat) : ResetResult :=
  let changes := h.getElementChanges element
  let doc1 := changes.foldl (resetChange eng) doc
  let history1 := h.history.filter (fun change => decide (change.element ≠ element))
  { manager := { h with history := history1, currentIndex := (history1.length : Int) - 1 }
    doc := doc1
    count := changes.length }

/-- The result of `HistoryManager.getStats()`. -/
structure Stats where
  total : Nat
  currentIndex : Int
  canUndo : Bool
  canRedo : Bool
deriving DecidableEq, Repr

/-- `HistoryManager.getStats()`. -/
def HistoryManager.getStats (h : HistoryManager) : Stats :=
  { total := h.history.length
    currentIndex := h.currentIndex
    canUndo := h.canUndo
    canRedo := h.canRedo }

/-! ## cssParser.js and editor.js -/

/-- `CSSParser.isValidValue(property, value)`: a falsy value and the three CSS-wide
keywords are accepted at once; any other value is assigned to a fresh element's style
and accepted when it reads back non-empty. -/
def CSSParser.isValidValue (eng : StyleEngine) (property value : String) : Bool :=
  if value = "" ∨ value = "initial" ∨ value = "inherit" ∨ value = "unset" then true
  else decide (eng.readBack property value ≠ "")

/-- The fields of `CSSEditor`; `originalStyles` is the `Map` from element to snapshot,
in insertion order. -/
structure CSSEditor where
  activeElement : Option Nat
  originalStyles : List (Nat × List (String × String))

/-- The custom events the editor dispatches on `window`. -/
inductive EditorEvent where
  | cssPropertyChanged (element : Nat) (property oldValue newValue : String)
  | cssElementReset (element : Nat) (changesCount : Nat)
deriving DecidableEq, Repr

/-- The page together with the two global instances `cssHistory` and `cssEditor`
and the events dispatched so far. -/
structure World where
  doc : Document
  cssHistory : HistoryManager
  cssEditor : CSSEditor
  events : List EditorEvent

/-- The value `element.style.getPropertyValue(property) ||
window.getComputedStyle(element).getPropertyValue(property)`. -/
def effectiveValue (eng : StyleEngine) (doc : Document) (e : Nat) (property : String) :
    String :=
  jsOr (getPropertyValue (doc.node e).style property)
    (getPropertyValue (eng.computed doc e) property)

/-- `CSSEditor.modifyProperty(element, property, value, addToHistory)`;
`element = none` is a null reference. -/
def CSSEditor.modifyProperty (eng : StyleEngine) (w : World) (element : Option Nat)
    (property value : String) (addToHistory : Bool) (now : Nat) : World × Bool :=
  match element with
  | none => (w, false)
  | some e =>
    let oldValue := effectiveValue eng w.doc e property
    if ¬ CSSParser.isValidValue eng property value then (w, false)
    else
      let doc1 := w.doc.writeProperty eng e property value
      let history1 :=
        if addToHistory then w.cssHistory.addChange doc1 e property oldValue value now
        else w.cssHistory
      ({ w with doc := doc1
                cssHistory := history1
                events := w.events ++ [.cssPropertyChanged e property oldValue value] }, true)

/-- `CSSEditor.removeProperty(element, property, addToHistory)`. -/
def CSSEditor.removeProperty (eng : StyleEngine) (w : World) (element : Option Nat)
    (property : String) (addToHistory : Bool) (now : Nat) : World × Bool :=
  match element with
  | none => (w, false)
  | some e =>
    let oldValue := effectiveValue eng w.doc e property
    let doc1 := w.doc.setStyle e (removeDeclaration (w.doc.node e).style property)
    let history1 :=
      if addToHistory then w.cssHistory.addChange doc1 e property oldValue "" now
      else w.cssHistory
    ({ w with doc := doc1
              cssHistory := history1
              events := w.events ++ [.cssPropertyChanged e property oldValue ""] }, true)

/-- `CSSEditor.resetElement(element)`. -/
def CSSEditor.resetElement (eng : StyleEngine) (w : World) (element : Option Nat) :
    World × Nat :=
  match element with
  | none => (w, 0)
  | some e =>
    let doc1 := w.doc.setStyle e []
    let r := w.cssHistory.resetElement eng doc1 e
    ({ doc := r.doc
       cssHistory := r.manager
       cssEditor := { w.cssEditor with
                      originalStyles := w.cssEditor.originalStyles.filter
                        (fun entry => decide (entry.1 ≠ e)) }
       events := w.events ++ [.cssElementReset e r.count] }, r.count)

/-! ### Numeric values (`CSSParser.parseValue`, `CSSEditor.adjustNumericValue`) -/

/-- The character `-`. -/
def minusSign : Char := Char.ofNat 45

/-- The character `.`. -/
def decimalPoint : Char := Char.ofNat 46

/-- The characters the JavaScript regular-expression atom `.` does not match:
line feed, carriage return, U+2028 and U+2029. -/
def isLineTerminator (c : Char) : Bool :=
  decide (c.toNat = 10 ∨ c.toNat = 13 ∨ c.toNat = 8232 ∨ c.toNat = 8233)

/-- The match of `/^([-]?\d*\.?\d+)(.*)$/` on the characters of a value: the two
capture groups, or `none` when the expression does not match.  After the optional
sign the longest run of digits is taken; a following `.` belongs to the token only
when a digit follows it; the token needs at least one digit; and the rest must reach
the end of the input without a line terminator (`.` does not match one and `$` is the
end of the input). -/
def matchNumericValue (cs : List Char) : Option (List Char × List Char) :=
  let sign := if cs.head? = some minusSign then [minusSign] else []
  let body := if cs.head? = some minusSign then cs.tail else cs
  let whole := body.takeWhile Char.isDigit
  let afterWhole := body.dropWhile Char.isDigit
  let fraction := afterWhole.tail.takeWhile Char.isDigit
  let found : Option (List Char × List Char) :=
    if afterWhole.head? = some decimalPoint ∧ fraction ≠ [] then
      some (sign ++ whole ++ decimalPoint :: fraction, afterWhole.tail.dropWhile Char.isDigit)
    else if whole ≠ [] then some (sign ++ whole, afterWhole)
    else none
  match found with
  | some (token, rest) => if rest.any isLineTerminator then none else some (token, rest)
  | none => none

/-- A JavaScript number as far as this embedding computes with it: an integer, a
decimal with a fraction part (kept as its token: IEEE arithmetic on fractions is
outside the embedding), or `NaN`. -/
inductive JsNumber where
  | int (n : Int)
  | fraction (token : String)
  | nan
deriving DecidableEq, Repr

/-- The value of a run of decimal digits. -/
def digitsValue (ds : List Char) : Nat :=
  ds.foldl (fun acc c => 10 * acc + (c.toNat - 48)) 0

/-- `parseFloat(token)` on a token matched by the first capture group. -/
def parseFloatToken (token : List Char) : JsNumber :=
  if decimalPoint ∈ token then .fraction (String.mk token)
  else if token.head? = some minusSign then .int (-(digitsValue token.tail : Int))
  else .int (digitsValue token)

/-- The object returned by `CSSParser.parseValue`. -/
structure ParsedValue where
  number : JsNumber
  unit : String
deriving DecidableEq, Repr

/-- `CSSParser.parseValue(value)`: without a match the result is number 0 and the
empty unit. -/
def CSSParser.parseValue (value : String) : ParsedValue :=
  match matchNumericValue value.data with
  | some (token, rest) => { number := parseFloatToken token, unit := String.mk rest }
  | none => { number := .int 0, unit := "" }

/-- `isNaN(number)`. -/
def JsNumber.isNaN : JsNumber → Bool
  | .nan => true
  | _ => false

/-- The integers a JavaScript number holds exactly: magnitude at most `2^53`. -/
def isExactInteger (n : Int) : Bool :=
  decide (-9007199254740992 ≤ n ∧ n ≤ 9007199254740992)

/-- `CSSEditor.adjustNumericValue(element, property, delta, shiftKey)` for an integer
`delta`.  The result is `none` where the arithmetic leaves the numbers this embedding
computes with: the current value's numeric token has a fraction part, or one of the
numbers involved is not an exactly representable integer.  `newNumber + parsed.unit`
is the decimal text of the integer followed by the unit. -/
def CSSEditor.adjustNumericValue (eng : StyleEngine) (w : World) (element : Option Nat)
    (property : String) (delta : Int) (shiftKey : Bool) (now : Nat) : Option (World × Bool) :=
  match element with
  | none => some (w, false)
  | some e =>
    let currentValue := effectiveValue eng w.doc e property
    let parsed := CSSParser.parseValue currentValue
    if parsed.number.isNaN then some (w, false)
    else match parsed.number with
      | .int n =>
        let actualDelta := if shiftKey then delta * 10 else delta
        let newNumber := n + actualDelta
        if isExactInteger n ∧ isExactInteger delta ∧ isExactInteger actualDelta ∧
            isExactInteger newNumber then
          some (CSSEditor.modifyProperty eng w (some e) property
            (toString newNumber ++ parsed.unit) true now)
        else none
      | _ => none

/-- The text of an integer: an optional minus sign and a run of digits. -/
def integerText (negative : Bool) (digits : List Char) : String :=
  String.mk ((if negative then [minusSign] else []) ++ digits)

/-- The integer that `integerText negative digits` denotes. -/
def integerValue (negative : Bool) (digits : List Char) : Int :=
  if negative then -(digitsValue digits : Int) else (digitsValue digits : Int)

/-! ### Snapshots and toggling -/

/-- `originalStyles.get(element)`: the snapshot stored for `e`, if any. -/
def CSSEditor.snapshot (editor : CSSEditor) (e : Nat) : Option (List (String × String)) :=
  (editor.originalStyles.find? (fun entry => decide (entry.1 = e))).map (fun entry => entry.2)

/-- `original[property]` on a snapshot object: `none` is `undefined`.  Property names
are CSS property names; the members every object inherits (`constructor`, ...) are
not looked at. -/
def snapshotValue (original : List (String × String)) (property : String) : Option String :=
  (original.find? (fun d => decide (d.1 = property))).map (fun d => d.2)

/-- The object built by the loop of `setActiveElement`: for each enumerated computed
property `computed[i]`, the value `computed.getPropertyValue(computed[i])`. -/
def captureStyles (computed : List (String × String)) : List (String × String) :=
  computed.map (fun d => (d.1, getPropertyValue computed d.1))

/-- `CSSEditor.setActiveElement(element)` for an element. -/
def CSSEditor.setActiveElement (eng : StyleEngine) (w : World) (element : Nat) : World :=
  let editor1 := { w.cssEditor with activeElement := some element }
  if (editor1.snapshot element).isSome then { w with cssEditor := editor1 }
  else
    { w with cssEditor :=
        { editor1 with
          originalStyles := editor1.originalStyles ++
            [(element, captureStyles (eng.computed w.doc element))] } }

/-- `CSSEditor.modifyProperty(element, property, undefined)`, as `toggleProperty` calls
it when the snapshot has no entry for the property.  `!value` holds, so the value
counts as valid; `style.setProperty` converts `undefined` to the text `undefined`.
The record and the event hold `undefined`, written here as the text every later
`setProperty(property, change.newValue)` converts it to. -/
def CSSEditor.modifyPropertyUndefined (eng : StyleEngine) (w : World) (e : Nat)
    (property : String) (now : Nat) : World × Bool :=
  let oldValue := effectiveValue eng w.doc e property
  let doc1 := w.doc.writeProperty eng e property "undefined"
  ({ w with doc := doc1
            cssHistory := w.cssHistory.addChange doc1 e property oldValue "undefined" now
            events := w.events ++ [.cssPropertyChanged e property oldValue "undefined"] }, true)

/-- The value `toggleProperty` restores: `original ? original[property] :
window.getComputedStyle(element).getPropertyValue(property)`; `none` is `undefined`. -/
def CSSEditor.restoredValue (eng : StyleEngine) (w : World) (e : Nat) (property : String) :
    Option String :=
  match w.cssEditor.snapshot e with
  | some original => snapshotValue original property
  | none => some (getPropertyValue (eng.computed w.doc e) property)

/-- `CSSEditor.toggleProperty(element, property)`. -/
def CSSEditor.toggleProperty (eng : StyleEngine) (w : World) (element : Option Nat)
    (property : String) (now : Nat) : World × Bool :=
  match element with
  | none => (w, false)
  | some e =>
    let currentValue := getPropertyValue (w.doc.node e).style property
    if currentValue ≠ "" then
      let oldValue := currentValue
      let doc1 := w.doc.setStyle e (removeDeclaration (w.doc.node e).style property)
      ({ w with doc := doc1
                cssHistory := w.cssHistory.addChange doc1 e property oldValue "" now
                events := w.events ++ [.cssPropertyChanged e property oldValue ""] }, false)
    else
      match CSSEditor.restoredValue eng w e property with
      | some value => CSSEditor.modifyProperty eng w (some e) property value true now
      | none => CSSEditor.modifyPropertyUndefined eng w e property now

/-- The engine accepts `value` for `property` and stores it as written, both when it
is written with `style.setProperty` and when it is validated. -/
def StyleEngine.StoresAsWritten (eng : StyleEngine) (property value : String) : Prop :=
  storedValue eng property value = some value ∧
    CSSParser.isValidValue eng property value = true

instance (eng : StyleEngine) (property value : String) :
    Decidable (eng.StoresAsWritten property value) := by
  unfold StyleEngine.StoresAsWritten; infer_instance

/-! ### Export as CSS text -/

/-- `CSSEditor.getModifiedProperties(element)`: for each index `i` of the inline
style, the property `inlineStyles[i]` with `inlineStyles.getPropertyValue` of it. -/
def CSSEditor.getModifiedProperties (w : World) (element : Option Nat) :
    List (String × String) :=
  match element with
  | none => []
  | some e =>
    (w.doc.node e).style.map (fun d => (d.1, getPropertyValue (w.doc.node e).style d.1))

/-- `CSSEditor.getCSSString(element)`: the template puts two spaces before each
`property: value;` and the lines are joined with a line feed. -/
def CSSEditor.getCSSString (w : World) (element : Option Nat) : String :=
  match element with
  | none => ""
  | some e =>
    "\n".intercalate
      ((CSSEditor.getModifiedProperties w (some e)).map
        (fun m => "  " ++ m.1 ++ ": " ++ m.2 ++ ";"))

/-! ## inspector.js -/

/-- A call into the user-interface collaborators (`elementHighlighter`,
`inspectorPanel`, the activation indicator, the message to the background page). -/
inductive UiCall where
  | highlight (element : Nat)
  | highlighterHide
  | panelUpdate (element : Nat)
  | panelHide
  | panelInit
  | highlighterInit
  | indicatorAdd
  | indicatorRemove
  | stateMessage (active : Bool)
deriving DecidableEq, Repr

/-- The fields of `CSSInspector`.  `boundRegistered` tells whether the listeners held
in `boundMouseMove`, `boundClick` and `boundKeyDown` are registered on the document. -/
structure CSSInspector where
  isActive : Bool
  hoverMode : Bool
  selectedElement : Option Nat
  hoveredElement : Option Nat
  boundRegistered : Bool
deriving DecidableEq, Repr

/-- The state of `new CSSInspector()`. -/
def CSSInspector.initial : CSSInspector :=
  { isActive := false
    hoverMode := true
    selectedElement := none
    hoveredElement := none
    boundRegistered := false }

/-- The global `cssInspector` with everything it acts on: the editor's world, the
calls made to the user interface so far, the number of listener triples registered on
the document, and the number of `activate()` calls suspended at an `await`. -/
structure Controller where
  inspector : CSSInspector
  world : World
  ui : List UiCall
  listeners : Nat
  pendingActivations : Nat

/-- What the handlers read from a mouse event: whether `e.target` lies inside
`#css-inspector-panel`, the id of `e.target`, and the element
`getElementFromPoint(e.clientX, e.clientY)` returns (`none` is null). -/
structure PointerEvent where
  targetInPanel : Bool
  targetId : String
  elementAtPoint : Option Nat
deriving DecidableEq, Repr

/-- JavaScript `s.startsWith(start)`. -/
def jsStartsWith (s start : String) : Bool :=
  start.data.isPrefixOf s.data

/-- The test `e.target.id && e.target.id.startsWith('css-inspector-')`. -/
def isInspectorTarget (ev : PointerEvent) : Bool :=
  decide (ev.targetId ≠ "") && jsStartsWith ev.targetId "css-inspector-"

/-- `CSSInspector.selectElement(element)`. -/
def CSSInspector.selectElement (eng : StyleEngine) (c : Controller) (element : Option Nat) :
    Controller :=
  match element with
  | none => c
  | some el =>
    if c.inspector.selectedElement = some el then c
    else
      { c with
        inspector := { c.inspector with selectedElement := some el, hoverMode := false }
        world := CSSEditor.setActiveElement eng c.world el
        ui := c.ui ++ [.highlight el, .panelUpdate el] }

/-- `CSSInspector.deselectElement()`. -/
def CSSInspector.deselectElement (c : Controller) : Controller :=
  { c with
    inspector := { c.inspector with selectedElement := none, hoverMode := true }
    ui := c.ui ++ [.highlighterHide, .panelHide] }

/-- `CSSInspector.deactivate()`. -/
def CSSInspector.deactivate (c : Controller) : Controller :=
  if ¬ c.inspector.isActive then c
  else
    { c with
      inspector :=
        { c.inspector with
          isActive := false
          selectedElement := none
          hoveredElement := none
          boundRegistered := false }
      listeners := if c.inspector.boundRegistered then c.listeners - 1 else c.listeners
      ui := c.ui ++ [.highlighterHide, .panelHide, .indicatorRemove, .stateMessage false] }

/-- The part of `CSSInspector.activate()` that runs at the call, up to the first
`await`. -/
def CSSInspector.activateBegin (c : Controller) : Controller :=
  if c.inspector.isActive then c
  else
    { c with
      inspector := { c.inspector with isActive := true }
      pendingActivations := c.pendingActivations + 1 }

/-- The rest of one suspended `CSSInspector.activate()`, run when its awaited
promises are settled; `prefsHoverMode` is the loaded `prefs.hoverMode` when it is a
boolean.  Between the two `await`s of the source only the highlighter is initialised,
so they are taken as one suspension. -/
def CSSInspector.activateResume (c : Controller) (prefsHoverMode : Option Bool) :
    Controller :=
  if c.pendingActivations = 0 then c
  else
    { c with
      inspector :=
        { c.inspector with
          hoverMode := decide (prefsHoverMode ≠ some false)
          boundRegistered := true }
      listeners := c.listeners + 1
      pendingActivations := c.pendingActivations - 1
      ui := c.ui ++ [.panelInit, .highlighterInit, .indicatorAdd, .stateMessage true] }

/-- `CSSInspector.toggle()`. -/
def CSSInspector.toggle (c : Controller) : Controller :=
  if c.inspector.isActive then CSSInspector.deactivate c else CSSInspector.activateBegin c

/-- `CSSInspector.onMouseMove(e)`. -/
def CSSInspector.onMouseMove (c : Controller) (ev : PointerEvent) : Controller :=
  if ¬ c.inspector.isActive ∨ ¬ c.inspector.hoverMode then c
  else if ev.targetInPanel then c
  else if isInspectorTarget ev then c
  else
    match ev.elementAtPoint with
    | none => c
    | some element =>
      if c.inspector.hoveredElement = some element then c
      else
        { c with
          inspector := { c.inspector with hoveredElement := some element }
          ui := if c.inspector.selectedElement = some element then c.ui
                else c.ui ++ [.highlight element] }

/-- `CSSInspector.onClick(e)`. -/
def CSSInspector.onClick (eng : StyleEngine) (c : Controller) (ev : PointerEvent) :
    Controller :=
  if ¬ c.inspector.isActive then c
  else if ev.targetInPanel then c
  else if isInspectorTarget ev then c
  else
    match ev.elementAtPoint with
    | none => c
    | some element => CSSInspector.selectElement eng c (some element)

/-- `CSSInspector.selectParent()`. -/
def CSSInspector.selectParent (eng : StyleEngine) (c : Controller) : Controller :=
  match c.inspector.selectedElement with
  | none => c
  | some selected =>
    match (c.world.doc.node selected).parentElement with
    | none => c
    | some parent =>
      if some parent ≠ c.world.doc.body ∧ some parent ≠ c.world.doc.documentElement then
        CSSInspector.selectElement eng c (some parent)
      else c

/-- `CSSInspector.selectFirstChild()`. -/
def CSSInspector.selectFirstChild (eng : StyleEngine) (c : Controller) : Controller :=
  match c.inspector.selectedElement with
  | none => c
  | some selected =>
    match (c.world.doc.node selected).children.head? with
    | none => c
    | some firstChild => CSSInspector.selectElement eng c (some firstChild)

/-- `CSSInspector.selectPreviousSibling()`. -/
def CSSInspector.selectPreviousSibling (eng : StyleEngine) (c : Controller) : Controller :=
  match c.inspector.selectedElement with
  | none => c
  | some selected =>
    match (c.world.doc.node selected).previousElementSibling with
    | none => c
    | some sibling => CSSInspector.selectElement eng c (some sibling)

/-- `CSSInspector.selectNextSibling()`. -/
def CSSInspector.selectNextSibling (eng : StyleEngine) (c : Controller) : Controller :=
  match c.inspector.selectedElement with
  | none => c
  | some selected =>
    match (c.world.doc.node selected).nextElementSibling with
    | none => c
    | some sibling => CSSInspector.selectElement eng c (some sibling)

/-- `CSSInspector.onKeyDown(e)`, `key` being `e.key`. -/
def CSSInspector.onKeyDown (eng : StyleEngine) (c : Controller) (key : String) : Controller :=
  if ¬ c.inspector.isActive ∨ c.inspector.selectedElement = none then c
  else if key = "Escape" then
    if c.inspector.selectedElement ≠ none then CSSInspector.deselectElement c
    else CSSInspector.deactivate c
  else if key = "ArrowUp" then CSSInspector.selectParent eng c
  else if key = "ArrowDown" then CSSInspector.selectFirstChild eng c
  else if key = "ArrowLeft" then CSSInspector.selectPreviousSibling eng c
  else if key = "ArrowRight" then CSSInspector.selectNextSibling eng c
  else c

/-- What can happen to the controller: a call of `toggle()`, `activate()` or
`deactivate()`, the completion of a suspended `activate()`, or one invocation of a
registered document listener.  A dispatched event invokes the handler once per
registered listener triple. -/
inductive ControllerEvent where
  | toggle
  | activate
  | deactivate
  | activationCompletes (prefsHoverMode : Option Bool)
  | mouseMove (ev : PointerEvent)
  | click (ev : PointerEvent)
  | keyDown (key : String)
deriving DecidableEq, Repr

/-- The controller after one event.  A completion without a suspended `activate()`
and a handler invocation without a registered listener do not happen: the state is
left as it is. -/
def Controller.step (eng : StyleEngine) (c : Controller) : ControllerEvent → Controller
  | .toggle => CSSInspector.toggle c
  | .activate => CSSInspector.activateBegin c
  | .deactivate => CSSInspector.deactivate c
  | .activationCompletes prefsHoverMode => CSSInspector.activateResume c prefsHoverMode
  | .mouseMove ev => if c.listeners = 0 then c else CSSInspector.onMouseMove c ev
  | .click ev => if c.listeners = 0 then c else CSSInspector.onClick eng c ev
  | .keyDown key => if c.listeners = 0 then c else CSSInspector.onKeyDown eng c key

/-- The controller after a sequence of events. -/
def Controller.run (eng : StyleEngine) (c : Controller) (events : List ControllerEvent) :
    Controller :=
  events.foldl (Controller.step eng) c

/-- The controller when the content script has loaded on a page. -/
def Controller.initial (w : World) : Controller :=
  { inspector := CSSInspector.initial
    world := w
    ui := []
    listeners := 0
    pendingActivations := 0 }

/-- An event of a session in which every `activate()` runs to completion before
anything else happens. -/
inductive SettledEvent where
  | toggle (prefsHoverMode : Option Bool)
  | activate (prefsHoverMode : Option Bool)
  | deactivate
  | mouseMove (ev : PointerEvent)
  | click (ev : PointerEvent)
  | keyDown (key : String)

/-- The controller events a settled event stands for. -/
def SettledEvent.events : SettledEvent → List ControllerEvent
  | .toggle prefsHoverMode => [.toggle, .activationCompletes prefsHoverMode]
  | .activate prefsHoverMode => [.activate, .activationCompletes prefsHoverMode]
  | .deactivate => [.deactivate]
  | .mouseMove ev => [.mouseMove ev]
  | .click ev => [.click ev]
  | .keyDown key => [.keyDown key]

/-- The selection invariant: a selected element implies that the inspector is active
and hover mode is off. -/
def CSSInspector.SelectionInv (i : CSSInspector) : Prop :=
  i.selectedElement ≠ none → i.isActive = true ∧ i.hoverMode = false

instance (i : CSSInspector) : Decidable i.SelectionInv := by
  unfold CSSInspector.SelectionInv; infer_instance

/-! ## page-seo-inspector/popup.js -/

/-- The fields of the analysis result that `calculateScore` reads.  A string that may
be missing is an `Option` (`none` is null or undefined); `canonicalIssues`,
`headingIssues` and `schemas` are the arrays whose `length` is tested. -/
structure SeoData where
  title : Option String
  titleLength : Nat
  description : Option String
  descriptionLength : Nat
  hasCanonical : Bool
  canonicalIssues : List String
  h1Count : Nat
  headingIssues : List String
  missingAlt : Nat
  ogTitle : Option String
  ogDescription : Option String
  ogImage : Option String
  schemas : List String
deriving DecidableEq, Repr

/-- JavaScript `!value` for a string that may be missing. -/
def jsFalsy (value : Option String) : Bool :=
  decide (value = none ∨ value = some "")

/-- The deductions of the block `// Meta tags`, in half points: every amount of
`calculateScore` is a multiple of 0.5, which a JavaScript number holds exactly, so
`deductions += 10` adds 20 half points. -/
def metaDeductions (data : SeoData) : Nat :=
  (if jsFalsy data.title then 20 else if data.titleLength > 60 then 6 else 0) +
  (if jsFalsy data.description then 20 else if data.descriptionLength > 160 then 6 else 0)

/-- The deductions of the block `// Canonical`, in half points. -/
def canonicalDeductions (data : SeoData) : Nat :=
  (if ¬ data.hasCanonical then 10 else 0) +
  (if data.canonicalIssues.length > 0 then 10 else 0)

/-- The deductions of the block `// Headings`, in half points. -/
def headingDeductions (data : SeoData) : Nat :=
  (if data.h1Count = 0 then 16 else 0) +
  (if data.h1Count > 1 then 10 else 0) +
  (if data.headingIssues.length > 0 then 6 else 0)

/-- The deduction of the block `// Images`, in half points:
`Math.min(10, missingAlt * 0.5)` is `min 20 missingAlt` half points. -/
def imageDeductions (data : SeoData) : Nat :=
  if data.missingAlt > 0 then min 20 data.missingAlt else 0

/-- The deductions of the block `// Social`, in half points. -/
def socialDeductions (data : SeoData) : Nat :=
  (if jsFalsy data.ogTitle then 10 else 0) +
  (if jsFalsy data.ogDescription then 6 else 0) +
  (if jsFalsy data.ogImage then 6 else 0)

/-- The deduction of the block `// Structured data`, in half points. -/
def structuredDataDeductions (data : SeoData) : Nat :=
  if data.schemas.length = 0 then 10 else 0

/-- The variable `deductions` of `calculateScore` at the end of the function, in half
points. -/
def scoreDeductions (data : SeoData) : Nat :=
  metaDeductions data + canonicalDeductions data + headingDeductions data +
    imageDeductions data + socialDeductions data + structuredDataDeductions data

/-- `Math.round` of a number given in half points: halves are rounded up. -/
def mathRoundHalves (halves : Int) : Int :=
  (halves + 1) / 2

/-- `calculateScore(data)`: `Math.round(Math.max(0, 100 - deductions))`. -/
def calculateScore (data : SeoData) : Int :=
  mathRoundHalves (max 0 (200 - (scoreDeductions data : Int)))

/-! ## link-highlighter/content.js -/

/-- An `a[href]` element as `analyzeLink` reads it. -/
structure Link where
  href : String
  rel : String
  textContent : String
deriving DecidableEq, Repr

/-- The page facilities `analyzeLink` calls: `window.location.hostname`, and
`new URL(href).hostname` (`none` when the constructor throws). -/
structure LinkContext where
  currentHost : String
  hostname : String → Option String

/-- JavaScript `s.split(' ')` on the characters of `s`. -/
def jsSplitSpace : List Char → List (List Char)
  | [] => [[]]
  | c :: cs =>
    if c = Char.ofNat 32 then [] :: jsSplitSpace cs
    else match jsSplitSpace cs with
      | [] => [[c]]
      | piece :: pieces => (c :: piece) :: pieces

/-- The array `rel` of `analyzeLink`:
`(link.rel || '').toLowerCase().split(' ').filter(r => r)`.  Lower-casing is the one
of ASCII letters; no other character lower-cases to a letter of `nofollow`,
`sponsored` or `ugc`. -/
def relTokens (rel : String) : List String :=
  ((jsSplitSpace (jsToLowerCase rel).data).filter (fun piece => decide (piece ≠ []))).map
    String.mk

/-- The white space `String.prototype.trim` removes. -/
def jsIsWhiteSpace (c : Char) : Bool :=
  decide (c.toNat ∈ [9, 10, 11, 12, 13, 32, 160, 5760, 8192, 8193, 8194, 8195, 8196, 8197,
    8198, 8199, 8200, 8201, 8202, 8232, 8233, 8239, 8287, 12288, 65279])

/-- JavaScript `s.trim()`. -/
def jsTrim (s : String) : String :=
  String.mk (((s.data.dropWhile jsIsWhiteSpace).reverse.dropWhile jsIsWhiteSpace).reverse)

/-- The object `analyzeLink` returns; `type` is named `linkType`. -/
structure LinkAnalysis where
  element : Link
  href : String
  text : String
  linkType : String
  isInternal : Bool
  isNofollow : Bool
  isSponsored : Bool
  isUgc : Bool
  rel : List String
deriving DecidableEq, Repr

/-- `analyzeLink(link)`. -/
def analyzeLink (ctx : LinkContext) (link : Link) : LinkAnalysis :=
  let href := link.href
  let rel := relTokens link.rel
  let currentHost := ctx.currentHost
  let linkHost := match ctx.hostname href with
    | some host => host
    | none => currentHost
  let isInternal := decide (linkHost = currentHost) || decide (linkHost = "") ||
    jsStartsWith href "#" || jsStartsWith href "/"
  let isNofollow := decide ("nofollow" ∈ rel)
  let isSponsored := decide ("sponsored" ∈ rel)
  let isUgc := decide ("ugc" ∈ rel)
  let linkType :=
    if isSponsored then "sponsored"
    else if isUgc then "ugc"
    else if isInternal && isNofollow then "internal-nofollow"
    else if isInternal then "internal-dofollow"
    else if !isInternal && isNofollow then "external-nofollow"
    else "external-dofollow"
  { element := link
    href := href
    text := jsTrim link.textContent
    linkType := linkType
    isInternal := isInternal
    isNofollow := isNofollow
    isSponsored := isSponsored
    isUgc := isUgc
    rel := rel }

/-- The tokens of a `rel` value when it is split at every ASCII white space character
(tab, line feed, form feed, carriage return, space), as HTML reads the attribute,
lower-cased. -/
def relTokensByWhiteSpace (rel : String) : List String :=
  (((jsToLowerCase rel).data.splitOnP
      (fun c => decide (c.toNat ∈ [9, 10, 12, 13, 32]))).filter
    (fun piece => decide (piece ≠ []))).map String.mk

/-! ### Runs of the history manager -/

/-- One step of a session as seen by the history manager: a call of one of its
methods, or a change of the page by somebody else (`pageChange`). -/
inductive HistoryOp where
  | addChange (element : Nat) (property oldValue newValue : String) (now : Nat)
  | undo
  | redo
  | resetElement (element : Nat)
  | clear
  | pageChange (doc : Document)

/-- The manager and the page after one step. -/
def HistoryOp.run (eng : StyleEngine) (s : HistoryManager × Document) :
    HistoryOp → HistoryManager × Document
  | .addChange element property oldValue newValue now =>
    (s.1.addChange s.2 element property oldValue newValue now, s.2)
  | .undo => ((s.1.undo eng s.2).manager, (s.1.undo eng s.2).doc)
  | .redo => ((s.1.redo eng s.2).manager, (s.1.redo eng s.2).doc)
  | .resetElement element =>
    ((s.1.resetElement eng s.2 element).manager, (s.1.resetElement eng s.2 element).doc)
  | .clear => (s.1.clear, s.2)
  | .pageChange doc => (s.1, doc)

/-- Whether a step is an `addChange` call. -/
def HistoryOp.isAddChange : HistoryOp → Bool
  | .addChange _ _ _ _ _ => true
  | _ => false

/-- Whether a step is an `addChange` call for element `e`. -/
def HistoryOp.recordsFor (e : Nat) : HistoryOp → Bool
  | .addChange element _ _ _ _ => decide (element = e)
  | _ => false

/-- The number of changes recorded for element `e` in a sequence of steps: the
`addChange` calls with that element. -/
def recordedFor (e : Nat) (ops : List HistoryOp) : Nat :=
  (ops.filter (HistoryOp.recordsFor e)).length

/-- The manager and the page after a sequence of steps. -/
def runOps (eng : StyleEngine) (s : HistoryManager × Document) (ops : List HistoryOp) :
    HistoryManager × Document :=
  ops.foldl (HistoryOp.run eng) s

/-- A state the history manager can be in: some sequence of steps leads to it from
`new HistoryManager()` on some page. -/
def Reachable (eng : StyleEngine) (s : HistoryManager × Document) : Prop :=
  ∃ (doc0 : Document) (ops : List HistoryOp), runOps eng (HistoryManager.initial, doc0) ops = s

/-- The history invariant: at most `maxHistory = 50` records, and
`-1 ≤ currentIndex ≤ length - 1`. -/
def HistoryManager.Inv (h : HistoryManager) : Prop :=
  h.maxHistory = 50 ∧ h.history.length ≤ 50 ∧
    -1 ≤ h.currentIndex ∧ h.currentIndex ≤ (h.history.length : Int) - 1

instance (h : HistoryManager) : Decidable h.Inv := by
  unfold HistoryManager.Inv; infer_instance

/-! ## Sample page -/

/-- A style engine that stores every value as written and computes no styles. -/
def sampleEngine : StyleEngine :=
  { parse := fun _ value => some value
    readBack := fun _ value => value
    computed := fun _ _ => [] }

/-- An attached `<div class="item">` without inline declarations. -/
def sampleElement : Element :=
  { id := ""
    className := "item"
    classList := ["item"]
    tagName := "DIV"
    parentElement := none
    children := []
    isConnected := true
    style := [] }

/-- A page of identical `<div class="item">` elements; element 2 is detached. -/
def sampleDocument : Document :=
  { node := fun e => if e = 2 then { sampleElement with isConnected := false }
                     else sampleElement
    depth := 8 }

/-- A manager holding two records, the cursor on the first: one change of element 0
is applied, one change of the detached element 2 is undone. -/
def sampleManager : HistoryManager :=
  { history := [newRecord sampleDocument 0 "color" "red" "blue" 0,
                newRecord sampleDocument 2 "width" "1px" "2px" 1]
    currentIndex := 0
    maxHistory := 50 }

/-- A full history: 50 records, the cursor on the last one. -/
def fullManager : HistoryManager :=
  { history := List.replicate 50 (newRecord sampleDocument 0 "color" "red" "blue" 0)
    currentIndex := 49
    maxHistory := 50 }

/-- Two changes are recorded for element 0, the first one undone before the second. -/
def overwritingOps : List HistoryOp :=
  [.addChange 0 "color" "red" "blue" 0, .undo, .addChange 0 "color" "red" "green" 1]

/-- Fifty-one changes are recorded for element 0. -/
def overflowingOps : List HistoryOp :=
  List.replicate 51 (.addChange 0 "color" "red" "blue" 0)

/-- Three changes are recorded, two of them for element 0. -/
def plainOps : List HistoryOp :=
  [.addChange 0 "color" "red" "blue" 0, .addChange 1 "color" "red" "blue" 1,
    .addChange 0 "width" "1px" "2px" 2]

/-- The sample page after element 0 got the inline declaration `color: blue`. -/
def editedDocument : Document :=
  sampleDocument.setStyle 0 [("color", "blue")]

/-- The change of element 0 from red to blue is recorded and undone, then element 1,
which has no records, is reset. -/
def roundTripOps : List HistoryOp :=
  [.addChange 0 "color" "red" "blue" 0, .undo, .resetElement 1]

/-- The state `roundTripOps` leads to from the initial state on `editedDocument`. -/
def roundTripState : HistoryManager × Document :=
  runOps sampleEngine (HistoryManager.initial, editedDocument) roundTripOps

/-- The sample page with a fresh history manager and editor. -/
def sampleWorld : World :=
  { doc := sampleDocument
    cssHistory := HistoryManager.initial
    cssEditor := { activeElement := none, originalStyles := [] }
    events := [] }

/-- The declarations a small browser-like engine accepts, stored as written:
a few values of `color`, `opacity`, `z-index` and `width`; every other property is
unknown to it. -/
def browserAccepts (property value : String) : Bool :=
  if property = "color" then decide (value ∈ ["red", "blue", "inherit", "initial", "unset"])
  else if property = "opacity" then decide (value ∈ ["0", "0.5", "1", "inherit"])
  else if property = "z-index" then decide (value ∈ ["auto", "0", "1", "2", "10"])
  else if property = "width" then decide (value ∈ ["auto", "10px", "11px", "20px"])
  else false

/-- A browser-like engine: unknown properties and values are rejected by
`style.setProperty` and read back empty; every element computes `opacity: 1`,
`z-index: auto` and `width: 10px`. -/
def browserEngine : StyleEngine :=
  { parse := fun property value => if browserAccepts property value then some value else none
    readBack := fun property value => if browserAccepts property value then value else ""
    computed := fun _ _ => [("opacity", "1"), ("z-index", "auto"), ("width", "10px")] }

/-- The sample world after element 0 was activated on the browser-like engine. -/
def activatedWorld : World :=
  CSSEditor.setActiveElement browserEngine sampleWorld 0

/-- The sample world in which element 0 carries a custom property whose value has a
line feed between the number and the unit. -/
def multilineWorld : World :=
  { sampleWorld with
    doc := sampleDocument.setStyle 0 [("--gap", String.mk ("10".data ++ [Char.ofNat 10] ++ "px".data))] }

/-- A page with a root element 10, its children head 11 and body 12, and inside the
body a list 13 with the items 14 and 15. -/
def treeDocument : Document :=
  { node := fun e =>
      if e = 10 then { sampleElement with tagName := "HTML", className := "", classList := [],
                                          children := [11, 12] }
      else if e = 11 then { sampleElement with tagName := "HEAD", className := "",
                                               classList := [], parentElement := some 10,
                                               nextElementSibling := some 12 }
      else if e = 12 then { sampleElement with tagName := "BODY", className := "",
                                               classList := [], parentElement := some 10,
                                               children := [13],
                                               previousElementSibling := some 11 }
      else if e = 13 then { sampleElement with tagName := "UL", parentElement := some 12,
                                               children := [14, 15] }
      else if e = 14 then { sampleElement with tagName := "LI", parentElement := some 13,
                                               nextElementSibling := some 15 }
      else if e = 15 then { sampleElement with tagName := "LI", parentElement := some 13,
                                               previousElementSibling := some 14 }
      else sampleElement
    depth := 8
    body := some 12
    documentElement := some 10 }

/-- The controller on `treeDocument`, active, with listeners registered and element
`selected` selected (hover mode off) or nothing selected (hover mode on). -/
def treeController (selected : Option Nat) : Controller :=
  { inspector :=
      { isActive := true
        hoverMode := decide (selected = none)
        selectedElement := selected
        hoveredElement := none
        boundRegistered := true }
    world := { sampleWorld with doc := treeDocument }
    ui := []
    listeners := 1
    pendingActivations := 0 }

/-- A click on the page over element 14. -/
def clickOnItem : PointerEvent :=
  { targetInPanel := false, targetId := "", elementAtPoint := some 14 }

/-- Three quick toggles (activate, deactivate, activate), then the first activation
completes, the user clicks element 14, and the second activation completes. -/
def overlappingActivations : List ControllerEvent :=
  [.toggle, .toggle, .toggle, .activationCompletes none, .click clickOnItem,
    .activationCompletes none]

/-- An analysis result without any finding. -/
def perfectPage : SeoData :=
  { title := some "Title"
    titleLength := 5
    description := some "Description"
    descriptionLength := 11
    hasCanonical := true
    canonicalIssues := []
    h1Count := 1
    headingIssues := []
    missingAlt := 0
    ogTitle := some "Title"
    ogDescription := some "Description"
    ogImage := some "image.png"
    schemas := ["Article"] }

/-- An analysis result with every finding. -/
def worstPage : SeoData :=
  { title := none
    titleLength := 0
    description := none
    descriptionLength := 0
    hasCanonical := false
    canonicalIssues := ["No canonical tag found"]
    h1Count := 0
    headingIssues := ["No H1 heading found"]
    missingAlt := 40
    ogTitle := none
    ogDescription := none
    ogImage := none
    schemas := [] }

/-- The page `example.org`; URLs of the form `https://host/...` parse to their host. -/
def sampleLinkContext : LinkContext :=
  { currentHost := "example.org"
    hostname := fun href =>
      if jsStartsWith href "https://example.org/" then some "example.org"
      else if jsStartsWith href "https://other.net/" then some "other.net"
      else none }

/-- The controller after a sequence of settled events. -/
def Controller.runSettled (eng : StyleEngine) (c : Controller) (events : List SettledEvent) :
    Controller :=
  events.foldl (fun state ev => Controller.run eng state ev.events) c

/-- A click on the page outside the body, where the element under the pointer is the
root element 10. -/
def clickOnRoot : PointerEvent :=
  { targetInPanel := false, targetId := "", elementAtPoint := some 10 }

/-! ## Theorems -/

theorem jsSlice0_eq_take {α : Type} (xs : List α) (stop : Int) (h : 0 ≤ stop) :
    jsSlice0 xs stop = xs.take stop.toNat := by
  unfold jsSlice0
  rw [if_neg (by omega)]

/-- After slicing and pushing, the sequence is the first `currentIndex + 1` records
followed by the new one. -/
theorem addChange_eq (h : HistoryManager) (doc : Document) (element : Nat)
    (property oldValue newValue : String) (now : Nat) (hlo : -1 ≤ h.currentIndex) :
    h.addChange doc element property oldValue newValue now =
      (if (h.history.take (h.currentIndex + 1).toNat ++
            [newRecord doc element property oldValue newValue now]).length > h.maxHistory then
        { h with history := (h.history.take (h.currentIndex + 1).toNat ++
            [newRecord doc element property oldValue newValue now]).tail }
      else
        { h with history := h.history.take (h.currentIndex + 1).toNat ++
            [newRecord doc element property oldValue newValue now],
                 currentIndex := h.currentIndex + 1 }) := by
  unfold HistoryManager.addChange
  simp only [jsSlice0_eq_take _ _ (by omega : (0 : Int) ≤ h.currentIndex + 1)]

theorem addChange_inv (h : HistoryManager) (doc : Document) (element : Nat)
    (property oldValue newValue : String) (now : Nat) (hinv : h.Inv) :
    (h.addChange doc element property oldValue newValue now).Inv := by
  obtain ⟨hmax, hlen, hlo, hhi⟩ := hinv
  rw [addChange_eq _ _ _ _ _ _ _ hlo]
  split
  · rename_i hgt
    simp only [List.length_append, List.length_take, List.length_singleton, hmax] at hgt
    refine ⟨hmax, ?_, hlo, ?_⟩
    · simp only [List.length_tail, List.length_append, List.length_take, List.length_singleton]
      omega
    · simp only [List.length_tail, List.length_append, List.length_take, List.length_singleton]
      omega
  · rename_i hle
    simp only [List.length_append, List.length_take, List.length_singleton, hmax] at hle
    refine ⟨hmax, ?_, ?_, ?_⟩
    · simp only [List.length_append, List.length_take, List.length_singleton]
      omega
    · simp only []
      omega
    · simp only [List.length_append, List.length_take, List.length_singleton]
      omega

theorem jsIndex_isSome {α : Type} (xs : List α) (i : Int) (h0 : 0 ≤ i)
    (h1 : i ≤ (xs.length : Int) - 1) : (jsIndex xs i).isSome = true := by
  unfold jsIndex
  rw [if_neg (by omega)]
  have hlt : i.toNat < xs.length := by omega
  simp [hlt]

theorem undo_manager (eng : StyleEngine) (h : HistoryManager) (doc : Document) :
    (h.undo eng doc).manager =
      if h.canUndo then { h with currentIndex := h.currentIndex - 1 } else h := by
  unfold HistoryManager.undo
  by_cases hc : h.canUndo = true
  · simp only [hc, not_true_eq_false, if_false, if_true]
    cases jsIndex h.history h.currentIndex with
    | none => rfl
    | some change =>
      simp only []
      split <;> rfl
  · simp [hc]

theorem redo_manager (eng : StyleEngine) (h : HistoryManager) (doc : Document) :
    (h.redo eng doc).manager =
      if h.canRedo then { h with currentIndex := h.currentIndex + 1 } else h := by
  unfold HistoryManager.redo
  by_cases hc : h.canRedo = true
  · simp only [hc, not_true_eq_false, if_false, if_true]
    cases jsIndex h.history (h.currentIndex + 1) with
    | none => rfl
    | some change =>
      simp only []
      split <;> rfl
  · simp [hc]

theorem undo_inv (eng : StyleEngine) (h : HistoryManager) (doc : Document) (hinv : h.Inv) :
    (h.undo eng doc).manager.Inv := by
  rw [undo_manager]
  obtain ⟨hmax, hlen, hlo, hhi⟩ := hinv
  by_cases hc : h.canUndo = true
  · rw [if_pos hc]
    simp only [HistoryManager.canUndo, decide_eq_true_eq] at hc
    exact ⟨hmax, hlen, by simp only []; omega, by simp only []; omega⟩
  · rw [if_neg hc]
    exact ⟨hmax, hlen, hlo, hhi⟩

theorem redo_inv (eng : StyleEngine) (h : HistoryManager) (doc : Document) (hinv : h.Inv) :
    (h.redo eng doc).manager.Inv := by
  rw [redo_manager]
  obtain ⟨hmax, hlen, hlo, hhi⟩ := hinv
  by_cases hc : h.canRedo = true
  · rw [if_pos hc]
    simp only [HistoryManager.canRedo, decide_eq_true_eq] at hc
    exact ⟨hmax, hlen, by simp only []; omega, by simp only []; omega⟩
  · rw [if_neg hc]
    exact ⟨hmax, hlen, hlo, hhi⟩

theorem resetElement_inv (eng : StyleEngine) (h : HistoryManager) (doc : Document)
    (element : Nat) (hinv : h.Inv) : (h.resetElement eng doc element).manager.Inv := by
  obtain ⟨hmax, hlen, hlo, hhi⟩ := hinv
  have hle := List.length_filter_le (fun change : ChangeRecord => decide (change.element ≠ element))
    h.history
  refine ⟨hmax, ?_, ?_, ?_⟩
  · show (h.history.filter _).length ≤ 50
    omega
  · show (-1 : Int) ≤ ((h.history.filter _).length : Int) - 1
    omega
  · exact le_refl _

theorem clear_inv (h : HistoryManager) (hinv : h.Inv) : h.clear.Inv := by
  refine ⟨hinv.1, ?_, ?_, ?_⟩ <;> simp [HistoryManager.clear]

theorem run_inv (eng : StyleEngine) (s : HistoryManager × Document) (op : HistoryOp)
    (hinv : s.1.Inv) : (op.run eng s).1.Inv := by
  cases op with
  | addChange element property oldValue newValue now => exact addChange_inv _ _ _ _ _ _ _ hinv
  | undo => exact undo_inv _ _ _ hinv
  | redo => exact redo_inv _ _ _ hinv
  | resetElement element => exact resetElement_inv eng s.1 s.2 element hinv
  | clear => exact clear_inv _ hinv
  | pageChange doc => exact hinv

theorem runOps_inv (eng : StyleEngine) (ops : List HistoryOp) :
    ∀ s : HistoryManager × Document, s.1.Inv → (runOps eng s ops).1.Inv := by
  induction ops with
  | nil => intro s hs; exact hs
  | cons op ops ih =>
    intro s hs
    exact ih _ (run_inv eng s op hs)

theorem initial_inv : HistoryManager.initial.Inv := by decide

theorem reachable_inv (eng : StyleEngine) (s : HistoryManager × Document)
    (hs : Reachable eng s) : s.1.Inv := by
  obtain ⟨doc0, ops, rfl⟩ := hs
  exact runOps_inv eng ops _ initial_inv

/-- C1: in every state reachable from `new HistoryManager()` by any sequence of
addChange, undo, redo, resetElement and clear calls (and changes of the page by others),
`getStats().total` is at most `maxHistory = 50` and
`-1 ≤ currentIndex ≤ total - 1`. -/
theorem reachable_total_and_cursor_bounds (eng : StyleEngine)
    (s : HistoryManager × Document) (hs : Reachable eng s) :
    s.1.maxHistory = 50 ∧ s.1.getStats.total ≤ s.1.maxHistory ∧
      -1 ≤ s.1.getStats.currentIndex ∧
      s.1.getStats.currentIndex ≤ (s.1.getStats.total : Int) - 1 := by
  obtain ⟨hmax, hlen, hlo, hhi⟩ := reachable_inv eng s hs
  refine ⟨hmax, ?_, hlo, hhi⟩
  show s.1.history.length ≤ s.1.maxHistory
  omega


/-! ### undo and redo, case by case -/

theorem undo_of_not_canUndo (eng : StyleEngine) (h : HistoryManager) (doc : Document)
    (hc : h.canUndo = false) : h.undo eng doc = ⟨h, doc, .normal none⟩ := by
  unfold HistoryManager.undo
  simp [hc]

theorem undo_of_canUndo (eng : StyleEngine) (h : HistoryManager) (doc : Document)
    (change : ChangeRecord) (hc : h.canUndo = true)
    (hrec : jsIndex h.history h.currentIndex = some change) :
    h.undo eng doc =
      ⟨{ h with currentIndex := h.currentIndex - 1 },
        if (doc.node change.element).isConnected then
          doc.writeProperty eng change.element change.property change.oldValue
        else doc,
        .normal (some change)⟩ := by
  unfold HistoryManager.undo
  simp only [hc, not_true_eq_false, if_false, hrec]
  split <;> rfl

theorem redo_of_not_canRedo (eng : StyleEngine) (h : HistoryManager) (doc : Document)
    (hc : h.canRedo = false) : h.redo eng doc = ⟨h, doc, .normal none⟩ := by
  unfold HistoryManager.redo
  simp [hc]

theorem redo_of_canRedo (eng : StyleEngine) (h : HistoryManager) (doc : Document)
    (change : ChangeRecord) (hc : h.canRedo = true)
    (hrec : jsIndex h.history (h.currentIndex + 1) = some change) :
    h.redo eng doc =
      ⟨{ h with currentIndex := h.currentIndex + 1 },
        if (doc.node change.element).isConnected then
          doc.writeProperty eng change.element change.property change.newValue
        else doc,
        .normal (some change)⟩ := by
  unfold HistoryManager.redo
  simp only [hc, not_true_eq_false, if_false, hrec]
  split <;> rfl

theorem canUndo_record (h : HistoryManager) (hinv : h.Inv) (hc : h.canUndo = true) :
    ∃ change, jsIndex h.history h.currentIndex = some change := by
  have h0 : 0 ≤ h.currentIndex := by
    simpa [HistoryManager.canUndo] using hc
  exact Option.isSome_iff_exists.mp (jsIndex_isSome _ _ h0 hinv.2.2.2)

theorem canRedo_record (h : HistoryManager) (hinv : h.Inv) (hc : h.canRedo = true) :
    ∃ change, jsIndex h.history (h.currentIndex + 1) = some change := by
  have h1 : h.currentIndex < (h.history.length : Int) - 1 := by
    simpa [HistoryManager.canRedo] using hc
  have hlo := hinv.2.2.1
  exact Option.isSome_iff_exists.mp (jsIndex_isSome _ _ (by omega) (by omega))

/-- C3: on a state satisfying the history invariant, `canUndo()` is false exactly when
`currentIndex < 0`; `undo()` returns none with the record sequence and `currentIndex`
unchanged exactly when `canUndo()` is false; otherwise it returns the record stored at
the old `currentIndex`, decrements `currentIndex` by one and leaves the sequence
unchanged. -/
theorem undo_returns_record_or_none (eng : StyleEngine) (h : HistoryManager)
    (doc : Document) (hinv : h.Inv) :
    (h.canUndo = false ↔ h.currentIndex < 0) ∧
    (h.canUndo = false ↔
      ((h.undo eng doc).completion = .normal none ∧
        (h.undo eng doc).manager.history = h.history ∧
        (h.undo eng doc).manager.currentIndex = h.currentIndex)) ∧
    (h.canUndo = true →
      (jsIndex h.history h.currentIndex).isSome = true ∧
      (h.undo eng doc).completion = .normal (jsIndex h.history h.currentIndex) ∧
      (h.undo eng doc).manager.currentIndex = h.currentIndex - 1 ∧
      (h.undo eng doc).manager.history = h.history) := by
  refine ⟨?_, ?_, ?_⟩
  · simp [HistoryManager.canUndo]
  · constructor
    · intro hc
      rw [undo_of_not_canUndo eng h doc hc]
      exact ⟨rfl, rfl, rfl⟩
    · intro hnone
      by_contra hc
      have hc1 : h.canUndo = true := by simpa using hc
      obtain ⟨change, hrec⟩ := canUndo_record h hinv hc1
      rw [undo_of_canUndo eng h doc change hc1 hrec] at hnone
      simp at hnone
  · intro hc
    obtain ⟨change, hrec⟩ := canUndo_record h hinv hc
    rw [undo_of_canUndo eng h doc change hc hrec, hrec]
    exact ⟨rfl, rfl, rfl, rfl⟩

theorem undo_returns_record_or_none_witness :
    sampleManager.Inv ∧ sampleManager.canUndo = true ∧
      (sampleManager.undo sampleEngine sampleDocument).completion =
        .normal (some (newRecord sampleDocument 0 "color" "red" "blue" 0)) ∧
      (sampleManager.undo sampleEngine sampleDocument).manager.currentIndex = -1 :=
  ⟨by decide, by decide,
    ((undo_returns_record_or_none sampleEngine sampleManager sampleDocument
      (by decide)).2.2 (by decide)).2.1,
    ((undo_returns_record_or_none sampleEngine sampleManager sampleDocument
      (by decide)).2.2 (by decide)).2.2.1⟩

/-- C4: on a state satisfying the history invariant, `canRedo()` is false exactly when
`currentIndex` is the last index (`length - 1`, which is `-1` for the empty history),
and then `redo()` returns none and changes nothing; otherwise `redo()` increments
`currentIndex` by one, returns the record at the new `currentIndex`, leaves the record
sequence unchanged and, when that record's element is attached, writes the record's
`newValue` to the record's property of that element. -/
theorem redo_returns_record_or_none (eng : StyleEngine) (h : HistoryManager)
    (doc : Document) (hinv : h.Inv) :
    (h.canRedo = false ↔ h.currentIndex = (h.history.length : Int) - 1) ∧
    (h.canRedo = false →
      (h.redo eng doc).completion = .normal none ∧ (h.redo eng doc).manager = h ∧
        (h.redo eng doc).doc = doc) ∧
    (h.canRedo = true →
      (jsIndex h.history (h.currentIndex + 1)).isSome = true ∧
      (h.redo eng doc).completion = .normal (jsIndex h.history (h.currentIndex + 1)) ∧
      (h.redo eng doc).manager.currentIndex = h.currentIndex + 1 ∧
      (h.redo eng doc).manager.history = h.history ∧
      ∀ change, jsIndex h.history (h.currentIndex + 1) = some change →
        (doc.node change.element).isConnected = true →
        (h.redo eng doc).doc =
          doc.writeProperty eng change.element change.property change.newValue) := by
  refine ⟨?_, ?_, ?_⟩
  · have hhi := hinv.2.2.2
    simp only [HistoryManager.canRedo, decide_eq_false_iff_not, not_lt]
    omega
  · intro hc
    rw [redo_of_not_canRedo eng h doc hc]
    exact ⟨rfl, rfl, rfl⟩
  · intro hc
    obtain ⟨change, hrec⟩ := canRedo_record h hinv hc
    rw [redo_of_canRedo eng h doc change hc hrec, hrec]
    refine ⟨rfl, rfl, rfl, rfl, ?_⟩
    intro change1 h1 hconn
    have hEq : change = change1 := Option.some.inj h1
    subst hEq
    simp only [hconn, if_true]

theorem redo_returns_record_or_none_witness :
    sampleManager.Inv ∧ sampleManager.canRedo = true ∧
      (sampleManager.redo sampleEngine sampleDocument).completion =
        .normal (some (newRecord sampleDocument 2 "width" "1px" "2px" 1)) ∧
      (sampleManager.redo sampleEngine sampleDocument).manager.currentIndex = 1 :=
  ⟨by decide, by decide,
    ((redo_returns_record_or_none sampleEngine sampleManager sampleDocument
      (by decide)).2.2 (by decide)).2.1,
    ((redo_returns_record_or_none sampleEngine sampleManager sampleDocument
      (by decide)).2.2 (by decide)).2.2.1⟩

/-! ### addChange -/

theorem mem_take_index {α : Type} (xs : List α) (n : Nat) (x : α) (hx : x ∈ xs.take n) :
    ∃ i : Nat, i < n ∧ xs.get? i = some x := by
  rw [List.mem_take_iff_getElem] at hx
  obtain ⟨i, hi, rfl⟩ := hx
  refine ⟨i, by omega, ?_⟩
  have hlt : i < xs.length := by omega
  simp [hlt]

/-- C5: on a state satisfying the history invariant with records `r_0 .. r_(n-1)` and
cursor `c`, the sequence after `addChange` is `r_0 .. r_c` followed by the new record,
with `r_0` dropped when that holds more than 50 records; every record afterwards is the
new one or some `r_i` with `i ≤ c`; and `canRedo()` is false afterwards. -/
theorem addChange_discards_redo_tail (h : HistoryManager) (doc : Document) (element : Nat)
    (property oldValue newValue : String) (now : Nat) (hinv : h.Inv) :
    (h.addChange doc element property oldValue newValue now).history =
      (if 50 < (h.history.take (h.currentIndex + 1).toNat).length + 1 then
        (h.history.take (h.currentIndex + 1).toNat).drop 1 ++
          [newRecord doc element property oldValue newValue now]
      else
        h.history.take (h.currentIndex + 1).toNat ++
          [newRecord doc element property oldValue newValue now]) ∧
    (∀ x ∈ (h.addChange doc element property oldValue newValue now).history,
      x = newRecord doc element property oldValue newValue now ∨
        ∃ i : Nat, (i : Int) ≤ h.currentIndex ∧ h.history.get? i = some x) ∧
    (h.addChange doc element property oldValue newValue now).canRedo = false := by
  obtain ⟨hmax, hlen, hlo, hhi⟩ := hinv
  have hseq : (h.addChange doc element property oldValue newValue now).history =
      (if 50 < (h.history.take (h.currentIndex + 1).toNat).length + 1 then
        (h.history.take (h.currentIndex + 1).toNat).drop 1 ++
          [newRecord doc element property oldValue newValue now]
      else
        h.history.take (h.currentIndex + 1).toNat ++
          [newRecord doc element property oldValue newValue now]) := by
    rw [addChange_eq _ _ _ _ _ _ _ hlo]
    simp only [List.length_append, List.length_singleton, hmax, gt_iff_lt]
    split
    · rename_i hgt
      have hne : h.history.take (h.currentIndex + 1).toNat ≠ [] := by
        intro hnil
        rw [hnil] at hgt
        simp at hgt
      simp only [List.tail_append_of_ne_nil hne, List.drop_one]
    · rfl
  refine ⟨hseq, ?_, ?_⟩
  · intro x hx
    rw [hseq] at hx
    have hmem : x ∈ h.history.take (h.currentIndex + 1).toNat ∨
        x = newRecord doc element property oldValue newValue now := by
      split at hx
      · rcases List.mem_append.mp hx with hx1 | hx1
        · exact Or.inl (List.mem_of_mem_drop hx1)
        · exact Or.inr (List.mem_singleton.mp hx1)
      · rcases List.mem_append.mp hx with hx1 | hx1
        · exact Or.inl hx1
        · exact Or.inr (List.mem_singleton.mp hx1)
    rcases hmem with hx1 | hx1
    · obtain ⟨i, hi, hget⟩ := mem_take_index _ _ _ hx1
      exact Or.inr ⟨i, by omega, hget⟩
    · exact Or.inl hx1
  · rw [addChange_eq _ _ _ _ _ _ _ hlo]
    simp only [List.length_append, List.length_singleton, hmax, gt_iff_lt]
    split
    · rename_i hgt
      simp only [List.length_take] at hgt
      simp only [HistoryManager.canRedo, decide_eq_false_iff_not, not_lt, List.length_tail,
        List.length_append, List.length_take, List.length_singleton]
      omega
    · simp only [HistoryManager.canRedo, decide_eq_false_iff_not, not_lt,
        List.length_append, List.length_take, List.length_singleton]
      omega

theorem addChange_discards_redo_tail_witness :
    sampleManager.Inv ∧
      (sampleManager.addChange sampleDocument 1 "height" "3px" "4px" 2).history =
        [newRecord sampleDocument 0 "color" "red" "blue" 0,
          newRecord sampleDocument 1 "height" "3px" "4px" 2] ∧
      (sampleManager.addChange sampleDocument 1 "height" "3px" "4px" 2).canRedo = false :=
  ⟨by decide,
    (addChange_discards_redo_tail sampleManager sampleDocument 1 "height" "3px" "4px" 2
      (by decide)).1,
    (addChange_discards_redo_tail sampleManager sampleDocument 1 "height" "3px" "4px" 2
      (by decide)).2.2⟩

/-- C6: on a state satisfying the history invariant, `addChange` either evicts the
oldest record and leaves `currentIndex` unchanged, which happens exactly when the
truncated sequence with the new record holds more than 50 records, or evicts nothing
and increases `currentIndex` by exactly one, which happens exactly otherwise; exactly
one of the two happens. -/
theorem addChange_evicts_xor_advances (h : HistoryManager) (doc : Document) (element : Nat)
    (property oldValue newValue : String) (now : Nat) (hinv : h.Inv) :
    (50 < (h.history.take (h.currentIndex + 1).toNat ++
            [newRecord doc element property oldValue newValue now]).length ↔
      ((h.addChange doc element property oldValue newValue now).history =
          (h.history.take (h.currentIndex + 1).toNat ++
            [newRecord doc element property oldValue newValue now]).tail ∧
        (h.addChange doc element property oldValue newValue now).currentIndex =
          h.currentIndex)) ∧
    ((h.history.take (h.currentIndex + 1).toNat ++
            [newRecord doc element property oldValue newValue now]).length ≤ 50 ↔
      ((h.addChange doc element property oldValue newValue now).history =
          h.history.take (h.currentIndex + 1).toNat ++
            [newRecord doc element property oldValue newValue now] ∧
        (h.addChange doc element property oldValue newValue now).currentIndex =
          h.currentIndex + 1)) ∧
    Xor'
      ((h.addChange doc element property oldValue newValue now).history =
          (h.history.take (h.currentIndex + 1).toNat ++
            [newRecord doc element property oldValue newValue now]).tail ∧
        (h.addChange doc element property oldValue newValue now).currentIndex =
          h.currentIndex)
      ((h.addChange doc element property oldValue newValue now).history =
          h.history.take (h.currentIndex + 1).toNat ++
            [newRecord doc element property oldValue newValue now] ∧
        (h.addChange doc element property oldValue newValue now).currentIndex =
          h.currentIndex + 1) := by
  obtain ⟨hmax, hlen, hlo, hhi⟩ := hinv
  rw [addChange_eq _ _ _ _ _ _ _ hlo]
  simp only [hmax, gt_iff_lt]
  by_cases hgt : 50 < (h.history.take (h.currentIndex + 1).toNat ++
      [newRecord doc element property oldValue newValue now]).length
  · rw [if_pos hgt]
    refine ⟨⟨fun _ => ⟨rfl, rfl⟩, fun _ => hgt⟩, ⟨fun hle => absurd hgt (by omega), ?_⟩, ?_⟩
    · rintro ⟨-, hcur⟩
      simp only [] at hcur
      omega
    · refine Or.inl ⟨⟨rfl, rfl⟩, ?_⟩
      rintro ⟨-, hcur⟩
      simp only [] at hcur
      omega
  · rw [if_neg hgt]
    refine ⟨⟨fun hlt => absurd hlt hgt, ?_⟩, ⟨fun _ => ⟨rfl, rfl⟩, fun _ => by omega⟩, ?_⟩
    · rintro ⟨-, hcur⟩
      simp only [] at hcur
      omega
    · refine Or.inr ⟨⟨rfl, rfl⟩, ?_⟩
      rintro ⟨-, hcur⟩
      simp only [] at hcur
      omega

theorem addChange_evicts_xor_advances_witness :
    fullManager.Inv ∧
      (fullManager.addChange sampleDocument 1 "height" "3px" "4px" 2).currentIndex = 49 ∧
      sampleManager.Inv ∧
      (sampleManager.addChange sampleDocument 1 "height" "3px" "4px" 2).currentIndex = 1 :=
  ⟨by decide,
    ((addChange_evicts_xor_advances fullManager sampleDocument 1 "height" "3px" "4px" 2
      (by decide)).1.mp (by decide)).2,
    by decide,
    ((addChange_evicts_xor_advances sampleManager sampleDocument 1 "height" "3px" "4px" 2
      (by decide)).2.1.mp (by decide)).2⟩

/-! ### resetElement -/

theorem length_filter_add_length_filter_not {α : Type} (p : α → Prop) [DecidablePred p]
    (xs : List α) :
    (xs.filter (fun x => decide (¬ p x))).length + (xs.filter (fun x => decide (p x))).length
      = xs.length := by
  induction xs with
  | nil => rfl
  | cons x xs ih =>
    by_cases hp : p x
    · simp only [List.filter_cons, hp, not_true_eq_false, decide_False, decide_True,
        if_true, List.length_cons]
      simp only [Bool.false_eq_true, if_false]
      omega
    · simp only [List.filter_cons, hp, not_false_eq_true, decide_False, decide_True,
        if_true, List.length_cons]
      simp only [Bool.false_eq_true, if_false]
      omega

theorem recordedFor_cons (e : Nat) (op : HistoryOp) (ops : List HistoryOp) :
    recordedFor e (op :: ops) = (if op.recordsFor e then 1 else 0) + recordedFor e ops := by
  unfold recordedFor
  rw [List.filter_cons]
  split
  · rw [List.length_cons]; omega
  · omega

theorem jsSlice0_sublist {α : Type} (xs : List α) (stop : Int) : (jsSlice0 xs stop).Sublist xs := by
  unfold jsSlice0
  split <;> exact List.take_sublist _ _

theorem addChange_changes_le (h : HistoryManager) (doc : Document) (element : Nat)
    (property oldValue newValue : String) (now : Nat) (e : Nat) :
    ((h.addChange doc element property oldValue newValue now).getElementChanges e).length ≤
      (h.getElementChanges e).length + (if element = e then 1 else 0) := by
  have hsub := (jsSlice0_sublist h.history (h.currentIndex + 1)).filter
    (fun change : ChangeRecord => decide (change.element = e))
  have hlen := hsub.length_le
  have hpush : ((jsSlice0 h.history (h.currentIndex + 1) ++
      [newRecord doc element property oldValue newValue now]).filter
        (fun change : ChangeRecord => decide (change.element = e))).length ≤
      (h.getElementChanges e).length + (if element = e then 1 else 0) := by
    rw [List.filter_append, List.length_append]
    have h1 : ([newRecord doc element property oldValue newValue now].filter
        (fun change : ChangeRecord => decide (change.element = e))).length =
        (if element = e then 1 else 0) := by
      by_cases he : element = e <;> simp [newRecord, he]
    unfold HistoryManager.getElementChanges
    omega
  unfold HistoryManager.addChange
  simp only []
  split
  · have htail := ((List.tail_sublist (jsSlice0 h.history (h.currentIndex + 1) ++
      [newRecord doc element property oldValue newValue now])).filter
        (fun change : ChangeRecord => decide (change.element = e))).length_le
    show (List.filter _ (List.tail _)).length ≤ _
    omega
  · exact hpush

theorem run_changes_le (eng : StyleEngine) (s : HistoryManager × Document) (op : HistoryOp)
    (e : Nat) :
    ((op.run eng s).1.getElementChanges e).length ≤
      (s.1.getElementChanges e).length + (if op.recordsFor e then 1 else 0) := by
  cases op with
  | addChange element property oldValue newValue now =>
    have := addChange_changes_le s.1 s.2 element property oldValue newValue now e
    simpa [HistoryOp.run, HistoryOp.recordsFor] using this
  | undo =>
    show ((s.1.undo eng s.2).manager.getElementChanges e).length ≤ _
    rw [undo_manager]
    split <;> simp [HistoryManager.getElementChanges, HistoryOp.recordsFor]
  | redo =>
    show ((s.1.redo eng s.2).manager.getElementChanges e).length ≤ _
    rw [redo_manager]
    split <;> simp [HistoryManager.getElementChanges, HistoryOp.recordsFor]
  | resetElement element =>
    have hsub := ((List.filter_sublist (p := fun change : ChangeRecord =>
      decide (change.element ≠ element)) s.1.history).filter
        (fun change : ChangeRecord => decide (change.element = e))).length_le
    show (List.filter _ (List.filter _ s.1.history)).length ≤ _
    unfold HistoryManager.getElementChanges
    omega
  | clear => simp [HistoryOp.run, HistoryManager.clear, HistoryManager.getElementChanges]
  | pageChange doc => simp [HistoryOp.run]

theorem runOps_changes_le (eng : StyleEngine) (e : Nat) (ops : List HistoryOp) :
    ∀ s : HistoryManager × Document,
      ((runOps eng s ops).1.getElementChanges e).length ≤
        (s.1.getElementChanges e).length + recordedFor e ops := by
  induction ops with
  | nil => intro s; simp [runOps, recordedFor]
  | cons op ops ih =>
    intro s
    have h1 := ih (op.run eng s)
    have h2 := run_changes_le eng s op e
    rw [recordedFor_cons]
    show ((runOps eng (op.run eng s) ops).1.getElementChanges e).length ≤ _
    omega

theorem addChange_at_end (h : HistoryManager) (doc : Document) (element : Nat)
    (property oldValue newValue : String) (now : Nat) (hmax : h.maxHistory = 50)
    (hcur : h.currentIndex = (h.history.length : Int) - 1) (hlen : h.history.length + 1 ≤ 50) :
    h.addChange doc element property oldValue newValue now =
      { h with history := h.history ++ [newRecord doc element property oldValue newValue now],
               currentIndex := h.currentIndex + 1 } := by
  rw [addChange_eq _ _ _ _ _ _ _ (by omega)]
  have htake : h.history.take (h.currentIndex + 1).toNat = h.history := by
    apply List.take_of_length_le
    omega
  rw [htake, if_neg]
  simp only [List.length_append, List.length_singleton, hmax]
  omega

theorem runOps_changes_eq (eng : StyleEngine) (e : Nat) (ops : List HistoryOp) :
    ∀ s : HistoryManager × Document, s.1.maxHistory = 50 →
      s.1.currentIndex = (s.1.history.length : Int) - 1 →
      s.1.history.length + ops.length ≤ 50 →
      (∀ op ∈ ops, op.isAddChange = true) →
      ((runOps eng s ops).1.getElementChanges e).length =
        (s.1.getElementChanges e).length + recordedFor e ops := by
  induction ops with
  | nil => intro s _ _ _ _; simp [runOps, recordedFor]
  | cons op ops ih =>
    intro s hmax hcur hlen hall
    have hop := hall op (List.mem_cons_self _ _)
    cases op with
    | addChange element property oldValue newValue now =>
      rw [List.length_cons] at hlen
      have hstep := addChange_at_end s.1 s.2 element property oldValue newValue now hmax hcur
        (by omega)
      have hrun : HistoryOp.run eng s (.addChange element property oldValue newValue now) =
          ({ s.1 with
              history := s.1.history ++
                [newRecord s.2 element property oldValue newValue now],
              currentIndex := s.1.currentIndex + 1 }, s.2) := by
        simp only [HistoryOp.run, hstep]
      have hrec := ih (HistoryOp.run eng s (.addChange element property oldValue newValue now))
        (by rw [hrun]; exact hmax)
        (by rw [hrun]; simp only [List.length_append, List.length_singleton]; push_cast; omega)
        (by rw [hrun]; simp only [List.length_append, List.length_singleton]; omega)
        (fun op1 hop1 => hall op1 (List.mem_cons_of_mem _ hop1))
      show ((runOps eng (HistoryOp.run eng s
        (.addChange element property oldValue newValue now)) ops).1.getElementChanges e).length
          = _
      rw [hrec, recordedFor_cons, hrun]
      have h1 : ([newRecord s.2 element property oldValue newValue now].filter
          (fun change : ChangeRecord => decide (change.element = e))).length =
          (if element = e then 1 else 0) := by
        by_cases he : element = e <;> simp [newRecord, he]
      simp only [HistoryManager.getElementChanges, List.filter_append, List.length_append, h1,
        HistoryOp.recordsFor, decide_eq_true_eq]
      omega
    | undo => simp [HistoryOp.isAddChange] at hop
    | redo => simp [HistoryOp.isAddChange] at hop
    | resetElement element => simp [HistoryOp.isAddChange] at hop
    | clear => simp [HistoryOp.isAddChange] at hop
    | pageChange doc => simp [HistoryOp.isAddChange] at hop

set_option maxRecDepth 100000 in
theorem overflowingOps_count :
    ((runOps sampleEngine (HistoryManager.initial, sampleDocument) overflowingOps).1.resetElement
      sampleEngine sampleDocument 0).count = 50 := by
  decide

/-- C7, as stated, fails: two changes were recorded for element 0 but the first was
undone and then overwritten, and `resetElement` removes and returns 1; fifty-one
changes were recorded for element 0 and `resetElement` removes and returns 50. -/
theorem resetElement_count_counterexample :
    recordedFor 0 overwritingOps = 2 ∧
    ((runOps sampleEngine (HistoryManager.initial, sampleDocument) overwritingOps).1.resetElement
      sampleEngine sampleDocument 0).count = 1 ∧
    (runOps sampleEngine (HistoryManager.initial, sampleDocument) overwritingOps).1.history.length
      - ((runOps sampleEngine (HistoryManager.initial, sampleDocument)
          overwritingOps).1.resetElement sampleEngine sampleDocument 0).manager.history.length
      = 1 ∧
    recordedFor 0 overflowingOps = 51 ∧
    ((runOps sampleEngine (HistoryManager.initial, sampleDocument) overflowingOps).1.resetElement
      sampleEngine sampleDocument 0).count = 50 := by
  exact ⟨by decide, by decide, by decide, by decide, overflowingOps_count⟩

/-- C7, amended: after any sequence of steps from the initial state, `resetElement(e)`
removes exactly the records of `e` still stored in the history (no record of `e`
remains, the length drops by their number) and returns their number; that number is
at most the number N of changes recorded for `e`, and it is exactly N when the steps
were `addChange` calls only and at most 50 of them. -/
theorem resetElement_removes_stored_records (eng : StyleEngine) (doc0 : Document)
    (ops : List HistoryOp) (e : Nat) :
    let s := runOps eng (HistoryManager.initial, doc0) ops
    (s.1.resetElement eng s.2 e).count =
        (s.1.history.filter (fun change => decide (change.element = e))).length ∧
      (s.1.resetElement eng s.2 e).manager.history.length +
        (s.1.resetElement eng s.2 e).count = s.1.history.length ∧
      (∀ x ∈ (s.1.resetElement eng s.2 e).manager.history, x.element ≠ e) ∧
      (s.1.resetElement eng s.2 e).count ≤ recordedFor e ops ∧
      ((∀ op ∈ ops, op.isAddChange = true) → ops.length ≤ 50 →
        (s.1.resetElement eng s.2 e).count = recordedFor e ops) := by
  intro s
  refine ⟨rfl, ?_, ?_, ?_, ?_⟩
  · exact length_filter_add_length_filter_not (fun change : ChangeRecord => change.element = e)
      s.1.history
  · intro x hx
    have hx1 : x ∈ s.1.history.filter (fun change => decide (change.element ≠ e)) := hx
    simpa using (List.mem_filter.mp hx1).2
  · have hle := runOps_changes_le eng e ops (HistoryManager.initial, doc0)
    have h0 : ((HistoryManager.initial, doc0).1.getElementChanges e).length = 0 := rfl
    show ((runOps eng (HistoryManager.initial, doc0) ops).1.getElementChanges e).length ≤ _
    omega
  · intro hall hlen
    have heq := runOps_changes_eq eng e ops (HistoryManager.initial, doc0) rfl rfl
      (by simpa [HistoryManager.initial] using hlen) hall
    have h0 : ((HistoryManager.initial, doc0).1.getElementChanges e).length = 0 := rfl
    show ((runOps eng (HistoryManager.initial, doc0) ops).1.getElementChanges e).length = _
    omega

theorem resetElement_removes_stored_records_witness :
    ((runOps sampleEngine (HistoryManager.initial, sampleDocument) plainOps).1.resetElement
      sampleEngine
      (runOps sampleEngine (HistoryManager.initial, sampleDocument) plainOps).2 0).count
      = recordedFor 0 plainOps ∧ recordedFor 0 plainOps = 2 :=
  ⟨(resetElement_removes_stored_records sampleEngine sampleDocument plainOps 0).2.2.2.2
      (by decide) (by decide),
    by decide⟩

/-- C8: `resetElement(e)` selects records by element identity: afterwards no record
references `e`; the remaining sequence is a subsequence of the old one (relative order
kept) in which every record of another element, whatever its selector label, occurs as
often as before; the returned count is the old length minus the new length; and
`currentIndex` is the new length minus one. -/
theorem resetElement_selects_by_identity (eng : StyleEngine) (h : HistoryManager)
    (doc : Document) (e : Nat) :
    (∀ x ∈ (h.resetElement eng doc e).manager.history, x.element ≠ e) ∧
    (h.resetElement eng doc e).manager.history.Sublist h.history ∧
    (∀ x : ChangeRecord, x.element ≠ e →
      (h.resetElement eng doc e).manager.history.count x = h.history.count x) ∧
    (∀ x ∈ h.history, x.element ≠ e → x ∈ (h.resetElement eng doc e).manager.history) ∧
    (h.resetElement eng doc e).count =
      h.history.length - (h.resetElement eng doc e).manager.history.length ∧
    (h.resetElement eng doc e).manager.currentIndex =
      ((h.resetElement eng doc e).manager.history.length : Int) - 1 := by
  have hhist : (h.resetElement eng doc e).manager.history =
      h.history.filter (fun change => decide (change.element ≠ e)) := rfl
  have hcount : (h.resetElement eng doc e).count =
      (h.history.filter (fun change => decide (change.element = e))).length := rfl
  refine ⟨?_, ?_, ?_, ?_, ?_, rfl⟩
  · intro x hx
    rw [hhist] at hx
    simpa using (List.mem_filter.mp hx).2
  · rw [hhist]
    exact List.filter_sublist _
  · intro x hx
    rw [hhist]
    exact List.count_filter (by simpa using hx)
  · intro x hx hne
    rw [hhist]
    exact List.mem_filter.mpr ⟨hx, by simpa using hne⟩
  · rw [hcount, hhist]
    have hsum : (h.history.filter (fun change => decide (change.element ≠ e))).length +
        (h.history.filter (fun change => decide (change.element = e))).length =
        h.history.length :=
      length_filter_add_length_filter_not
        (fun change : ChangeRecord => change.element = e) h.history
    omega

/-- Elements 0 and 2 of the sample page carry the same selector label; resetting
element 0 keeps the record of element 2. -/
theorem resetElement_same_selector_example :
    getElementSelector sampleDocument 0 = getElementSelector sampleDocument 2 ∧
      (sampleManager.resetElement sampleEngine sampleDocument 0).manager.history =
        [newRecord sampleDocument 2 "width" "1px" "2px" 1] ∧
      (sampleManager.resetElement sampleEngine sampleDocument 0).count = 1 := by
  decide

/-- C9: on a state satisfying the history invariant, `undo()` (when `canUndo()`) and
`redo()` (when `canRedo()`) return the record at the cursor and move `currentIndex` by
one whether or not the record's element is attached; when it is detached the page is
left as it was, when it is attached `undo()` writes `oldValue` and `redo()` writes
`newValue` to the record's property. -/
theorem undo_redo_skip_detached (eng : StyleEngine) (h : HistoryManager) (doc : Document)
    (hinv : h.Inv) :
    (h.canUndo = true →
      (jsIndex h.history h.currentIndex).isSome = true ∧
      ∀ change, jsIndex h.history h.currentIndex = some change →
        (h.undo eng doc).completion = .normal (some change) ∧
        (h.undo eng doc).manager = { h with currentIndex := h.currentIndex - 1 } ∧
        ((doc.node change.element).isConnected = false → (h.undo eng doc).doc = doc) ∧
        ((doc.node change.element).isConnected = true →
          (h.undo eng doc).doc =
            doc.writeProperty eng change.element change.property change.oldValue)) ∧
    (h.canRedo = true →
      (jsIndex h.history (h.currentIndex + 1)).isSome = true ∧
      ∀ change, jsIndex h.history (h.currentIndex + 1) = some change →
        (h.redo eng doc).completion = .normal (some change) ∧
        (h.redo eng doc).manager = { h with currentIndex := h.currentIndex + 1 } ∧
        ((doc.node change.element).isConnected = false → (h.redo eng doc).doc = doc) ∧
        ((doc.node change.element).isConnected = true →
          (h.redo eng doc).doc =
            doc.writeProperty eng change.element change.property change.newValue)) := by
  constructor
  · intro hc
    obtain ⟨change0, hrec0⟩ := canUndo_record h hinv hc
    refine ⟨by rw [hrec0]; rfl, ?_⟩
    intro change hrec
    rw [undo_of_canUndo eng h doc change hc hrec]
    refine ⟨rfl, rfl, ?_, ?_⟩
    · intro hconn
      simp only [hconn, Bool.false_eq_true, if_false]
    · intro hconn
      simp only [hconn, if_true]
  · intro hc
    obtain ⟨change0, hrec0⟩ := canRedo_record h hinv hc
    refine ⟨by rw [hrec0]; rfl, ?_⟩
    intro change hrec
    rw [redo_of_canRedo eng h doc change hc hrec]
    refine ⟨rfl, rfl, ?_, ?_⟩
    · intro hconn
      simp only [hconn, Bool.false_eq_true, if_false]
    · intro hconn
      simp only [hconn, if_true]

theorem undo_redo_skip_detached_witness :
    sampleManager.Inv ∧
      (sampleManager.undo sampleEngine sampleDocument).doc =
        sampleDocument.writeProperty sampleEngine 0 "color" "red" ∧
      (sampleManager.redo sampleEngine sampleDocument).completion =
        .normal (some (newRecord sampleDocument 2 "width" "1px" "2px" 1)) ∧
      (sampleManager.redo sampleEngine sampleDocument).doc = sampleDocument :=
  ⟨by decide,
    (((undo_redo_skip_detached sampleEngine sampleManager sampleDocument (by decide)).1
      (by decide)).2 (newRecord sampleDocument 0 "color" "red" "blue" 0) (by decide)).2.2.2
      (by decide),
    (((undo_redo_skip_detached sampleEngine sampleManager sampleDocument (by decide)).2
      (by decide)).2 (newRecord sampleDocument 2 "width" "1px" "2px" 1) (by decide)).1,
    (((undo_redo_skip_detached sampleEngine sampleManager sampleDocument (by decide)).2
      (by decide)).2 (newRecord sampleDocument 2 "width" "1px" "2px" 1) (by decide)).2.2.1
      (by decide)⟩

/-! ### Attachment checks -/

theorem jsIndex_some_bounds {α : Type} (xs : List α) (i : Int) (x : α)
    (h : jsIndex xs i = some x) : 0 ≤ i ∧ i < (xs.length : Int) := by
  unfold jsIndex at h
  split at h
  · exact absurd h (by simp)
  · rename_i hneg
    have hlt := (List.get?_eq_some.mp h).1
    omega

theorem resetChanges_detached (eng : StyleEngine) (e : Nat) (changes : List ChangeRecord) :
    ∀ doc : Document, (doc.node e).isConnected = false →
      (∀ change ∈ changes, change.element = e) →
      changes.foldl (resetChange eng) doc = doc := by
  induction changes with
  | nil => intro doc _ _; rfl
  | cons change changes ih =>
    intro doc hconn hall
    have he : change.element = e := hall change (List.mem_cons_self _ _)
    have hstep : resetChange eng doc change = doc := by
      unfold resetChange
      rw [he, hconn]
      rfl
    rw [List.foldl_cons, hstep]
    exact ih doc hconn (fun c hc => hall c (List.mem_cons_of_mem _ hc))

/-- C10, as stated, fails: element 2 of the sample page is detached, and
`modifyProperty` returns true and gives it the inline declaration `color: blue`;
`removeProperty` and `CSSEditor.resetElement` likewise rewrite the inline style of the
detached element. -/
theorem modifyProperty_writes_detached_element :
    (sampleDocument.node 2).isConnected = false ∧
    (sampleDocument.node 2).style = [] ∧
    (CSSEditor.modifyProperty sampleEngine sampleWorld (some 2) "color" "blue" true 0).2
      = true ∧
    ((CSSEditor.modifyProperty sampleEngine sampleWorld (some 2) "color" "blue" true
      0).1.doc.node 2).style = [("color", "blue")] ∧
    ((CSSEditor.removeProperty sampleEngine
      (CSSEditor.modifyProperty sampleEngine sampleWorld (some 2) "color" "blue" true 0).1
      (some 2) "color" true 1).1.doc.node 2).style = [] ∧
    ((CSSEditor.resetElement sampleEngine
      (CSSEditor.modifyProperty sampleEngine sampleWorld (some 2) "color" "blue" true 0).1
      (some 2)).1.doc.node 2).style = [] := by
  decide

/-! ### The undo/redo round trip -/

theorem getPropertyValue_removeDeclaration (style : List (String × String))
    (property : String) : getPropertyValue (removeDeclaration style property) property = "" := by
  unfold getPropertyValue removeDeclaration
  have hnone : (style.filter (fun d => decide (d.1 ≠ property))).find?
      (fun d => decide (d.1 = property)) = none := by
    rw [List.find?_eq_none]
    intro x hx
    have := (List.mem_filter.mp hx).2
    simpa using this
  rw [hnone]

theorem getPropertyValue_map_put (property value : String) :
    ∀ style : List (String × String), (∃ d ∈ style, d.1 = property) →
      getPropertyValue
        (style.map (fun d => if d.1 = property then (property, value) else d)) property
        = value := by
  intro style
  induction style with
  | nil => intro h; obtain ⟨d, hd, -⟩ := h; exact absurd hd (List.not_mem_nil d)
  | cons d style ih =>
    intro h
    by_cases hd : d.1 = property
    · simp [getPropertyValue, hd]
    · have hrest : ∃ d1 ∈ style, d1.1 = property := by
        obtain ⟨d1, hd1, hp⟩ := h
        rcases List.mem_cons.mp hd1 with heq | hmem
        · exact absurd (heq ▸ hp) hd
        · exact ⟨d1, hmem, hp⟩
      have := ih hrest
      simp only [getPropertyValue, List.map_cons, hd, if_false, decide_False,
        List.find?_cons_of_neg, Bool.false_eq_true, not_false_eq_true] at this ⊢
      exact this

theorem getPropertyValue_putDeclaration (style : List (String × String))
    (property value : String) :
    getPropertyValue (putDeclaration style property value) property = value := by
  unfold putDeclaration
  split
  · rename_i hany
    apply getPropertyValue_map_put
    simpa using hany
  · rename_i hany
    have hnone : style.find? (fun d => decide (d.1 = property)) = none := by
      rw [List.find?_eq_none]
      intro x hx hp
      apply hany
      simp only [List.any_eq_true]
      exact ⟨x, hx, hp⟩
    simp [getPropertyValue, hnone]

theorem getPropertyValue_styleSetProperty (eng : StyleEngine) (style : List (String × String))
    (property value stored : String) (hstored : storedValue eng property value = some stored) :
    getPropertyValue (styleSetProperty eng style property value) property = stored := by
  unfold storedValue at hstored
  unfold styleSetProperty
  split at hstored
  · rename_i hv
    rw [if_pos hv, getPropertyValue_removeDeclaration]
    exact Option.some.inj hstored
  · rename_i hv
    rw [if_neg hv, hstored]
    exact getPropertyValue_putDeclaration _ _ _

theorem writeProperty_node_same (eng : StyleEngine) (doc : Document) (e : Nat)
    (property value : String) :
    ((doc.writeProperty eng e property value).node e).style =
        styleSetProperty eng (doc.node e).style property value ∧
      ((doc.writeProperty eng e property value).node e).isConnected =
        (doc.node e).isConnected := by
  simp [Document.writeProperty, Document.setStyle]

/-- C2, as stated, fails.  The state `roundTripState` is reachable, `canUndo()` holds,
the record at the cursor is the change of `color` on element 0 from red to blue, and
element 0 is attached before the undo, after it and after the redo; the inline `color`
is `red` immediately before the undo and `blue` after `undo()` then `redo()`. -/
theorem undo_redo_round_trip_counterexample :
    Reachable sampleEngine roundTripState ∧
    roundTripState.1.canUndo = true ∧
    jsIndex roundTripState.1.history roundTripState.1.currentIndex =
      some (newRecord editedDocument 0 "color" "red" "blue" 0) ∧
    (roundTripState.2.node 0).isConnected = true ∧
    (((roundTripState.1.undo sampleEngine roundTripState.2).doc).node 0).isConnected = true ∧
    ((((roundTripState.1.undo sampleEngine roundTripState.2).manager.redo sampleEngine
      (roundTripState.1.undo sampleEngine roundTripState.2).doc).doc).node 0).isConnected
      = true ∧
    getPropertyValue (roundTripState.2.node 0).style "color" = "red" ∧
    getPropertyValue
      ((((roundTripState.1.undo sampleEngine roundTripState.2).manager.redo sampleEngine
        (roundTripState.1.undo sampleEngine roundTripState.2).doc).doc).node 0).style
      "color" = "blue" :=
  ⟨⟨editedDocument, roundTripOps, rfl⟩, by decide, by decide, by decide, by decide,
    by decide, by decide, by decide⟩

/-- C2, amended: for every reachable history state in which `canUndo()` holds and the
element of the record at the cursor is attached, `undo()` and then `redo()` both return
that record, restore the manager, keep the element attached, and leave the element's
inline value for the record's property equal to the value it had immediately before
the undo, provided that value is the one writing the record's `newValue` stores (as it
is right after the change was applied). -/
theorem undo_redo_round_trip (eng : StyleEngine) (s : HistoryManager × Document)
    (change : ChangeRecord) (hs : Reachable eng s) (hcan : s.1.canUndo = true)
    (hrec : jsIndex s.1.history s.1.currentIndex = some change)
    (hconn : (s.2.node change.element).isConnected = true)
    (hval : storedValue eng change.property change.newValue =
      some (getPropertyValue (s.2.node change.element).style change.property)) :
    (s.1.undo eng s.2).completion = .normal (some change) ∧
    ((s.1.undo eng s.2).manager.redo eng (s.1.undo eng s.2).doc).completion
      = .normal (some change) ∧
    ((s.1.undo eng s.2).manager.redo eng (s.1.undo eng s.2).doc).manager = s.1 ∧
    ((((s.1.undo eng s.2).manager.redo eng (s.1.undo eng s.2).doc).doc).node
      change.element).isConnected = true ∧
    getPropertyValue
      ((((s.1.undo eng s.2).manager.redo eng (s.1.undo eng s.2).doc).doc).node
        change.element).style change.property =
      getPropertyValue (s.2.node change.element).style change.property := by
  have hinv := reachable_inv eng s hs
  have hb := jsIndex_some_bounds _ _ _ hrec
  have hundo := undo_of_canUndo eng s.1 s.2 change hcan hrec
  simp only [hconn, if_true] at hundo
  rw [hundo]
  have hcan2 : ({ s.1 with currentIndex := s.1.currentIndex - 1 } : HistoryManager).canRedo
      = true := by
    simp only [HistoryManager.canRedo, decide_eq_true_eq]
    omega
  have hrec2 : jsIndex ({ s.1 with currentIndex := s.1.currentIndex - 1 } : HistoryManager).history
      (({ s.1 with currentIndex := s.1.currentIndex - 1 } : HistoryManager).currentIndex + 1)
      = some change := by
    show jsIndex s.1.history (s.1.currentIndex - 1 + 1) = some change
    rw [Int.sub_add_cancel]
    exact hrec
  have hw := writeProperty_node_same eng s.2 change.element change.property change.oldValue
  have hredo := redo_of_canRedo eng { s.1 with currentIndex := s.1.currentIndex - 1 }
    (s.2.writeProperty eng change.element change.property change.oldValue) change hcan2 hrec2
  rw [hw.2, hconn] at hredo
  simp only [if_true] at hredo
  rw [hredo]
  have hw2 := writeProperty_node_same eng
    (s.2.writeProperty eng change.element change.property change.oldValue)
    change.element change.property change.newValue
  refine ⟨rfl, rfl, ?_, ?_, ?_⟩
  · show ({ s.1 with currentIndex := s.1.currentIndex - 1 + 1 } : HistoryManager) = s.1
    rw [Int.sub_add_cancel]
  · show ((Document.writeProperty eng _ change.element change.property
      change.newValue).node change.element).isConnected = true
    rw [hw2.2, hw.2, hconn]
  · show getPropertyValue ((Document.writeProperty eng _ change.element change.property
      change.newValue).node change.element).style change.property = _
    rw [hw2.1]
    exact getPropertyValue_styleSetProperty eng _ _ _ _ hval

theorem undo_redo_round_trip_witness :
    Reachable sampleEngine
      (runOps sampleEngine (HistoryManager.initial, editedDocument)
        [.addChange 0 "color" "red" "blue" 0]) ∧
    getPropertyValue
      (((((runOps sampleEngine (HistoryManager.initial, editedDocument)
          [.addChange 0 "color" "red" "blue" 0]).1.undo sampleEngine
            editedDocument).manager.redo sampleEngine
        ((runOps sampleEngine (HistoryManager.initial, editedDocument)
          [.addChange 0 "color" "red" "blue" 0]).1.undo sampleEngine
            editedDocument).doc).doc).node 0).style "color" = "blue" :=
  ⟨⟨editedDocument, [.addChange 0 "color" "red" "blue" 0], rfl⟩,
    (undo_redo_round_trip sampleEngine
      (runOps sampleEngine (HistoryManager.initial, editedDocument)
        [.addChange 0 "color" "red" "blue" 0])
      (newRecord editedDocument 0 "color" "red" "blue" 0)
      ⟨editedDocument, [.addChange 0 "color" "red" "blue" 0], rfl⟩
      (by decide) (by decide) (by decide) (by decide)).2.2.2.2⟩

/-- C1 at a concrete run: fifty-one recorded changes leave 50 records and the cursor
on the last one. -/
theorem reachable_total_and_cursor_bounds_witness :
    Reachable sampleEngine
      (runOps sampleEngine (HistoryManager.initial, sampleDocument) overflowingOps) ∧
    (runOps sampleEngine (HistoryManager.initial, sampleDocument)
      overflowingOps).1.getStats.total ≤ 50 :=
  ⟨⟨sampleDocument, overflowingOps, rfl⟩,
    by
      have hb := reachable_total_and_cursor_bounds sampleEngine
        (runOps sampleEngine (HistoryManager.initial, sampleDocument) overflowingOps)
        ⟨sampleDocument, overflowingOps, rfl⟩
      omega⟩

/-! ### modifyProperty -/

theorem addChange_record_at_cursor (h : HistoryManager) (doc : Document) (element : Nat)
    (property oldValue newValue : String) (now : Nat) (hinv : h.Inv) :
    jsIndex (h.addChange doc element property oldValue newValue now).history
        (h.addChange doc element property oldValue newValue now).currentIndex =
      some (newRecord doc element property oldValue newValue now) ∧
    (h.addChange doc element property oldValue newValue now).history.getLast? =
      some (newRecord doc element property oldValue newValue now) := by
  obtain ⟨hmax, hlen, hlo, hhi⟩ := hinv
  rw [addChange_eq _ _ _ _ _ _ _ hlo]
  have htake : (h.history.take (h.currentIndex + 1).toNat).length = (h.currentIndex + 1).toNat := by
    rw [List.length_take]
    omega
  split
  · rename_i hgt
    simp only [List.length_append, List.length_singleton, hmax, htake] at hgt
    have hne : h.history.take (h.currentIndex + 1).toNat ≠ [] := by
      intro hnil
      rw [hnil] at htake
      simp only [List.length_nil] at htake
      omega
    simp only [List.tail_append_of_ne_nil hne]
    refine ⟨?_, List.getLast?_concat _⟩
    unfold jsIndex
    rw [if_neg (by omega), List.get?_eq_getElem?]
    have hidx : h.currentIndex.toNat = (h.history.take (h.currentIndex + 1).toNat).tail.length := by
      rw [List.length_tail, htake]
      omega
    rw [hidx]
    exact List.getElem?_concat_length _ _
  · refine ⟨?_, List.getLast?_concat _⟩
    unfold jsIndex
    simp only []
    rw [if_neg (by omega), List.get?_eq_getElem?]
    have key : ∀ (l : List ChangeRecord) (n : Nat) (x : ChangeRecord), l.length = n →
        (l ++ [x])[n]? = some x := by
      intro l n x hl
      subst hl
      exact List.getElem?_concat_length _ _
    exact key _ _ _ htake

/-- C11: when validation fails (`CSSParser.isValidValue` is false), `modifyProperty`
returns false and leaves everything as it was: the element's inline style, the
history with its records and `currentIndex`, the editor and the dispatched events.
It returns normally on every input. -/
theorem modifyProperty_invalid_value (eng : StyleEngine) (w : World) (element : Option Nat)
    (property value : String) (addToHistory : Bool) (now : Nat)
    (hinvalid : CSSParser.isValidValue eng property value = false) :
    CSSEditor.modifyProperty eng w element property value addToHistory now = (w, false) := by
  unfold CSSEditor.modifyProperty
  cases element with
  | none => rfl
  | some e => simp [hinvalid]

theorem modifyProperty_invalid_value_witness :
    CSSParser.isValidValue browserEngine "color" "not-a-color-xyz" = false ∧
      CSSEditor.modifyProperty browserEngine sampleWorld (some 0) "color" "not-a-color-xyz"
        true 0 = (sampleWorld, false) :=
  ⟨by decide,
    modifyProperty_invalid_value browserEngine sampleWorld (some 0) "color" "not-a-color-xyz"
      true 0 (by decide)⟩

/-- C12, as stated, fails: the empty string is not one of the three keywords and reads
back empty from the style engine, yet `isValidValue` accepts it. -/
theorem isValidValue_accepts_empty_string :
    browserEngine.readBack "color" "" = "" ∧
    ("" : String) ≠ "initial" ∧ ("" : String) ≠ "inherit" ∧ ("" : String) ≠ "unset" ∧
    CSSParser.isValidValue browserEngine "color" "" = true := by
  decide

/-- C12, amended: `isValidValue` accepts a value if and only if the value is the empty
string, or one of the keywords `initial`, `inherit`, `unset`, or assigning it to the
property through the style engine reads back non-empty; every other value is
rejected. -/
theorem isValidValue_iff (eng : StyleEngine) (property value : String) :
    CSSParser.isValidValue eng property value = true ↔
      (value = "" ∨ value = "initial" ∨ value = "inherit" ∨ value = "unset" ∨
        eng.readBack property value ≠ "") := by
  unfold CSSParser.isValidValue
  by_cases hk : value = "" ∨ value = "initial" ∨ value = "inherit" ∨ value = "unset"
  · rw [if_pos hk]
    simp only [true_iff]
    rcases hk with h | h | h | h
    · exact Or.inl h
    · exact Or.inr (Or.inl h)
    · exact Or.inr (Or.inr (Or.inl h))
    · exact Or.inr (Or.inr (Or.inr (Or.inl h)))
  · rw [if_neg hk]
    simp only [decide_eq_true_eq]
    constructor
    · intro h
      exact Or.inr (Or.inr (Or.inr (Or.inr h)))
    · intro h
      rcases h with h | h | h | h | h
      · exact absurd (Or.inl h) hk
      · exact absurd (Or.inr (Or.inl h)) hk
      · exact absurd (Or.inr (Or.inr (Or.inl h))) hk
      · exact absurd (Or.inr (Or.inr (Or.inr h))) hk
      · exact h

theorem setStyle_node_same (doc : Document) (e : Nat) (style : List (String × String)) :
    ((doc.setStyle e style).node e).style = style ∧
      ((doc.setStyle e style).node e).isConnected = (doc.node e).isConnected := by
  simp [Document.setStyle]

theorem modifyProperty_of_valid (eng : StyleEngine) (w : World) (e : Nat)
    (property value : String) (addToHistory : Bool) (now : Nat)
    (hvalid : CSSParser.isValidValue eng property value = true) :
    CSSEditor.modifyProperty eng w (some e) property value addToHistory now =
      ({ w with
          doc := w.doc.writeProperty eng e property value
          cssHistory :=
            if addToHistory then
              w.cssHistory.addChange (w.doc.writeProperty eng e property value) e property
                (effectiveValue eng w.doc e property) value now
            else w.cssHistory
          events := w.events ++
            [.cssPropertyChanged e property (effectiveValue eng w.doc e property) value] },
        true) := by
  unfold CSSEditor.modifyProperty
  simp [hvalid]

/-- C13, as stated, fails: `colour` is no property of the engine, `inherit` passes
validation as a keyword without the engine being asked, and `modifyProperty` returns
true and records the change while the element's inline value for `colour` stays
empty. -/
theorem modifyProperty_keyword_on_unknown_property :
    CSSParser.isValidValue browserEngine "colour" "inherit" = true ∧
    (CSSEditor.modifyProperty browserEngine sampleWorld (some 0) "colour" "inherit" true 0).2
      = true ∧
    getPropertyValue
      ((CSSEditor.modifyProperty browserEngine sampleWorld (some 0) "colour" "inherit" true
        0).1.doc.node 0).style "colour" = "" ∧
    (CSSEditor.modifyProperty browserEngine sampleWorld (some 0) "colour" "inherit" true
      0).1.cssHistory.history.length = 1 := by
  decide

/-- C13, amended: for every element, property and value that passes validation, with
recording on and the history invariant holding, `modifyProperty` returns true, the
element's inline style is the result of `style.setProperty(property, value)` (the
inline value becomes the form the engine stores when it accepts the declaration and
the style is unchanged when it ignores it), and one record is pushed by `addChange`
which is the last record and the record at the cursor afterwards, with that property,
`newValue` the given value and `oldValue` the inline value before the call if there
was one and the computed value otherwise. -/
theorem modifyProperty_valid_value (eng : StyleEngine) (w : World) (e : Nat)
    (property value : String) (now : Nat) (hinv : w.cssHistory.Inv)
    (hvalid : CSSParser.isValidValue eng property value = true) :
    (CSSEditor.modifyProperty eng w (some e) property value true now).2 = true ∧
    ((CSSEditor.modifyProperty eng w (some e) property value true now).1.doc.node e).style =
      styleSetProperty eng (w.doc.node e).style property value ∧
    (∀ stored, storedValue eng property value = some stored →
      getPropertyValue
        ((CSSEditor.modifyProperty eng w (some e) property value true now).1.doc.node e).style
        property = stored) ∧
    (storedValue eng property value = none →
      ((CSSEditor.modifyProperty eng w (some e) property value true now).1.doc.node e).style =
        (w.doc.node e).style) ∧
    (CSSEditor.modifyProperty eng w (some e) property value true now).1.cssHistory =
      w.cssHistory.addChange (w.doc.writeProperty eng e property value) e property
        (if getPropertyValue (w.doc.node e).style property = "" then
          getPropertyValue (eng.computed w.doc e) property
        else getPropertyValue (w.doc.node e).style property) value now ∧
    (CSSEditor.modifyProperty eng w (some e) property value true now).1.cssHistory.history.getLast?
      = some (newRecord (w.doc.writeProperty eng e property value) e property
        (effectiveValue eng w.doc e property) value now) ∧
    jsIndex (CSSEditor.modifyProperty eng w (some e) property value true now).1.cssHistory.history
      (CSSEditor.modifyProperty eng w (some e) property value true now).1.cssHistory.currentIndex
      = some (newRecord (w.doc.writeProperty eng e property value) e property
        (effectiveValue eng w.doc e property) value now) := by
  rw [modifyProperty_of_valid eng w e property value true now hvalid]
  have hat := addChange_record_at_cursor w.cssHistory (w.doc.writeProperty eng e property value)
    e property (effectiveValue eng w.doc e property) value now hinv
  have hw := writeProperty_node_same eng w.doc e property value
  refine ⟨rfl, hw.1, ?_, ?_, rfl, hat.2, hat.1⟩
  · intro stored hstored
    show getPropertyValue ((w.doc.writeProperty eng e property value).node e).style property = _
    rw [hw.1]
    exact getPropertyValue_styleSetProperty eng _ _ _ _ hstored
  · intro hnone
    show ((w.doc.writeProperty eng e property value).node e).style = _
    rw [hw.1]
    unfold storedValue at hnone
    unfold styleSetProperty
    split at hnone
    · exact absurd hnone (by simp)
    · rename_i hv
      rw [if_neg hv, hnone]

theorem modifyProperty_valid_value_witness :
    sampleWorld.cssHistory.Inv ∧
    CSSParser.isValidValue browserEngine "opacity" "0.5" = true ∧
    getPropertyValue
      ((CSSEditor.modifyProperty browserEngine sampleWorld (some 0) "opacity" "0.5" true
        0).1.doc.node 0).style "opacity" = "0.5" ∧
    jsIndex
      (CSSEditor.modifyProperty browserEngine sampleWorld (some 0) "opacity" "0.5" true
        0).1.cssHistory.history
      (CSSEditor.modifyProperty browserEngine sampleWorld (some 0) "opacity" "0.5" true
        0).1.cssHistory.currentIndex
      = some (newRecord sampleDocument 0 "opacity" "1" "0.5" 0) :=
  ⟨by decide, by decide,
    (modifyProperty_valid_value browserEngine sampleWorld 0 "opacity" "0.5" 0 (by decide)
      (by decide)).2.2.1 "0.5" (by decide),
    (modifyProperty_valid_value browserEngine sampleWorld 0 "opacity" "0.5" 0 (by decide)
      (by decide)).2.2.2.2.2.2⟩

/-- C14: for an attached element, with the history invariant holding and an engine that
stores the pre-call value as written, a successful `modifyProperty` with recording
followed at once by `undo()` makes `undo()` return exactly the record `modifyProperty`
pushed (the record at the cursor), move the cursor back by one, and leave the
element's inline value for the property equal to that record's `oldValue`; when that
old value is empty the inline declaration is gone. -/
theorem modifyProperty_then_undo (eng : StyleEngine) (w : World) (e : Nat)
    (property value : String) (now : Nat) (hinv : w.cssHistory.Inv)
    (hvalid : CSSParser.isValidValue eng property value = true)
    (hconn : (w.doc.node e).isConnected = true)
    (hold : storedValue eng property (effectiveValue eng w.doc e property) =
      some (effectiveValue eng w.doc e property)) :
    jsIndex (CSSEditor.modifyProperty eng w (some e) property value true now).1.cssHistory.history
      (CSSEditor.modifyProperty eng w (some e) property value true now).1.cssHistory.currentIndex
      = some (newRecord (w.doc.writeProperty eng e property value) e property
        (effectiveValue eng w.doc e property) value now) ∧
    ((CSSEditor.modifyProperty eng w (some e) property value true now).1.cssHistory.undo eng
      (CSSEditor.modifyProperty eng w (some e) property value true now).1.doc).completion
      = .normal (some (newRecord (w.doc.writeProperty eng e property value) e property
        (effectiveValue eng w.doc e property) value now)) ∧
    ((CSSEditor.modifyProperty eng w (some e) property value true now).1.cssHistory.undo eng
      (CSSEditor.modifyProperty eng w (some e) property value true now).1.doc).manager.currentIndex
      = (CSSEditor.modifyProperty eng w (some e) property value true
          now).1.cssHistory.currentIndex - 1 ∧
    getPropertyValue
      ((((CSSEditor.modifyProperty eng w (some e) property value true now).1.cssHistory.undo eng
        (CSSEditor.modifyProperty eng w (some e) property value true now).1.doc).doc).node
          e).style property = effectiveValue eng w.doc e property ∧
    (effectiveValue eng w.doc e property = "" →
      ∀ d ∈ ((((CSSEditor.modifyProperty eng w (some e) property value true
          now).1.cssHistory.undo eng
        (CSSEditor.modifyProperty eng w (some e) property value true now).1.doc).doc).node
          e).style, d.1 ≠ property) := by
  rw [modifyProperty_of_valid eng w e property value true now hvalid]
  simp only [if_true]
  have hat := (addChange_record_at_cursor w.cssHistory (w.doc.writeProperty eng e property value)
    e property (effectiveValue eng w.doc e property) value now hinv).1
  have hb := jsIndex_some_bounds _ _ _ hat
  have hcan : (w.cssHistory.addChange (w.doc.writeProperty eng e property value) e property
      (effectiveValue eng w.doc e property) value now).canUndo = true := by
    simp only [HistoryManager.canUndo, decide_eq_true_eq]
    omega
  have hw := writeProperty_node_same eng w.doc e property value
  have hundo := undo_of_canUndo eng _ (w.doc.writeProperty eng e property value) _ hcan hat
  have helem : (newRecord (w.doc.writeProperty eng e property value) e property
      (effectiveValue eng w.doc e property) value now).element = e := rfl
  rw [helem, hw.2, hconn] at hundo
  simp only [if_true] at hundo
  rw [hundo]
  have hw2 := writeProperty_node_same eng (w.doc.writeProperty eng e property value) e property
    (effectiveValue eng w.doc e property)
  refine ⟨hat, rfl, rfl, ?_, ?_⟩
  · show getPropertyValue ((Document.writeProperty eng _ e property
      (effectiveValue eng w.doc e property)).node e).style property = _
    rw [hw2.1]
    exact getPropertyValue_styleSetProperty eng _ _ _ _ hold
  · intro hempty d hd
    have hd1 : d ∈ ((Document.writeProperty eng (w.doc.writeProperty eng e property value) e
      property (effectiveValue eng w.doc e property)).node e).style := hd
    rw [hw2.1, hempty] at hd1
    unfold styleSetProperty at hd1
    rw [if_pos rfl] at hd1
    unfold removeDeclaration at hd1
    simpa using (List.mem_filter.mp hd1).2

theorem modifyProperty_then_undo_witness :
    sampleWorld.cssHistory.Inv ∧ (sampleWorld.doc.node 0).isConnected = true ∧
    ((CSSEditor.modifyProperty browserEngine sampleWorld (some 0) "opacity" "0.5" true
        0).1.cssHistory.undo browserEngine
      (CSSEditor.modifyProperty browserEngine sampleWorld (some 0) "opacity" "0.5" true
        0).1.doc).completion
      = .normal (some (newRecord sampleDocument 0 "opacity" "1" "0.5" 0)) ∧
    getPropertyValue
      ((((CSSEditor.modifyProperty browserEngine sampleWorld (some 0) "opacity" "0.5" true
          0).1.cssHistory.undo browserEngine
        (CSSEditor.modifyProperty browserEngine sampleWorld (some 0) "opacity" "0.5" true
          0).1.doc).doc).node 0).style "opacity" = "1" :=
  ⟨by decide, by decide,
    (modifyProperty_then_undo browserEngine sampleWorld 0 "opacity" "0.5" 0 (by decide)
      (by decide) (by decide) (by decide)).2.1,
    (modifyProperty_then_undo browserEngine sampleWorld 0 "opacity" "0.5" 0 (by decide)
      (by decide) (by decide) (by decide)).2.2.2.1⟩

/-! ### adjustNumericValue -/

theorem isDigit_ne_minusSign (c : Char) (h : c.isDigit = true) : c ≠ minusSign := by
  intro hc
  rw [hc] at h
  exact absurd h (by decide)

theorem isDigit_ne_decimalPoint (c : Char) (h : c.isDigit = true) : c ≠ decimalPoint := by
  intro hc
  rw [hc] at h
  exact absurd h (by decide)

theorem takeWhile_isDigit_unit (u : List Char)
    (hu : ∀ c, u.head? = some c → c.isDigit = false ∧ c ≠ decimalPoint) :
    u.takeWhile Char.isDigit = [] ∧ u.dropWhile Char.isDigit = u ∧
      u.head? ≠ some decimalPoint := by
  cases u with
  | nil => simp
  | cons c cs =>
    have hc := hu c rfl
    refine ⟨?_, ?_, ?_⟩
    · rw [List.takeWhile_cons_of_neg (by simp [hc.1])]
    · rw [List.dropWhile_cons_of_neg (by simp [hc.1])]
    · intro h
      exact hc.2 (Option.some.inj h)

theorem matchNumericValue_digits (digits u : List Char) (hne : digits ≠ [])
    (hdig : ∀ c ∈ digits, c.isDigit = true)
    (hu : ∀ c, u.head? = some c → c.isDigit = false ∧ c ≠ decimalPoint)
    (hline : ∀ c ∈ u, isLineTerminator c = false) (sign body : List Char)
    (hbody : body = digits ++ u) :
    (match (if (body.dropWhile Char.isDigit).head? = some decimalPoint ∧
              (body.dropWhile Char.isDigit).tail.takeWhile Char.isDigit ≠ [] then
            some (sign ++ body.takeWhile Char.isDigit ++
                decimalPoint :: (body.dropWhile Char.isDigit).tail.takeWhile Char.isDigit,
              (body.dropWhile Char.isDigit).tail.dropWhile Char.isDigit)
          else if body.takeWhile Char.isDigit ≠ [] then
            some (sign ++ body.takeWhile Char.isDigit, body.dropWhile Char.isDigit)
          else none : Option (List Char × List Char)) with
      | some (token, rest) => if rest.any isLineTerminator then none else some (token, rest)
      | none => none) = some (sign ++ digits, u) := by
  obtain ⟨ht, hd, hh⟩ := takeWhile_isDigit_unit u hu
  have hwhole : body.takeWhile Char.isDigit = digits := by
    rw [hbody, List.takeWhile_append_of_pos hdig, ht, List.append_nil]
  have hafter : body.dropWhile Char.isDigit = u := by
    rw [hbody, List.dropWhile_append_of_pos hdig, hd]
  rw [hwhole, hafter]
  rw [if_neg (fun h => hh h.1), if_pos hne]
  have hany : u.any isLineTerminator = false := by
    rw [List.any_eq_false]
    intro c hc
    simp [hline c hc]
  simp only [hany, Bool.false_eq_true, if_false]

theorem parseValue_integer (negative : Bool) (digits : List Char) (u : String)
    (hne : digits ≠ []) (hdig : ∀ c ∈ digits, c.isDigit = true)
    (hu : ∀ c, u.data.head? = some c → c.isDigit = false ∧ c ≠ decimalPoint)
    (hline : ∀ c ∈ u.data, isLineTerminator c = false) :
    CSSParser.parseValue (integerText negative digits ++ u) =
      { number := .int (integerValue negative digits), unit := u } := by
  obtain ⟨d, ds, rfl⟩ := List.exists_cons_of_ne_nil hne
  have hd : d.isDigit = true := hdig d (List.mem_cons_self _ _)
  have hnopoint : ∀ c ∈ d :: ds, c ≠ decimalPoint :=
    fun c hc => isDigit_ne_decimalPoint c (hdig c hc)
  unfold CSSParser.parseValue
  cases negative with
  | true =>
    have hdata : (integerText true (d :: ds) ++ u).data = minusSign :: ((d :: ds) ++ u.data) := by
      simp [integerText, String.data_append]
    have hmatch : matchNumericValue (integerText true (d :: ds) ++ u).data =
        some ([minusSign] ++ (d :: ds), u.data) := by
      unfold matchNumericValue
      rw [hdata]
      simp only [List.head?_cons, if_true, List.tail_cons]
      exact matchNumericValue_digits (d :: ds) u.data hne hdig hu hline [minusSign] _ rfl
    rw [hmatch]
    have hfloat : parseFloatToken ([minusSign] ++ (d :: ds)) =
        .int (integerValue true (d :: ds)) := by
      unfold parseFloatToken
      have hmem : decimalPoint ∉ [minusSign] ++ (d :: ds) := by
        intro hmem
        rcases List.mem_append.mp hmem with h1 | h1
        · exact absurd (List.mem_singleton.mp h1) (by decide)
        · exact hnopoint _ h1 rfl
      rw [if_neg hmem]
      simp [integerValue]
    simp only [hfloat]
  | false =>
    have hdata : (integerText false (d :: ds) ++ u).data = (d :: ds) ++ u.data := by
      simp [integerText, String.data_append]
    have hhead : ((d :: ds) ++ u.data).head? ≠ some minusSign := by
      intro h
      exact isDigit_ne_minusSign d hd (Option.some.inj h)
    have hmatch : matchNumericValue (integerText false (d :: ds) ++ u).data =
        some ([] ++ (d :: ds), u.data) := by
      unfold matchNumericValue
      rw [hdata]
      simp only [if_neg hhead]
      exact matchNumericValue_digits (d :: ds) u.data hne hdig hu hline [] _ rfl
    rw [hmatch]
    have hfloat : parseFloatToken ([] ++ (d :: ds)) = .int (integerValue false (d :: ds)) := by
      unfold parseFloatToken
      have hmem : decimalPoint ∉ [] ++ (d :: ds) := by
        intro hmem
        exact hnopoint _ (by simpa using hmem) rfl
      rw [if_neg hmem]
      have hhead2 : ([] ++ (d :: ds)).head? ≠ some minusSign := by
        intro h
        exact isDigit_ne_minusSign d hd (Option.some.inj h)
      rw [if_neg hhead2]
      simp [integerValue]
    simp only [hfloat]

/-- C15, as stated, fails: the current value of `--gap` on element 0 is the integer 10
followed by a unit string that begins with a line feed (so neither with a digit nor
with `.`); with delta 1 `adjustNumericValue` passes `1` to `modifyProperty`, not 11
followed by the unit. -/
theorem adjustNumericValue_line_feed_unit :
    effectiveValue sampleEngine multilineWorld.doc 0 "--gap" =
      integerText false "10".data ++ String.mk (Char.ofNat 10 :: "px".data) ∧
    CSSEditor.adjustNumericValue sampleEngine multilineWorld (some 0) "--gap" 1 false 0 =
      some (CSSEditor.modifyProperty sampleEngine multilineWorld (some 0) "--gap" "1" true 0) ∧
    ("1" : String) ≠
      toString (integerValue false "10".data + 1) ++ String.mk (Char.ofNat 10 :: "px".data) := by
  refine ⟨by decide, ?_, by decide⟩
  have hparse : CSSParser.parseValue (effectiveValue sampleEngine multilineWorld.doc 0 "--gap")
      = { number := .int 0, unit := "" } := by decide
  unfold CSSEditor.adjustNumericValue
  simp only [hparse]
  rfl

/-- C15, amended: when the current value is an integer `n` (an optional minus sign and
digits) followed by a unit string `u` that begins neither with a digit nor with `.`
and contains no line terminator, and `n`, `delta`, the applied delta and their sum are
integers a JavaScript number holds exactly, `adjustNumericValue` returns what
`modifyProperty` returns for the value `n + delta` followed by `u` when shift is off
and `n + 10 * delta` followed by `u` when it is on. -/
theorem adjustNumericValue_integer (eng : StyleEngine) (w : World) (e : Nat)
    (property : String) (negative : Bool) (digits : List Char) (u : String) (delta : Int)
    (shiftKey : Bool) (now : Nat)
    (hne : digits ≠ []) (hdig : ∀ c ∈ digits, c.isDigit = true)
    (hu : ∀ c, u.data.head? = some c → c.isDigit = false ∧ c ≠ decimalPoint)
    (hline : ∀ c ∈ u.data, isLineTerminator c = false)
    (hcur : effectiveValue eng w.doc e property = integerText negative digits ++ u)
    (hn : isExactInteger (integerValue negative digits) = true)
    (hdelta : isExactInteger delta = true ∧
      isExactInteger (if shiftKey then delta * 10 else delta) = true)
    (hsum : isExactInteger
      (integerValue negative digits + (if shiftKey then delta * 10 else delta)) = true) :
    CSSEditor.adjustNumericValue eng w (some e) property delta shiftKey now =
      some (CSSEditor.modifyProperty eng w (some e) property
        (toString (integerValue negative digits + (if shiftKey then delta * 10 else delta))
          ++ u) true now) := by
  unfold CSSEditor.adjustNumericValue
  simp only [hcur, parseValue_integer negative digits u hne hdig hu hline, JsNumber.isNaN,
    Bool.false_eq_true, if_false, hn, hdelta.1, hdelta.2, hsum, and_self, if_true]

theorem adjustNumericValue_integer_witness :
    effectiveValue browserEngine sampleWorld.doc 0 "width" = integerText false "10".data ++ "px" ∧
    CSSEditor.adjustNumericValue browserEngine sampleWorld (some 0) "width" 1 false 0 =
      some (CSSEditor.modifyProperty browserEngine sampleWorld (some 0) "width"
        (toString (integerValue false "10".data + (if false then (1 : Int) * 10 else 1)) ++ "px")
        true 0) ∧
    toString (integerValue false "10".data + (1 : Int)) ++ "px" = "11px" ∧
    toString (integerValue false "10".data + (1 : Int) * 10) ++ "px" = "20px" :=
  ⟨by decide,
    adjustNumericValue_integer browserEngine sampleWorld 0 "width" false "10".data "px" 1 false 0
      (by decide) (by decide) (by decide) (by decide) (by decide) (by decide) (by decide)
      (by decide),
    by decide, by decide⟩

/-- C16 on the code: element 0 has no inline `z-index` and the computed value `auto`,
which has no leading numeric token (the expression does not match); `parseValue`
returns number 0, which is not NaN, and `adjustNumericValue` with delta 1 goes on to
`modifyProperty` with the value `1`: it returns true, the element gets the inline
declaration `z-index: 1` and a record is appended. -/
theorem adjustNumericValue_without_numeric_token :
    effectiveValue browserEngine sampleWorld.doc 0 "z-index" = "auto" ∧
    matchNumericValue "auto".data = none ∧
    CSSParser.parseValue "auto" = { number := .int 0, unit := "" } ∧
    (CSSParser.parseValue "auto").number.isNaN = false ∧
    (CSSEditor.adjustNumericValue browserEngine sampleWorld (some 0) "z-index" 1 false 0).map
        (fun r => (r.2, (r.1.doc.node 0).style, r.1.cssHistory.history.length,
          r.1.cssHistory.currentIndex)) =
      some (true, [("z-index", "1")], 1, 0) ∧
    (sampleWorld.doc.node 0).style = [] ∧ sampleWorld.cssHistory.history.length = 0 := by
  decide

/-! ### toggleProperty, removeProperty, resetElement -/

theorem getPropertyValue_of_no_declaration (style : List (String × String)) (property : String)
    (hnone : ∀ d ∈ style, d.1 ≠ property) : getPropertyValue style property = "" := by
  unfold getPropertyValue
  have hfind : style.find? (fun d => decide (d.1 = property)) = none := by
    rw [List.find?_eq_none]
    intro x hx
    simpa using hnone x hx
  rw [hfind]

theorem removeDeclaration_of_no_declaration (style : List (String × String))
    (property : String) (hnone : ∀ d ∈ style, d.1 ≠ property) :
    removeDeclaration style property = style := by
  unfold removeDeclaration
  rw [List.filter_eq_self]
  intro d hd
  simpa using hnone d hd

theorem removeDeclaration_putDeclaration (style : List (String × String))
    (property value : String) (hnone : ∀ d ∈ style, d.1 ≠ property) :
    removeDeclaration (putDeclaration style property value) property = style := by
  have hany : style.any (fun d => decide (d.1 = property)) = false := by
    rw [List.any_eq_false]
    intro d hd
    simpa using hnone d hd
  unfold putDeclaration
  rw [hany]
  simp only [Bool.false_eq_true, if_false]
  unfold removeDeclaration
  rw [List.filter_append]
  have h1 : style.filter (fun d => decide (d.1 ≠ property)) = style := by
    rw [List.filter_eq_self]
    intro d hd
    simpa using hnone d hd
  rw [h1]
  simp

theorem removeDeclaration_no_declaration (style : List (String × String)) (property : String) :
    ∀ d ∈ removeDeclaration style property, d.1 ≠ property := by
  intro d hd
  unfold removeDeclaration at hd
  simpa using (List.mem_filter.mp hd).2

theorem toggleProperty_of_set (eng : StyleEngine) (w : World) (e : Nat) (property : String)
    (now : Nat) (hset : getPropertyValue (w.doc.node e).style property ≠ "") :
    CSSEditor.toggleProperty eng w (some e) property now =
      ({ w with
          doc := w.doc.setStyle e (removeDeclaration (w.doc.node e).style property)
          cssHistory := w.cssHistory.addChange
            (w.doc.setStyle e (removeDeclaration (w.doc.node e).style property)) e property
            (getPropertyValue (w.doc.node e).style property) "" now
          events := w.events ++
            [.cssPropertyChanged e property (getPropertyValue (w.doc.node e).style property) ""] },
        false) := by
  unfold CSSEditor.toggleProperty
  simp [hset]

theorem toggleProperty_of_unset (eng : StyleEngine) (w : World) (e : Nat) (property : String)
    (now : Nat) (hunset : getPropertyValue (w.doc.node e).style property = "") :
    CSSEditor.toggleProperty eng w (some e) property now =
      (match CSSEditor.restoredValue eng w e property with
        | some value => CSSEditor.modifyProperty eng w (some e) property value true now
        | none => CSSEditor.modifyPropertyUndefined eng w e property now) := by
  unfold CSSEditor.toggleProperty
  simp [hunset]

theorem toggleProperty_unset_effect (eng : StyleEngine) (w : World) (e : Nat)
    (property value : String) (original : List (String × String)) (now : Nat)
    (hsnap : w.cssEditor.snapshot e = some original)
    (hvalue : snapshotValue original property = some value)
    (hunset : getPropertyValue (w.doc.node e).style property = "")
    (hvalid : CSSParser.isValidValue eng property value = true) :
    (CSSEditor.toggleProperty eng w (some e) property now).2 = true ∧
    ((CSSEditor.toggleProperty eng w (some e) property now).1.doc.node e).style =
      styleSetProperty eng (w.doc.node e).style property value ∧
    (CSSEditor.toggleProperty eng w (some e) property now).1.cssEditor = w.cssEditor := by
  have hrestored : CSSEditor.restoredValue eng w e property = some value := by
    unfold CSSEditor.restoredValue
    rw [hsnap]
    exact hvalue
  rw [toggleProperty_of_unset eng w e property now hunset, hrestored]
  simp only []
  rw [modifyProperty_of_valid eng w e property value true now hvalid]
  exact ⟨rfl, (writeProperty_node_same eng w.doc e property value).1, rfl⟩

theorem toggleProperty_set_effect (eng : StyleEngine) (w : World) (e : Nat)
    (property : String) (now : Nat)
    (hset : getPropertyValue (w.doc.node e).style property ≠ "") :
    (CSSEditor.toggleProperty eng w (some e) property now).2 = false ∧
    ((CSSEditor.toggleProperty eng w (some e) property now).1.doc.node e).style =
      removeDeclaration (w.doc.node e).style property := by
  rw [toggleProperty_of_set eng w e property now hset]
  exact ⟨rfl, (setStyle_node_same w.doc e _).1⟩

/-- C17: for an element whose snapshot holds `value` for a property without inline
declaration, on an engine that accepts `value` and stores it as written, the first
`toggleProperty` returns true and sets the inline value to the snapshot's value; a
second `toggleProperty` leaves no inline value for the property (returning false when
`value` is not empty); and after the two calls the element's inline style equals its
inline style before the first call. -/
theorem toggleProperty_twice_restores_style (eng : StyleEngine) (w : World) (e : Nat)
    (property value : String) (original : List (String × String)) (now1 now2 : Nat)
    (hsnap : w.cssEditor.snapshot e = some original)
    (hvalue : snapshotValue original property = some value)
    (hnone : ∀ d ∈ (w.doc.node e).style, d.1 ≠ property)
    (heng : eng.StoresAsWritten property value) :
    (CSSEditor.toggleProperty eng w (some e) property now1).2 = true ∧
    getPropertyValue
      ((CSSEditor.toggleProperty eng w (some e) property now1).1.doc.node e).style property
      = value ∧
    (value ≠ "" →
      (CSSEditor.toggleProperty eng (CSSEditor.toggleProperty eng w (some e) property now1).1
        (some e) property now2).2 = false) ∧
    getPropertyValue
      ((CSSEditor.toggleProperty eng (CSSEditor.toggleProperty eng w (some e) property now1).1
        (some e) property now2).1.doc.node e).style property = "" ∧
    ((CSSEditor.toggleProperty eng (CSSEditor.toggleProperty eng w (some e) property now1).1
        (some e) property now2).1.doc.node e).style = (w.doc.node e).style := by
  have hunset := getPropertyValue_of_no_declaration _ _ hnone
  obtain ⟨hret1, hstyle1, heditor1⟩ := toggleProperty_unset_effect eng w e property value
    original now1 hsnap hvalue hunset heng.2
  have hval1 : getPropertyValue
      ((CSSEditor.toggleProperty eng w (some e) property now1).1.doc.node e).style property
      = value := by
    rw [hstyle1]
    exact getPropertyValue_styleSetProperty eng _ _ _ _ heng.1
  refine ⟨hret1, hval1, ?_⟩
  by_cases hv : value = ""
  · have hsame1 : ((CSSEditor.toggleProperty eng w (some e) property now1).1.doc.node e).style
        = (w.doc.node e).style := by
      rw [hstyle1]
      unfold styleSetProperty
      rw [if_pos hv]
      exact removeDeclaration_of_no_declaration _ _ hnone
    have hunset1 : getPropertyValue
        ((CSSEditor.toggleProperty eng w (some e) property now1).1.doc.node e).style property
        = "" := by
      rw [hsame1]
      exact hunset
    obtain ⟨-, hstyle2, -⟩ := toggleProperty_unset_effect eng
      (CSSEditor.toggleProperty eng w (some e) property now1).1 e property value original now2
      (by rw [heditor1]; exact hsnap) hvalue hunset1 heng.2
    have hsame2 : ((CSSEditor.toggleProperty eng
        (CSSEditor.toggleProperty eng w (some e) property now1).1 (some e) property
        now2).1.doc.node e).style = (w.doc.node e).style := by
      rw [hstyle2, hsame1]
      unfold styleSetProperty
      rw [if_pos hv]
      exact removeDeclaration_of_no_declaration _ _ hnone
    refine ⟨fun h => absurd hv h, ?_, hsame2⟩
    rw [hsame2]
    exact hunset
  · have hparse : eng.parse property value = some value := by
      have h1 := heng.1
      unfold storedValue at h1
      rw [if_neg hv] at h1
      exact h1
    have hput1 : ((CSSEditor.toggleProperty eng w (some e) property now1).1.doc.node e).style
        = putDeclaration (w.doc.node e).style property value := by
      rw [hstyle1]
      unfold styleSetProperty
      rw [if_neg hv, hparse]
    have hset1 : getPropertyValue
        ((CSSEditor.toggleProperty eng w (some e) property now1).1.doc.node e).style property
        ≠ "" := by
      rw [hval1]
      exact hv
    obtain ⟨hret2, hstyle2⟩ := toggleProperty_set_effect eng
      (CSSEditor.toggleProperty eng w (some e) property now1).1 e property now2 hset1
    refine ⟨fun _ => hret2, ?_, ?_⟩
    · rw [hstyle2]
      exact getPropertyValue_removeDeclaration _ _
    · rw [hstyle2, hput1]
      exact removeDeclaration_putDeclaration _ _ _ hnone

theorem toggleProperty_twice_restores_style_witness :
    activatedWorld.cssEditor.snapshot 0 =
      some [("opacity", "1"), ("z-index", "auto"), ("width", "10px")] ∧
    getPropertyValue
      ((CSSEditor.toggleProperty browserEngine activatedWorld (some 0) "opacity" 0).1.doc.node
        0).style "opacity" = "1" ∧
    ((CSSEditor.toggleProperty browserEngine
        (CSSEditor.toggleProperty browserEngine activatedWorld (some 0) "opacity" 0).1
        (some 0) "opacity" 1).1.doc.node 0).style = (activatedWorld.doc.node 0).style :=
  ⟨by decide,
    (toggleProperty_twice_restores_style browserEngine activatedWorld 0 "opacity" "1"
      [("opacity", "1"), ("z-index", "auto"), ("width", "10px")] 0 1 (by decide) (by decide)
      (by decide) (by decide)).2.1,
    (toggleProperty_twice_restores_style browserEngine activatedWorld 0 "opacity" "1"
      [("opacity", "1"), ("z-index", "auto"), ("width", "10px")] 0 1 (by decide) (by decide)
      (by decide) (by decide)).2.2.2.2⟩

/-- C18: on a state satisfying the history invariant, `toggleProperty` returns false
when the property had a non-empty inline value: it removes the declaration and pushes
a record with that old value and `newValue` empty, which is the record at the cursor
afterwards.  When the property was not set it returns what `modifyProperty` returns
for the value restored from the snapshot, or from the current computed value when the
element has no snapshot, and that is true whenever the restored value passes
validation (a value the snapshot lacks always does). -/
theorem toggleProperty_result (eng : StyleEngine) (w : World) (e : Nat) (property : String)
    (now : Nat) (hinv : w.cssHistory.Inv)
    (hvalid : ∀ value, CSSEditor.restoredValue eng w e property = some value →
      CSSParser.isValidValue eng property value = true) :
    (getPropertyValue (w.doc.node e).style property ≠ "" →
      (CSSEditor.toggleProperty eng w (some e) property now).2 = false ∧
      getPropertyValue
        ((CSSEditor.toggleProperty eng w (some e) property now).1.doc.node e).style property
        = "" ∧
      jsIndex (CSSEditor.toggleProperty eng w (some e) property now).1.cssHistory.history
        (CSSEditor.toggleProperty eng w (some e) property now).1.cssHistory.currentIndex =
        some (newRecord (CSSEditor.toggleProperty eng w (some e) property now).1.doc e property
          (getPropertyValue (w.doc.node e).style property) "" now) ∧
      (CSSEditor.toggleProperty eng w (some e) property now).1.cssHistory.history.getLast? =
        some (newRecord (CSSEditor.toggleProperty eng w (some e) property now).1.doc e property
          (getPropertyValue (w.doc.node e).style property) "" now)) ∧
    (getPropertyValue (w.doc.node e).style property = "" →
      (CSSEditor.toggleProperty eng w (some e) property now).2 = true ∧
      (∀ value, CSSEditor.restoredValue eng w e property = some value →
        CSSEditor.toggleProperty eng w (some e) property now =
          CSSEditor.modifyProperty eng w (some e) property value true now) ∧
      (∀ original, w.cssEditor.snapshot e = some original →
        CSSEditor.restoredValue eng w e property = snapshotValue original property) ∧
      (w.cssEditor.snapshot e = none →
        CSSEditor.restoredValue eng w e property =
          some (getPropertyValue (eng.computed w.doc e) property))) := by
  constructor
  · intro hset
    rw [toggleProperty_of_set eng w e property now hset]
    have hat := addChange_record_at_cursor w.cssHistory
      (w.doc.setStyle e (removeDeclaration (w.doc.node e).style property)) e property
      (getPropertyValue (w.doc.node e).style property) "" now hinv
    refine ⟨rfl, ?_, hat.1, hat.2⟩
    show getPropertyValue ((Document.setStyle w.doc e _).node e).style property = ""
    rw [(setStyle_node_same w.doc e _).1]
    exact getPropertyValue_removeDeclaration _ _
  · intro hunset
    rw [toggleProperty_of_unset eng w e property now hunset]
    refine ⟨?_, ?_, ?_, ?_⟩
    · cases hr : CSSEditor.restoredValue eng w e property with
      | none => rfl
      | some value =>
        simp only []
        rw [modifyProperty_of_valid eng w e property value true now (hvalid value hr)]
    · intro value hr
      rw [hr]
    · intro original hsnap
      unfold CSSEditor.restoredValue
      rw [hsnap]
    · intro hsnap
      unfold CSSEditor.restoredValue
      rw [hsnap]

theorem toggleProperty_result_witness :
    activatedWorld.cssHistory.Inv ∧
    (CSSEditor.toggleProperty browserEngine activatedWorld (some 0) "opacity" 0).2 = true ∧
    (CSSEditor.toggleProperty browserEngine
      (CSSEditor.toggleProperty browserEngine activatedWorld (some 0) "opacity" 0).1
      (some 0) "opacity" 1).2 = false :=
  ⟨by decide,
    ((toggleProperty_result browserEngine activatedWorld 0 "opacity" 0 (by decide)
      (by decide)).2 (by decide)).1,
    ((toggleProperty_result browserEngine
      (CSSEditor.toggleProperty browserEngine activatedWorld (some 0) "opacity" 0).1 0
      "opacity" 1 (by decide) (by decide)).1 (by decide)).1⟩

/-- C19: for every element and property, on a state satisfying the history invariant,
`removeProperty` returns true and the property has no inline declaration afterwards
(also when it had none before); with recording on, one record is pushed by `addChange`
which is the last record and the record at the cursor afterwards, with `newValue`
empty and `oldValue` the inline value before the call if there was one and the
computed value otherwise; with recording off the history is untouched. -/
theorem removeProperty_always_succeeds (eng : StyleEngine) (w : World) (e : Nat)
    (property : String) (addToHistory : Bool) (now : Nat) (hinv : w.cssHistory.Inv) :
    (CSSEditor.removeProperty eng w (some e) property addToHistory now).2 = true ∧
    getPropertyValue
      ((CSSEditor.removeProperty eng w (some e) property addToHistory now).1.doc.node e).style
      property = "" ∧
    (∀ d ∈ ((CSSEditor.removeProperty eng w (some e) property addToHistory now).1.doc.node
      e).style, d.1 ≠ property) ∧
    (addToHistory = true →
      (CSSEditor.removeProperty eng w (some e) property addToHistory now).1.cssHistory =
        w.cssHistory.addChange
          (CSSEditor.removeProperty eng w (some e) property addToHistory now).1.doc e property
          (if getPropertyValue (w.doc.node e).style property = "" then
            getPropertyValue (eng.computed w.doc e) property
          else getPropertyValue (w.doc.node e).style property) "" now ∧
      (CSSEditor.removeProperty eng w (some e) property addToHistory
          now).1.cssHistory.history.getLast? =
        some (newRecord
          (CSSEditor.removeProperty eng w (some e) property addToHistory now).1.doc e property
          (effectiveValue eng w.doc e property) "" now) ∧
      jsIndex
        (CSSEditor.removeProperty eng w (some e) property addToHistory now).1.cssHistory.history
        (CSSEditor.removeProperty eng w (some e) property addToHistory
          now).1.cssHistory.currentIndex =
        some (newRecord
          (CSSEditor.removeProperty eng w (some e) property addToHistory now).1.doc e property
          (effectiveValue eng w.doc e property) "" now)) ∧
    (addToHistory = false →
      (CSSEditor.removeProperty eng w (some e) property addToHistory now).1.cssHistory =
        w.cssHistory) := by
  have hs := setStyle_node_same w.doc e (removeDeclaration (w.doc.node e).style property)
  refine ⟨rfl, ?_, ?_, ?_, ?_⟩
  · show getPropertyValue ((Document.setStyle w.doc e _).node e).style property = ""
    rw [hs.1]
    exact getPropertyValue_removeDeclaration _ _
  · intro d hd
    have hd1 : d ∈ ((Document.setStyle w.doc e
      (removeDeclaration (w.doc.node e).style property)).node e).style := hd
    rw [hs.1] at hd1
    exact removeDeclaration_no_declaration _ _ d hd1
  · intro hadd
    subst hadd
    have hat := addChange_record_at_cursor w.cssHistory
      (w.doc.setStyle e (removeDeclaration (w.doc.node e).style property)) e property
      (effectiveValue eng w.doc e property) "" now hinv
    exact ⟨rfl, hat.2, hat.1⟩
  · intro hadd
    subst hadd
    rfl

theorem removeProperty_always_succeeds_witness :
    activatedWorld.cssHistory.Inv ∧
    jsIndex
      (CSSEditor.removeProperty browserEngine activatedWorld (some 0) "opacity" true
        0).1.cssHistory.history
      (CSSEditor.removeProperty browserEngine activatedWorld (some 0) "opacity" true
        0).1.cssHistory.currentIndex =
      some (newRecord sampleDocument 0 "opacity" "1" "" 0) :=
  ⟨by decide,
    ((removeProperty_always_succeeds browserEngine activatedWorld 0 "opacity" true 0
      (by decide)).2.2.2.1 rfl).2.2⟩

theorem resetChanges_keep_empty_style (eng : StyleEngine) (e : Nat)
    (changes : List ChangeRecord) :
    ∀ doc : Document, (doc.node e).style = [] → (∀ change ∈ changes, change.element = e) →
      ((changes.foldl (resetChange eng) doc).node e).style = [] := by
  induction changes with
  | nil => intro doc hstyle _; exact hstyle
  | cons change changes ih =>
    intro doc hstyle hall
    have he : change.element = e := hall change (List.mem_cons_self _ _)
    rw [List.foldl_cons]
    apply ih _ _ (fun c hc => hall c (List.mem_cons_of_mem _ hc))
    unfold resetChange
    split
    · rw [he, (writeProperty_node_same eng doc e change.property "").1, hstyle]
      rfl
    · exact hstyle

theorem snapshot_filter (entries : List (Nat × List (String × String))) (e other : Nat) :
    ((entries.filter (fun entry => decide (entry.1 ≠ e))).find?
        (fun entry => decide (entry.1 = other))).map (fun entry => entry.2) =
      if other = e then none
      else (entries.find? (fun entry => decide (entry.1 = other))).map (fun entry => entry.2) := by
  induction entries with
  | nil => simp
  | cons entry entries ih =>
    by_cases h1 : entry.1 = e
    · rw [List.filter_cons_of_neg (by simpa using h1), ih]
      by_cases h2 : other = e
      · simp [h2]
      · have h3 : ¬ entry.1 = other := fun h => h2 (h ▸ h1)
        rw [List.find?_cons_of_neg _ (by simpa using h3)]
    · rw [List.filter_cons_of_pos (by simpa using h1)]
      by_cases h3 : entry.1 = other
      · have h2 : ¬ other = e := fun h => h1 (h3.trans h)
        rw [List.find?_cons_of_pos _ (by simpa using h3),
          List.find?_cons_of_pos _ (by simpa using h3), if_neg h2]
      · rw [List.find?_cons_of_neg _ (by simpa using h3),
          List.find?_cons_of_neg _ (by simpa using h3), ih]

/-- C20: for every element `e`, `CSSEditor.resetElement(e)` leaves `e` without inline
declarations, removes the snapshot of `e`, leaves the snapshot of every other element
as it was, removes every history record that references `e`, and returns the count
`HistoryManager.resetElement(e)` returns, which is the number of records of `e`. -/
theorem editor_resetElement (eng : StyleEngine) (w : World) (e : Nat) :
    ((CSSEditor.resetElement eng w (some e)).1.doc.node e).style = [] ∧
    (CSSEditor.resetElement eng w (some e)).1.cssEditor.snapshot e = none ∧
    (∀ other, other ≠ e →
      (CSSEditor.resetElement eng w (some e)).1.cssEditor.snapshot other =
        w.cssEditor.snapshot other) ∧
    (∀ x ∈ (CSSEditor.resetElement eng w (some e)).1.cssHistory.history, x.element ≠ e) ∧
    (CSSEditor.resetElement eng w (some e)).1.cssHistory =
      (w.cssHistory.resetElement eng (w.doc.setStyle e []) e).manager ∧
    (CSSEditor.resetElement eng w (some e)).2 =
      (w.cssHistory.resetElement eng (w.doc.setStyle e []) e).count ∧
    (CSSEditor.resetElement eng w (some e)).2 = (w.cssHistory.getElementChanges e).length := by
  refine ⟨?_, ?_, ?_, ?_, rfl, rfl, rfl⟩
  · show (((w.cssHistory.getElementChanges e).foldl (resetChange eng)
      (w.doc.setStyle e [])).node e).style = []
    apply resetChanges_keep_empty_style eng e _ _ (setStyle_node_same w.doc e []).1
    intro change hchange
    simpa using (List.mem_filter.mp hchange).2
  · show ((w.cssEditor.originalStyles.filter (fun entry => decide (entry.1 ≠ e))).find?
      (fun entry => decide (entry.1 = e))).map (fun entry => entry.2) = none
    rw [snapshot_filter, if_pos rfl]
  · intro other hother
    show ((w.cssEditor.originalStyles.filter (fun entry => decide (entry.1 ≠ e))).find?
      (fun entry => decide (entry.1 = other))).map (fun entry => entry.2) = _
    rw [snapshot_filter, if_neg hother]
    rfl
  · intro x hx
    have hx1 : x ∈ w.cssHistory.history.filter (fun change => decide (change.element ≠ e)) := hx
    simpa using (List.mem_filter.mp hx1).2

/-! ### setActiveElement and getCSSString -/

theorem snapshot_append_new (entries : List (Nat × List (String × String))) (e : Nat)
    (snap : List (String × String))
    (hnone : (entries.find? (fun entry => decide (entry.1 = e))).map (fun entry => entry.2)
      = none) :
    ((entries ++ [(e, snap)]).find? (fun entry => decide (entry.1 = e))).map
      (fun entry => entry.2) = some snap := by
  have hfind : entries.find? (fun entry => decide (entry.1 = e)) = none := by
    cases h : entries.find? (fun entry => decide (entry.1 = e)) with
    | none => rfl
    | some x => rw [h] at hnone; simp at hnone
  rw [List.find?_append, hfind]
  simp

theorem setActiveElement_of_snapshot (eng : StyleEngine) (w : World) (e : Nat)
    (snap : List (String × String)) (hsnap : w.cssEditor.snapshot e = some snap) :
    CSSEditor.setActiveElement eng w e =
      { w with cssEditor := { w.cssEditor with activeElement := some e } } := by
  unfold CSSEditor.setActiveElement
  have hsome : (CSSEditor.snapshot { w.cssEditor with activeElement := some e } e).isSome
      = true := by
    show (w.cssEditor.snapshot e).isSome = true
    rw [hsnap]
    rfl
  simp only [hsome, if_true]

theorem setActiveElement_of_no_snapshot (eng : StyleEngine) (w : World) (e : Nat)
    (hsnap : w.cssEditor.snapshot e = none) :
    CSSEditor.setActiveElement eng w e =
      { w with cssEditor :=
          { activeElement := some e
            originalStyles := w.cssEditor.originalStyles ++
              [(e, captureStyles (eng.computed w.doc e))] } } := by
  unfold CSSEditor.setActiveElement
  have hnone : (CSSEditor.snapshot { w.cssEditor with activeElement := some e } e).isSome
      = false := by
    show (w.cssEditor.snapshot e).isSome = false
    rw [hsnap]
    rfl
  simp only [hnone, Bool.false_eq_true, if_false]

theorem setActiveElement_snapshot_isSome (eng : StyleEngine) (w : World) (e : Nat) :
    ∃ snap, (CSSEditor.setActiveElement eng w e).cssEditor.snapshot e = some snap ∧
      (w.cssEditor.snapshot e = none → snap = captureStyles (eng.computed w.doc e)) ∧
      (∀ old, w.cssEditor.snapshot e = some old → snap = old) := by
  cases hsnap : w.cssEditor.snapshot e with
  | none =>
    refine ⟨captureStyles (eng.computed w.doc e), ?_, fun _ => rfl, fun old h => by simp at h⟩
    rw [setActiveElement_of_no_snapshot eng w e hsnap]
    exact snapshot_append_new _ _ _ hsnap
  | some old =>
    refine ⟨old, ?_, fun h => by simp at h, fun old1 h => (Option.some.inj h)⟩
    rw [setActiveElement_of_snapshot eng w e old hsnap]
    exact hsnap

theorem snapshotValue_captureStyles (computed : List (String × String)) (property : String)
    (hmem : ∃ d ∈ computed, d.1 = property) :
    snapshotValue (captureStyles computed) property =
      some (getPropertyValue computed property) := by
  unfold snapshotValue captureStyles
  rw [List.find?_map]
  obtain ⟨d, hd, hp⟩ := hmem
  cases hfind : computed.find?
      ((fun d : String × String => decide (d.1 = property)) ∘
        (fun d => (d.1, getPropertyValue computed d.1))) with
  | none =>
    rw [List.find?_eq_none] at hfind
    exact absurd (by simpa using hp) (hfind d hd)
  | some x =>
    have hx := List.find?_some hfind
    have hx1 : x.1 = property := by simpa using hx
    simp [hx1]

/-- C21: `setActiveElement` is idempotent: calling it twice on an element leaves the
same state as calling it once, also when the page and the computed styles changed in
between (the editor is then the same); a snapshot that exists is kept as it is by a
later activation, and no snapshot is added; when none exists the snapshot stored is
the one captured from the computed style, and it holds, for every property the
computed style enumerates, that property's computed value. -/
theorem setActiveElement_idempotent (eng eng2 : StyleEngine) (w : World) (doc2 : Document)
    (e : Nat) :
    CSSEditor.setActiveElement eng (CSSEditor.setActiveElement eng w e) e =
      CSSEditor.setActiveElement eng w e ∧
    (CSSEditor.setActiveElement eng2
        { CSSEditor.setActiveElement eng w e with doc := doc2 } e).cssEditor =
      (CSSEditor.setActiveElement eng w e).cssEditor ∧
    (∀ snap, w.cssEditor.snapshot e = some snap →
      (CSSEditor.setActiveElement eng w e).cssEditor.snapshot e = some snap ∧
      (CSSEditor.setActiveElement eng w e).cssEditor.originalStyles =
        w.cssEditor.originalStyles) ∧
    (w.cssEditor.snapshot e = none →
      (CSSEditor.setActiveElement eng w e).cssEditor.snapshot e =
        some (captureStyles (eng.computed w.doc e)) ∧
      (CSSEditor.setActiveElement eng w e).cssEditor.originalStyles =
        w.cssEditor.originalStyles ++ [(e, captureStyles (eng.computed w.doc e))] ∧
      ∀ d ∈ eng.computed w.doc e,
        snapshotValue (captureStyles (eng.computed w.doc e)) d.1 =
          some (getPropertyValue (eng.computed w.doc e) d.1)) ∧
    (CSSEditor.setActiveElement eng w e).cssEditor.activeElement = some e := by
  obtain ⟨snap1, hsnap1, -, -⟩ := setActiveElement_snapshot_isSome eng w e
  have hactive : (CSSEditor.setActiveElement eng w e).cssEditor.activeElement = some e := by
    cases hsnap : w.cssEditor.snapshot e with
    | none => rw [setActiveElement_of_no_snapshot eng w e hsnap]
    | some old => rw [setActiveElement_of_snapshot eng w e old hsnap]
  refine ⟨?_, ?_, ?_, ?_, hactive⟩
  · rw [setActiveElement_of_snapshot eng (CSSEditor.setActiveElement eng w e) e snap1 hsnap1]
    have hed : ({ (CSSEditor.setActiveElement eng w e).cssEditor with activeElement := some e }
        : CSSEditor) = (CSSEditor.setActiveElement eng w e).cssEditor := by
      rw [← hactive]
    rw [hed]
  · rw [setActiveElement_of_snapshot eng2 { CSSEditor.setActiveElement eng w e with doc := doc2 }
      e snap1 hsnap1]
    show ({ (CSSEditor.setActiveElement eng w e).cssEditor with activeElement := some e }
        : CSSEditor) = (CSSEditor.setActiveElement eng w e).cssEditor
    rw [← hactive]
  · intro snap hsnap
    rw [setActiveElement_of_snapshot eng w e snap hsnap]
    exact ⟨hsnap, rfl⟩
  · intro hsnap
    rw [setActiveElement_of_no_snapshot eng w e hsnap]
    refine ⟨snapshot_append_new _ _ _ hsnap, rfl, ?_⟩
    intro d hd
    exact snapshotValue_captureStyles _ _ ⟨d, hd, rfl⟩

/-- C22, as stated, fails: for an element with the single inline declaration
`color: red` the text returned is not `color: red;` but that line with two spaces in
front. -/
theorem getCSSString_indents_lines :
    ((sampleDocument.setStyle 0 [("color", "red")]).node 0).style = [("color", "red")] ∧
    CSSEditor.getCSSString { sampleWorld with doc := sampleDocument.setStyle 0 [("color", "red")] }
      (some 0) = "  color: red;" ∧
    CSSEditor.getCSSString { sampleWorld with doc := sampleDocument.setStyle 0 [("color", "red")] }
      (some 0) ≠ "color: red;" := by
  decide

theorem getPropertyValue_of_mem_nodup (style : List (String × String))
    (hnodup : (style.map (fun d => d.1)).Nodup) :
    ∀ d ∈ style, getPropertyValue style d.1 = d.2 := by
  induction style with
  | nil => intro d hd; exact absurd hd (List.not_mem_nil d)
  | cons x xs ih =>
    intro d hd
    rw [List.map_cons, List.nodup_cons] at hnodup
    rcases List.mem_cons.mp hd with hdx | hdxs
    · subst hdx
      simp [getPropertyValue]
    · have hne : x.1 ≠ d.1 := by
        intro heq
        apply hnodup.1
        rw [heq]
        exact List.mem_map_of_mem (fun d => d.1) hdxs
      have hx : ¬ (decide (x.1 = d.1) = true) := by simpa using hne
      have := ih hnodup.2 d hdxs
      have hfind : List.find? (fun d1 : String × String => decide (d1.1 = d.1)) (x :: xs) =
          List.find? (fun d1 : String × String => decide (d1.1 = d.1)) xs :=
        List.find?_cons_of_neg _ hx
      unfold getPropertyValue at this ⊢
      rw [hfind]
      exact this

/-- C22, amended: for every element `getCSSString` returns the element's inline
declarations one per line (joined by line feeds), in inline-declaration order, each
line being two spaces followed by `property: value;` and nothing else, where the
properties of the inline style are distinct as in every declaration block; it is the
empty string when the element has no inline declarations. -/
theorem getCSSString_lines (w : World) (e : Nat)
    (hnodup : ((w.doc.node e).style.map (fun d => d.1)).Nodup) :
    CSSEditor.getCSSString w (some e) =
      "\n".intercalate
        ((w.doc.node e).style.map (fun d => "  " ++ d.1 ++ ": " ++ d.2 ++ ";")) ∧
    ((w.doc.node e).style = [] → CSSEditor.getCSSString w (some e) = "") := by
  have hlines : (CSSEditor.getModifiedProperties w (some e)).map
      (fun m => "  " ++ m.1 ++ ": " ++ m.2 ++ ";") =
      (w.doc.node e).style.map (fun d => "  " ++ d.1 ++ ": " ++ d.2 ++ ";") := by
    unfold CSSEditor.getModifiedProperties
    rw [List.map_map]
    apply List.map_congr_left
    intro d hd
    simp only [Function.comp]
    rw [getPropertyValue_of_mem_nodup _ hnodup d hd]
  have hfirst : CSSEditor.getCSSString w (some e) =
      "\n".intercalate
        ((w.doc.node e).style.map (fun d => "  " ++ d.1 ++ ": " ++ d.2 ++ ";")) := by
    show "\n".intercalate ((CSSEditor.getModifiedProperties w (some e)).map
      (fun m => "  " ++ m.1 ++ ": " ++ m.2 ++ ";")) = _
    rw [hlines]
  refine ⟨hfirst, ?_⟩
  intro hempty
  rw [hfirst, hempty]
  rfl

theorem getCSSString_lines_witness :
    CSSEditor.getCSSString
      { sampleWorld with doc := sampleDocument.setStyle 0 [("color", "red"), ("width", "10px")] }
      (some 0) =
      "\n".intercalate
        ((({ sampleWorld with
            doc := sampleDocument.setStyle 0 [("color", "red"), ("width", "10px")] } :
          World).doc.node 0).style.map (fun d => "  " ++ d.1 ++ ": " ++ d.2 ++ ";")) ∧
    "\n".intercalate
      ([("color", "red"), ("width", "10px")].map
        (fun d : String × String => "  " ++ d.1 ++ ": " ++ d.2 ++ ";")) =
      "  color: red;\n  width: 10px;" :=
  ⟨(getCSSString_lines
      { sampleWorld with doc := sampleDocument.setStyle 0 [("color", "red"), ("width", "10px")] }
      0 (by decide)).1,
    by decide⟩

/-! ### History: the cursor after addChange and resetElement -/

theorem addChange_cursor_last (h : HistoryManager) (doc : Document) (element : Nat)
    (property oldValue newValue : String) (now : Nat) (hinv : h.Inv) :
    (h.addChange doc element property oldValue newValue now).currentIndex =
      ((h.addChange doc element property oldValue newValue now).history.length : Int) - 1 := by
  obtain ⟨hmax, hlen, hlo, hhi⟩ := hinv
  rw [addChange_eq _ _ _ _ _ _ _ hlo]
  simp only [List.length_append, List.length_singleton, hmax, gt_iff_lt]
  split
  · rename_i hgt
    simp only [List.length_take] at hgt
    simp only [List.length_tail, List.length_append, List.length_take, List.length_singleton]
    omega
  · simp only [List.length_append, List.length_take, List.length_singleton]
    omega

/-- C28: after `addChange` on a state with `-1 ≤ currentIndex < length ≤ 50` (and
`maxHistory = 50`), `currentIndex` equals `length - 1` and the record at
`currentIndex`, which is also the last record, is the record just pushed; this holds
in particular when the oldest record was evicted. -/
theorem addChange_cursor_on_new_record (h : HistoryManager) (doc : Document) (element : Nat)
    (property oldValue newValue : String) (now : Nat)
    (hmax : h.maxHistory = 50) (hlo : -1 ≤ h.currentIndex)
    (hlt : h.currentIndex < (h.history.length : Int)) (hlen : h.history.length ≤ 50) :
    (h.addChange doc element property oldValue newValue now).currentIndex =
      ((h.addChange doc element property oldValue newValue now).history.length : Int) - 1 ∧
    jsIndex (h.addChange doc element property oldValue newValue now).history
        (h.addChange doc element property oldValue newValue now).currentIndex =
      some (newRecord doc element property oldValue newValue now) ∧
    (h.addChange doc element property oldValue newValue now).history.getLast? =
      some (newRecord doc element property oldValue newValue now) ∧
    (50 < (h.history.take (h.currentIndex + 1).toNat).length + 1 →
      (h.addChange doc element property oldValue newValue now).history =
        (h.history.take (h.currentIndex + 1).toNat).drop 1 ++
          [newRecord doc element property oldValue newValue now] ∧
      (h.addChange doc element property oldValue newValue now).currentIndex =
        h.currentIndex) := by
  have hinv : h.Inv := ⟨hmax, hlen, hlo, by omega⟩
  have hat := addChange_record_at_cursor h doc element property oldValue newValue now hinv
  refine ⟨addChange_cursor_last h doc element property oldValue newValue now hinv,
    hat.1, hat.2, ?_⟩
  intro hgt
  rw [addChange_eq _ _ _ _ _ _ _ hlo]
  have hne : h.history.take (h.currentIndex + 1).toNat ≠ [] := by
    intro hnil
    rw [hnil] at hgt
    simp at hgt
  have hcond : (h.history.take (h.currentIndex + 1).toNat ++
      [newRecord doc element property oldValue newValue now]).length > h.maxHistory := by
    rw [List.length_append, List.length_singleton, hmax]
    exact hgt
  rw [if_pos hcond]
  simp only [List.tail_append_of_ne_nil hne, List.drop_one, and_self]

theorem addChange_cursor_on_new_record_witness :
    (fullManager.addChange sampleDocument 1 "height" "3px" "4px" 2).currentIndex = 49 ∧
    jsIndex (fullManager.addChange sampleDocument 1 "height" "3px" "4px" 2).history
        (fullManager.addChange sampleDocument 1 "height" "3px" "4px" 2).currentIndex =
      some (newRecord sampleDocument 1 "height" "3px" "4px" 2) :=
  ⟨((addChange_cursor_on_new_record fullManager sampleDocument 1 "height" "3px" "4px" 2
      (by decide) (by decide) (by decide) (by decide)).2.2.2 (by decide)).2,
    (addChange_cursor_on_new_record fullManager sampleDocument 1 "height" "3px" "4px" 2
      (by decide) (by decide) (by decide) (by decide)).2.1⟩

theorem resetChanges_other_nodes (eng : StyleEngine) (e other : Nat) (hother : other ≠ e)
    (changes : List ChangeRecord) :
    ∀ doc : Document, (∀ change ∈ changes, change.element = e) →
      (changes.foldl (resetChange eng) doc).node other = doc.node other := by
  induction changes with
  | nil => intro doc _; rfl
  | cons change changes ih =>
    intro doc hall
    have he : change.element = e := hall change (List.mem_cons_self _ _)
    rw [List.foldl_cons, ih _ (fun c hc => hall c (List.mem_cons_of_mem _ hc))]
    unfold resetChange
    split
    · rw [he]
      simp [Document.writeProperty, Document.setStyle, Function.update_noteq hother]
    · rfl

/-- C29: `HistoryManager.resetElement(e)` always ends with `canRedo()` false and
`currentIndex = length - 1`.  When `e` has no records the sequence is unchanged, 0 is
returned and the page is not written, yet `currentIndex` is moved to `length - 1`;
and in every case the elements other than `e` are left as they were. -/
theorem resetElement_ends_redo (eng : StyleEngine) (h : HistoryManager) (doc : Document)
    (e : Nat) :
    (h.resetElement eng doc e).manager.canRedo = false ∧
    (h.resetElement eng doc e).manager.currentIndex =
      ((h.resetElement eng doc e).manager.history.length : Int) - 1 ∧
    ((∀ x ∈ h.history, x.element ≠ e) →
      (h.resetElement eng doc e).manager.history = h.history ∧
      (h.resetElement eng doc e).count = 0 ∧
      (h.resetElement eng doc e).manager.currentIndex = (h.history.length : Int) - 1 ∧
      (h.resetElement eng doc e).doc = doc) ∧
    (∀ other, other ≠ e → (h.resetElement eng doc e).doc.node other = doc.node other) := by
  refine ⟨?_, rfl, ?_, ?_⟩
  · show decide (((h.history.filter _).length : Int) - 1 < ((h.history.filter _).length : Int) - 1)
      = false
    simp
  · intro hnone
    have hkeep : h.history.filter (fun change => decide (change.element ≠ e)) = h.history := by
      rw [List.filter_eq_self]
      intro x hx
      simpa using hnone x hx
    have hdrop : h.history.filter (fun change => decide (change.element = e)) = [] := by
      rw [List.filter_eq_nil_iff]
      intro x hx
      simpa using hnone x hx
    have hmanager : (h.resetElement eng doc e).manager.history = h.history := hkeep
    refine ⟨hmanager, ?_, ?_, ?_⟩
    · show (h.history.filter (fun change => decide (change.element = e))).length = 0
      rw [hdrop]
      rfl
    · show (((h.resetElement eng doc e).manager.history.length : Nat) : Int) - 1 = _
      rw [hmanager]
    · show (h.getElementChanges e).foldl (resetChange eng) doc = doc
      unfold HistoryManager.getElementChanges
      rw [hdrop]
      rfl
  · intro other hother
    show ((h.getElementChanges e).foldl (resetChange eng) doc).node other = doc.node other
    apply resetChanges_other_nodes eng e other hother
    intro change hchange
    simpa using (List.mem_filter.mp hchange).2

/-- The sample manager has an undone record (`canRedo()` holds); resetting element 5,
which has no records, returns 0, leaves the two records and moves the cursor onto
the undone one. -/
theorem resetElement_without_records_example :
    sampleManager.canRedo = true ∧
    (sampleManager.resetElement sampleEngine sampleDocument 5).count = 0 ∧
    (sampleManager.resetElement sampleEngine sampleDocument 5).manager.history =
      sampleManager.history ∧
    (sampleManager.resetElement sampleEngine sampleDocument 5).manager.currentIndex = 1 ∧
    (sampleManager.resetElement sampleEngine sampleDocument 5).manager.canRedo = false := by
  decide

/-! ### The selection controller -/

theorem selectElement_cases (eng : StyleEngine) (c : Controller) (el : Nat) :
    (c.inspector.selectedElement = some el ∧ CSSInspector.selectElement eng c (some el) = c) ∨
    (c.inspector.selectedElement ≠ some el ∧
      CSSInspector.selectElement eng c (some el) =
        { c with
          inspector := { c.inspector with selectedElement := some el, hoverMode := false }
          world := CSSEditor.setActiveElement eng c.world el
          ui := c.ui ++ [.highlight el, .panelUpdate el] }) := by
  unfold CSSInspector.selectElement
  by_cases h : c.inspector.selectedElement = some el
  · exact Or.inl ⟨h, by simp [h]⟩
  · exact Or.inr ⟨h, by simp [h]⟩

theorem selectElement_selected (eng : StyleEngine) (c : Controller) (el : Nat) :
    (CSSInspector.selectElement eng c (some el)).inspector.selectedElement = some el := by
  rcases selectElement_cases eng c el with ⟨h, heq⟩ | ⟨-, heq⟩
  · rw [heq]; exact h
  · rw [heq]

theorem setActiveElement_keeps_history (eng : StyleEngine) (w : World) (e : Nat) :
    (CSSEditor.setActiveElement eng w e).cssHistory = w.cssHistory ∧
    (CSSEditor.setActiveElement eng w e).doc = w.doc ∧
    (CSSEditor.setActiveElement eng w e).events = w.events := by
  unfold CSSEditor.setActiveElement
  simp only []
  split <;> exact ⟨rfl, rfl, rfl⟩

/-- C23: selecting the element that is already selected changes nothing: the whole
controller state (selection state, the editor with its active element and snapshots,
the history, the page and the calls made to highlighter and panel) is as before.  No
`selectElement` call, whatever its argument, changes the history, the page's inline
styles or the dispatched change events. -/
theorem selectElement_same_element (eng : StyleEngine) (c : Controller) :
    (∀ e, c.inspector.selectedElement = some e →
      CSSInspector.selectElement eng c (some e) = c) ∧
    (∀ element,
      (CSSInspector.selectElement eng c element).world.cssHistory = c.world.cssHistory ∧
      (CSSInspector.selectElement eng c element).world.doc = c.world.doc ∧
      (CSSInspector.selectElement eng c element).world.events = c.world.events) := by
  constructor
  · intro e he
    unfold CSSInspector.selectElement
    simp [he]
  · intro element
    cases element with
    | none => exact ⟨rfl, rfl, rfl⟩
    | some el =>
      rcases selectElement_cases eng c el with ⟨-, heq⟩ | ⟨-, heq⟩
      · rw [heq]
        exact ⟨rfl, rfl, rfl⟩
      · rw [heq]
        exact setActiveElement_keeps_history eng c.world el

/-- C24 on the code: three quick toggles start an activation, cancel it and start a
second one while the first is still suspended; the first then completes and registers
its listeners, a click selects element 14, and when the second activation completes
it sets `hoverMode` from the preferences.  The state reached has an element selected
and the inspector active with hover mode enabled. -/
theorem overlapping_activations_break_selection_invariant :
    (Controller.run browserEngine (Controller.initial { sampleWorld with doc := treeDocument })
      overlappingActivations).inspector.selectedElement = some 14 ∧
    (Controller.run browserEngine (Controller.initial { sampleWorld with doc := treeDocument })
      overlappingActivations).inspector.isActive = true ∧
    (Controller.run browserEngine (Controller.initial { sampleWorld with doc := treeDocument })
      overlappingActivations).inspector.hoverMode = true ∧
    ¬ (Controller.run browserEngine (Controller.initial { sampleWorld with doc := treeDocument })
      overlappingActivations).inspector.SelectionInv := by
  decide

theorem selectElement_keeps_invariant (eng : StyleEngine) (c : Controller)
    (element : Option Nat) (hactive : c.inspector.isActive = true)
    (hinv : c.inspector.SelectionInv ∧ c.pendingActivations = 0) :
    (CSSInspector.selectElement eng c element).inspector.SelectionInv ∧
      (CSSInspector.selectElement eng c element).pendingActivations = 0 := by
  cases element with
  | none => exact hinv
  | some el =>
    rcases selectElement_cases eng c el with ⟨-, heq⟩ | ⟨-, heq⟩
    · rw [heq]; exact hinv
    · rw [heq]
      exact ⟨fun _ => ⟨hactive, rfl⟩, hinv.2⟩

theorem deactivate_keeps_invariant (c : Controller)
    (hinv : c.inspector.SelectionInv ∧ c.pendingActivations = 0) :
    (CSSInspector.deactivate c).inspector.SelectionInv ∧
      (CSSInspector.deactivate c).pendingActivations = 0 := by
  unfold CSSInspector.deactivate
  split
  · exact hinv
  · exact ⟨fun h => absurd rfl h, hinv.2⟩

theorem activate_then_complete_keeps_invariant (c : Controller) (prefsHoverMode : Option Bool)
    (hinv : c.inspector.SelectionInv ∧ c.pendingActivations = 0) :
    (CSSInspector.activateResume (CSSInspector.activateBegin c) prefsHoverMode).inspector.SelectionInv
      ∧ (CSSInspector.activateResume (CSSInspector.activateBegin c)
          prefsHoverMode).pendingActivations = 0 := by
  unfold CSSInspector.activateBegin
  by_cases hactive : c.inspector.isActive = true
  · simp only [hactive, if_true]
    unfold CSSInspector.activateResume
    simp only [hinv.2, if_true]
    exact ⟨hinv.1, trivial⟩
  · simp only [hactive, Bool.false_eq_true, if_false]
    unfold CSSInspector.activateResume
    simp only [hinv.2]
    have hnone : c.inspector.selectedElement = none := by
      by_contra hsel
      exact hactive (hinv.1 hsel).1
    refine ⟨?_, rfl⟩
    intro hsel
    exact absurd hnone hsel

theorem onKeyDown_keeps_invariant (eng : StyleEngine) (c : Controller) (key : String)
    (hinv : c.inspector.SelectionInv ∧ c.pendingActivations = 0) :
    (CSSInspector.onKeyDown eng c key).inspector.SelectionInv ∧
      (CSSInspector.onKeyDown eng c key).pendingActivations = 0 := by
  unfold CSSInspector.onKeyDown
  split
  · exact hinv
  · rename_i hguard
    have hactive : c.inspector.isActive = true := by
      by_contra h
      exact hguard (Or.inl h)
    split
    · split
      · exact ⟨fun h => absurd rfl h, hinv.2⟩
      · exact deactivate_keeps_invariant c hinv
    · split
      · unfold CSSInspector.selectParent
        split
        · exact hinv
        · split
          · exact hinv
          · split
            · exact selectElement_keeps_invariant eng c _ hactive hinv
            · exact hinv
      · split
        · unfold CSSInspector.selectFirstChild
          split
          · exact hinv
          · split
            · exact hinv
            · exact selectElement_keeps_invariant eng c _ hactive hinv
        · split
          · unfold CSSInspector.selectPreviousSibling
            split
            · exact hinv
            · split
              · exact hinv
              · exact selectElement_keeps_invariant eng c _ hactive hinv
          · split
            · unfold CSSInspector.selectNextSibling
              split
              · exact hinv
              · split
                · exact hinv
                · exact selectElement_keeps_invariant eng c _ hactive hinv
            · exact hinv

theorem onClick_keeps_invariant (eng : StyleEngine) (c : Controller) (ev : PointerEvent)
    (hinv : c.inspector.SelectionInv ∧ c.pendingActivations = 0) :
    (CSSInspector.onClick eng c ev).inspector.SelectionInv ∧
      (CSSInspector.onClick eng c ev).pendingActivations = 0 := by
  unfold CSSInspector.onClick
  split
  · exact hinv
  · rename_i hguard
    have hactive : c.inspector.isActive = true := by simpa using hguard
    split
    · exact hinv
    · split
      · exact hinv
      · split
        · exact hinv
        · exact selectElement_keeps_invariant eng c _ hactive hinv

theorem onMouseMove_keeps_invariant (c : Controller) (ev : PointerEvent)
    (hinv : c.inspector.SelectionInv ∧ c.pendingActivations = 0) :
    (CSSInspector.onMouseMove c ev).inspector.SelectionInv ∧
      (CSSInspector.onMouseMove c ev).pendingActivations = 0 := by
  unfold CSSInspector.onMouseMove
  split
  · exact hinv
  · split
    · exact hinv
    · split
      · exact hinv
      · split
        · exact hinv
        · split
          · exact hinv
          · exact hinv

theorem settled_event_keeps_invariant (eng : StyleEngine) (c : Controller) (ev : SettledEvent)
    (hinv : c.inspector.SelectionInv ∧ c.pendingActivations = 0) :
    (Controller.run eng c ev.events).inspector.SelectionInv ∧
      (Controller.run eng c ev.events).pendingActivations = 0 := by
  cases ev with
  | toggle prefsHoverMode =>
    show (CSSInspector.activateResume (CSSInspector.toggle c) prefsHoverMode).inspector.SelectionInv
      ∧ (CSSInspector.activateResume (CSSInspector.toggle c) prefsHoverMode).pendingActivations = 0
    unfold CSSInspector.toggle
    split
    · have hd := deactivate_keeps_invariant c hinv
      unfold CSSInspector.activateResume
      simp only [hd.2, if_true]
      exact ⟨hd.1, trivial⟩
    · exact activate_then_complete_keeps_invariant c prefsHoverMode hinv
  | activate prefsHoverMode => exact activate_then_complete_keeps_invariant c prefsHoverMode hinv
  | deactivate => exact deactivate_keeps_invariant c hinv
  | mouseMove ev =>
    show (if c.listeners = 0 then c else CSSInspector.onMouseMove c ev).inspector.SelectionInv ∧
      (if c.listeners = 0 then c else CSSInspector.onMouseMove c ev).pendingActivations = 0
    split
    · exact hinv
    · exact onMouseMove_keeps_invariant c ev hinv
  | click ev =>
    show (if c.listeners = 0 then c else CSSInspector.onClick eng c ev).inspector.SelectionInv ∧
      (if c.listeners = 0 then c else CSSInspector.onClick eng c ev).pendingActivations = 0
    split
    · exact hinv
    · exact onClick_keeps_invariant eng c ev hinv
  | keyDown key =>
    show (if c.listeners = 0 then c else CSSInspector.onKeyDown eng c key).inspector.SelectionInv ∧
      (if c.listeners = 0 then c else CSSInspector.onKeyDown eng c key).pendingActivations = 0
    split
    · exact hinv
    · exact onKeyDown_keeps_invariant eng c key hinv

/-- When every `activate()` completes before the next event, the selection invariant
holds in every reachable state: a selected element implies that the inspector is
active and hover mode is off. -/
theorem settled_runs_keep_selection_invariant (eng : StyleEngine) (w : World)
    (events : List SettledEvent) :
    (Controller.runSettled eng (Controller.initial w) events).inspector.SelectionInv ∧
      (Controller.runSettled eng (Controller.initial w) events).pendingActivations = 0 := by
  have hgen : ∀ (evs : List SettledEvent) (c : Controller),
      (c.inspector.SelectionInv ∧ c.pendingActivations = 0) →
      ((Controller.runSettled eng c evs).inspector.SelectionInv ∧
        (Controller.runSettled eng c evs).pendingActivations = 0) := by
    intro evs
    induction evs with
    | nil => intro c hc; exact hc
    | cons ev evs ih =>
      intro c hc
      exact ih _ (settled_event_keeps_invariant eng c ev hc)
  exact hgen events _ ⟨fun h => absurd rfl h, rfl⟩

theorem selectElement_hoverMode (eng : StyleEngine) (c : Controller) (element : Option Nat)
    (hoff : c.inspector.hoverMode = false) :
    (CSSInspector.selectElement eng c element).inspector.hoverMode = false := by
  cases element with
  | none => exact hoff
  | some el =>
    rcases selectElement_cases eng c el with ⟨-, heq⟩ | ⟨-, heq⟩
    · rw [heq]; exact hoff
    · rw [heq]

theorem deactivate_hoverMode (c : Controller) :
    (CSSInspector.deactivate c).inspector.hoverMode = c.inspector.hoverMode := by
  unfold CSSInspector.deactivate
  split <;> rfl

/-- Hover mode goes from off to on only when an activation completes or when Escape
deselects the selected element. -/
theorem hoverMode_enabled_only_by (eng : StyleEngine) (c : Controller) (ev : ControllerEvent)
    (hoff : c.inspector.hoverMode = false)
    (hon : (Controller.step eng c ev).inspector.hoverMode = true) :
    (∃ prefsHoverMode, ev = .activationCompletes prefsHoverMode) ∨
      (ev = .keyDown "Escape" ∧ c.inspector.selectedElement ≠ none) := by
  cases ev with
  | toggle =>
    exfalso
    have h : (CSSInspector.toggle c).inspector.hoverMode = false := by
      unfold CSSInspector.toggle
      split
      · rw [deactivate_hoverMode]; exact hoff
      · unfold CSSInspector.activateBegin
        split <;> exact hoff
    rw [show Controller.step eng c .toggle = CSSInspector.toggle c from rfl, h] at hon
    exact absurd hon (by decide)
  | activate =>
    exfalso
    have h : (CSSInspector.activateBegin c).inspector.hoverMode = false := by
      unfold CSSInspector.activateBegin
      split <;> exact hoff
    rw [show Controller.step eng c .activate = CSSInspector.activateBegin c from rfl, h] at hon
    exact absurd hon (by decide)
  | deactivate =>
    exfalso
    rw [show Controller.step eng c .deactivate = CSSInspector.deactivate c from rfl,
      deactivate_hoverMode, hoff] at hon
    exact absurd hon (by decide)
  | activationCompletes prefsHoverMode => exact Or.inl ⟨prefsHoverMode, rfl⟩
  | mouseMove pointer =>
    exfalso
    have h : (Controller.step eng c (.mouseMove pointer)).inspector.hoverMode = false := by
      show (if c.listeners = 0 then c else CSSInspector.onMouseMove c pointer).inspector.hoverMode
        = false
      split
      · exact hoff
      · unfold CSSInspector.onMouseMove
        rw [if_pos (Or.inr (by rw [hoff]; decide))]
        exact hoff
    rw [h] at hon
    exact absurd hon (by decide)
  | click pointer =>
    exfalso
    have h : (Controller.step eng c (.click pointer)).inspector.hoverMode = false := by
      show (if c.listeners = 0 then c else CSSInspector.onClick eng c pointer).inspector.hoverMode
        = false
      split
      · exact hoff
      · unfold CSSInspector.onClick
        split
        · exact hoff
        · split
          · exact hoff
          · split
            · exact hoff
            · split
              · exact hoff
              · exact selectElement_hoverMode eng c _ hoff
    rw [h] at hon
    exact absurd hon (by decide)
  | keyDown key =>
    by_cases hkey : key = "Escape" ∧ c.inspector.selectedElement ≠ none
    · exact Or.inr ⟨by rw [hkey.1], hkey.2⟩
    · exfalso
      have h : (Controller.step eng c (.keyDown key)).inspector.hoverMode = false := by
        show (if c.listeners = 0 then c else CSSInspector.onKeyDown eng c key).inspector.hoverMode
          = false
        split
        · exact hoff
        · unfold CSSInspector.onKeyDown
          split
          · exact hoff
          · rename_i hguard
            have hsel : c.inspector.selectedElement ≠ none := fun h => hguard (Or.inr h)
            have hne : key ≠ "Escape" := fun h => hkey ⟨h, hsel⟩
            rw [if_neg hne]
            split
            · unfold CSSInspector.selectParent
              split
              · exact hoff
              · split
                · exact hoff
                · split
                  · exact selectElement_hoverMode eng c _ hoff
                  · exact hoff
            · split
              · unfold CSSInspector.selectFirstChild
                split
                · exact hoff
                · split
                  · exact hoff
                  · exact selectElement_hoverMode eng c _ hoff
              · split
                · unfold CSSInspector.selectPreviousSibling
                  split
                  · exact hoff
                  · split
                    · exact hoff
                    · exact selectElement_hoverMode eng c _ hoff
                · split
                  · unfold CSSInspector.selectNextSibling
                    split
                    · exact hoff
                    · split
                      · exact hoff
                      · exact selectElement_hoverMode eng c _ hoff
                  · exact hoff
      rw [h] at hon
      exact absurd hon (by decide)

/-- C25 on the code: with the inspector active, listeners registered and no element
selected, an Escape key-down leaves the controller as it is; the inspector stays
active.  With element 14 selected, Escape deselects it, re-enables hover mode and
leaves the inspector active. -/
theorem escape_without_selection_stays_active :
    (treeController none).inspector.isActive = true ∧
    (treeController none).inspector.selectedElement = none ∧
    (Controller.step browserEngine (treeController none) (.keyDown "Escape")).inspector =
      (treeController none).inspector ∧
    (Controller.step browserEngine (treeController none) (.keyDown "Escape")).inspector.isActive
      = true ∧
    (Controller.step browserEngine (treeController none) (.keyDown "Escape")).ui = [] ∧
    (Controller.step browserEngine (treeController (some 14))
      (.keyDown "Escape")).inspector =
      { isActive := true, hoverMode := true, selectedElement := none, hoveredElement := none,
        boundRegistered := true } := by
  decide

/-- Whatever the key, `onKeyDown` does nothing when no element is selected. -/
theorem onKeyDown_without_selection (eng : StyleEngine) (c : Controller) (key : String)
    (hnone : c.inspector.selectedElement = none) : CSSInspector.onKeyDown eng c key = c := by
  unfold CSSInspector.onKeyDown
  simp [hnone]

/-- C26, as stated, fails: after a click on the root element, ArrowDown selects its
first child, the head, and ArrowRight selects the head's next sibling, which is the
document body: the body is selected by navigation. -/
theorem navigation_selects_body :
    treeDocument.body = some 12 ∧
    (Controller.run browserEngine (treeController none)
      [.click clickOnRoot, .keyDown "ArrowDown"]).inspector.selectedElement = some 11 ∧
    (Controller.run browserEngine (treeController none)
      [.click clickOnRoot, .keyDown "ArrowDown", .keyDown "ArrowRight"]).inspector.selectedElement
      = treeDocument.body ∧
    (CSSInspector.selectNextSibling browserEngine (treeController (some 11))).inspector.selectedElement
      = treeDocument.body := by
  decide

/-- C26, amended: arrow-key navigation is a no-op at structural boundaries and
otherwise selects the structural neighbour.  `selectParent` leaves the state unchanged
when the selected element has no parent or its parent is the document body or the root
element, and otherwise selects the parent, so `selectParent` never selects the body or
the root; `selectFirstChild`, `selectPreviousSibling` and `selectNextSibling` leave the
state unchanged when there is no first child, previous sibling or next sibling and
otherwise select it, whichever element it is; all four do nothing when no element is
selected, and each returns normally. -/
theorem navigation_at_boundaries (eng : StyleEngine) (c : Controller) :
    (c.inspector.selectedElement = none →
      CSSInspector.selectParent eng c = c ∧ CSSInspector.selectFirstChild eng c = c ∧
      CSSInspector.selectPreviousSibling eng c = c ∧ CSSInspector.selectNextSibling eng c = c) ∧
    (∀ selected, c.inspector.selectedElement = some selected →
      (((c.world.doc.node selected).parentElement = none ∨
          (c.world.doc.node selected).parentElement = c.world.doc.body ∨
          (c.world.doc.node selected).parentElement = c.world.doc.documentElement) →
        CSSInspector.selectParent eng c = c) ∧
      (∀ parent, (c.world.doc.node selected).parentElement = some parent →
        some parent ≠ c.world.doc.body → some parent ≠ c.world.doc.documentElement →
        CSSInspector.selectParent eng c = CSSInspector.selectElement eng c (some parent) ∧
        (CSSInspector.selectParent eng c).inspector.selectedElement = some parent) ∧
      ((c.world.doc.node selected).children.head? = none →
        CSSInspector.selectFirstChild eng c = c) ∧
      (∀ child, (c.world.doc.node selected).children.head? = some child →
        CSSInspector.selectFirstChild eng c = CSSInspector.selectElement eng c (some child) ∧
        (CSSInspector.selectFirstChild eng c).inspector.selectedElement = some child) ∧
      ((c.world.doc.node selected).previousElementSibling = none →
        CSSInspector.selectPreviousSibling eng c = c) ∧
      (∀ sibling, (c.world.doc.node selected).previousElementSibling = some sibling →
        CSSInspector.selectPreviousSibling eng c =
          CSSInspector.selectElement eng c (some sibling) ∧
        (CSSInspector.selectPreviousSibling eng c).inspector.selectedElement = some sibling) ∧
      ((c.world.doc.node selected).nextElementSibling = none →
        CSSInspector.selectNextSibling eng c = c) ∧
      (∀ sibling, (c.world.doc.node selected).nextElementSibling = some sibling →
        CSSInspector.selectNextSibling eng c =
          CSSInspector.selectElement eng c (some sibling) ∧
        (CSSInspector.selectNextSibling eng c).inspector.selectedElement = some sibling)) ∧
    (CSSInspector.selectParent eng c ≠ c →
      (CSSInspector.selectParent eng c).inspector.selectedElement ≠ c.world.doc.body ∧
      (CSSInspector.selectParent eng c).inspector.selectedElement ≠
        c.world.doc.documentElement) := by
  refine ⟨?_, ?_, ?_⟩
  · intro hnone
    unfold CSSInspector.selectParent CSSInspector.selectFirstChild
      CSSInspector.selectPreviousSibling CSSInspector.selectNextSibling
    simp [hnone]
  · intro selected hsel
    refine ⟨?_, ?_, ?_, ?_, ?_, ?_, ?_, ?_⟩
    · intro hboundary
      unfold CSSInspector.selectParent
      simp only [hsel]
      cases hparent : (c.world.doc.node selected).parentElement with
      | none => rfl
      | some parent =>
        rw [hparent] at hboundary
        simp only []
        rcases hboundary with h | h | h
        · exact absurd h (by simp)
        · rw [if_neg (fun hc => hc.1 h)]
        · rw [if_neg (fun hc => hc.2 h)]
    · intro parent hparent hbody hroot
      have heq : CSSInspector.selectParent eng c =
          CSSInspector.selectElement eng c (some parent) := by
        unfold CSSInspector.selectParent
        simp only [hsel, hparent]
        rw [if_pos ⟨hbody, hroot⟩]
      exact ⟨heq, by rw [heq]; exact selectElement_selected eng c parent⟩
    · intro hchild
      unfold CSSInspector.selectFirstChild
      simp only [hsel, hchild]
    · intro child hchild
      have heq : CSSInspector.selectFirstChild eng c =
          CSSInspector.selectElement eng c (some child) := by
        unfold CSSInspector.selectFirstChild
        simp only [hsel, hchild]
      exact ⟨heq, by rw [heq]; exact selectElement_selected eng c child⟩
    · intro hsib
      unfold CSSInspector.selectPreviousSibling
      simp only [hsel, hsib]
    · intro sibling hsib
      have heq : CSSInspector.selectPreviousSibling eng c =
          CSSInspector.selectElement eng c (some sibling) := by
        unfold CSSInspector.selectPreviousSibling
        simp only [hsel, hsib]
      exact ⟨heq, by rw [heq]; exact selectElement_selected eng c sibling⟩
    · intro hsib
      unfold CSSInspector.selectNextSibling
      simp only [hsel, hsib]
    · intro sibling hsib
      have heq : CSSInspector.selectNextSibling eng c =
          CSSInspector.selectElement eng c (some sibling) := by
        unfold CSSInspector.selectNextSibling
        simp only [hsel, hsib]
      exact ⟨heq, by rw [heq]; exact selectElement_selected eng c sibling⟩
  · intro hchanged
    unfold CSSInspector.selectParent at hchanged ⊢
    cases hsel : c.inspector.selectedElement with
    | none => simp [hsel] at hchanged
    | some selected =>
      simp only [hsel] at hchanged ⊢
      cases hparent : (c.world.doc.node selected).parentElement with
      | none => simp [hparent] at hchanged
      | some parent =>
        simp only [hparent] at hchanged ⊢
        by_cases hcond : some parent ≠ c.world.doc.body ∧ some parent ≠ c.world.doc.documentElement
        · rw [if_pos hcond]
          rw [selectElement_selected eng c parent]
          exact hcond
        · rw [if_neg hcond] at hchanged
          exact absurd rfl hchanged

theorem navigation_at_boundaries_witness :
    (treeController (some 14)).inspector.selectedElement = some 14 ∧
    (CSSInspector.selectParent browserEngine (treeController (some 14))).inspector.selectedElement
      = some 13 ∧
    CSSInspector.selectParent browserEngine (treeController (some 13)) =
      treeController (some 13) ∧
    (CSSInspector.selectNextSibling browserEngine
      (treeController (some 14))).inspector.selectedElement = some 15 ∧
    CSSInspector.selectPreviousSibling browserEngine (treeController (some 14)) =
      treeController (some 14) :=
  ⟨by decide,
    (((navigation_at_boundaries browserEngine (treeController (some 14))).2.1 14 (by decide)).2.1
      13 (by decide) (by decide) (by decide)).2,
    ((navigation_at_boundaries browserEngine (treeController (some 13))).2.1 13 (by decide)).1
      (Or.inr (Or.inl (by decide))),
    (((navigation_at_boundaries browserEngine (treeController (some 14))).2.1 14
      (by decide)).2.2.2.2.2.2.2 15 (by decide)).2,
    (((navigation_at_boundaries browserEngine (treeController (some 14))).2.1 14
      (by decide)).2.2.2.2.1 (by decide))⟩

/-! ### calculateScore -/

theorem metaDeductions_small (data : SeoData) :
    (metaDeductions data ≤ 1 ↔
      (jsFalsy data.title = false ∧ data.titleLength ≤ 60 ∧
        jsFalsy data.description = false ∧ data.descriptionLength ≤ 160)) ∧
    (metaDeductions data ≤ 1 → metaDeductions data = 0) := by
  unfold metaDeductions
  cases jsFalsy data.title <;> cases jsFalsy data.description <;>
    by_cases h1 : data.titleLength > 60 <;> by_cases h2 : data.descriptionLength > 160 <;>
    (simp [h1, h2]; try omega)

theorem canonicalDeductions_small (data : SeoData) :
    (canonicalDeductions data ≤ 1 ↔ (data.hasCanonical = true ∧ data.canonicalIssues = [])) ∧
    (canonicalDeductions data ≤ 1 → canonicalDeductions data = 0) := by
  unfold canonicalDeductions
  cases data.hasCanonical <;> cases data.canonicalIssues <;> simp

theorem headingDeductions_small (data : SeoData) :
    (headingDeductions data ≤ 1 ↔ (data.h1Count = 1 ∧ data.headingIssues = [])) ∧
    (headingDeductions data ≤ 1 → headingDeductions data = 0) := by
  unfold headingDeductions
  by_cases h0 : data.h1Count = 0
  · cases data.headingIssues <;> simp [h0]
  · by_cases h1 : data.h1Count > 1
    · have hne : data.h1Count ≠ 1 := by omega
      cases data.headingIssues <;> simp [h0, h1, hne]
    · have heq : data.h1Count = 1 := by omega
      cases data.headingIssues <;> simp [heq]

theorem imageDeductions_small (data : SeoData) :
    (imageDeductions data ≤ 1 ↔ data.missingAlt ≤ 1) ∧
    (imageDeductions data = 0 ↔ data.missingAlt = 0) := by
  unfold imageDeductions
  by_cases h : data.missingAlt > 0
  · rw [if_pos h]
    constructor
    · constructor <;> intro h1 <;> omega
    · constructor <;> intro h1 <;> omega
  · rw [if_neg h]
    constructor
    · constructor <;> intro h1 <;> omega
    · constructor <;> intro h1 <;> omega

theorem socialDeductions_small (data : SeoData) :
    (socialDeductions data ≤ 1 ↔
      (jsFalsy data.ogTitle = false ∧ jsFalsy data.ogDescription = false ∧
        jsFalsy data.ogImage = false)) ∧
    (socialDeductions data ≤ 1 → socialDeductions data = 0) := by
  unfold socialDeductions
  cases jsFalsy data.ogTitle <;> cases jsFalsy data.ogDescription <;>
    cases jsFalsy data.ogImage <;> simp

theorem structuredDataDeductions_small (data : SeoData) :
    (structuredDataDeductions data ≤ 1 ↔ data.schemas ≠ []) ∧
    (structuredDataDeductions data ≤ 1 → structuredDataDeductions data = 0) := by
  unfold structuredDataDeductions
  cases data.schemas <;> simp

/-- C27, as stated, fails: with one image lacking its alt text and no other finding a
deduction of 0.5 applies (one half point), and `calculateScore` still returns 100,
because `Math.round` rounds 99.5 up. -/
theorem calculateScore_rounds_half_point_up :
    ({ perfectPage with missingAlt := 1 } : SeoData).missingAlt > 0 ∧
    scoreDeductions { perfectPage with missingAlt := 1 } = 1 ∧
    calculateScore { perfectPage with missingAlt := 1 } = 100 ∧
    scoreDeductions perfectPage = 0 ∧ calculateScore perfectPage = 100 := by
  decide

/-- C27, amended: `calculateScore` returns an integer between 0 and 100 inclusive for
every analysis result, and it returns 100 exactly when the deductions sum to at most
0.5, that is, when no deduction applies except possibly the one for a single image
without alt text. -/
theorem calculateScore_range (data : SeoData) :
    0 ≤ calculateScore data ∧ calculateScore data ≤ 100 ∧
    (calculateScore data = 100 ↔ scoreDeductions data ≤ 1) ∧
    (scoreDeductions data ≤ 1 ↔
      (jsFalsy data.title = false ∧ data.titleLength ≤ 60 ∧
        jsFalsy data.description = false ∧ data.descriptionLength ≤ 160 ∧
        data.hasCanonical = true ∧ data.canonicalIssues = [] ∧
        data.h1Count = 1 ∧ data.headingIssues = [] ∧
        data.missingAlt ≤ 1 ∧
        jsFalsy data.ogTitle = false ∧ jsFalsy data.ogDescription = false ∧
        jsFalsy data.ogImage = false ∧
        data.schemas ≠ [])) ∧
    (scoreDeductions data = 0 ↔ (scoreDeductions data ≤ 1 ∧ data.missingAlt = 0)) := by
  have hm := metaDeductions_small data
  have hc := canonicalDeductions_small data
  have hh := headingDeductions_small data
  have hi := imageDeductions_small data
  have hs := socialDeductions_small data
  have hd := structuredDataDeductions_small data
  have hscore : calculateScore data = (max 0 (200 - (scoreDeductions data : Int)) + 1) / 2 := rfl
  refine ⟨?_, ?_, ?_, ?_, ?_⟩
  · rw [hscore]
    rcases max_cases (0 : Int) (200 - (scoreDeductions data : Int)) with ⟨h1, h2⟩ | ⟨h1, h2⟩ <;>
      rw [h1] <;> omega
  · rw [hscore]
    rcases max_cases (0 : Int) (200 - (scoreDeductions data : Int)) with ⟨h1, h2⟩ | ⟨h1, h2⟩ <;>
      rw [h1] <;> omega
  · rw [hscore]
    rcases max_cases (0 : Int) (200 - (scoreDeductions data : Int)) with ⟨h1, h2⟩ | ⟨h1, h2⟩ <;>
      rw [h1] <;> constructor <;> intro h3 <;> omega
  · unfold scoreDeductions
    constructor
    · intro hsum
      have h1 := hm.1.mp (by omega)
      have h2 := hc.1.mp (by omega)
      have h3 := hh.1.mp (by omega)
      have h4 := hi.1.mp (by omega)
      have h5 := hs.1.mp (by omega)
      have h6 := hd.1.mp (by omega)
      exact ⟨h1.1, h1.2.1, h1.2.2.1, h1.2.2.2, h2.1, h2.2, h3.1, h3.2, h4, h5.1, h5.2.1,
        h5.2.2, h6⟩
    · rintro ⟨a1, a2, a3, a4, b1, b2, c1, c2, d1, e1, e2, e3, f1⟩
      have h1 := hm.2 (hm.1.mpr ⟨a1, a2, a3, a4⟩)
      have h2 := hc.2 (hc.1.mpr ⟨b1, b2⟩)
      have h3 := hh.2 (hh.1.mpr ⟨c1, c2⟩)
      have h4 := hi.1.mpr d1
      have h5 := hs.2 (hs.1.mpr ⟨e1, e2, e3⟩)
      have h6 := hd.2 (hd.1.mpr f1)
      omega
  · unfold scoreDeductions
    constructor
    · intro hzero
      exact ⟨by omega, hi.2.mp (by omega)⟩
    · rintro ⟨hsum, hmissing⟩
      have h1 := hm.2 (by omega)
      have h2 := hc.2 (by omega)
      have h3 := hh.2 (by omega)
      have h4 := hi.2.mpr hmissing
      have h5 := hs.2 (by omega)
      have h6 := hd.2 (by omega)
      omega

/-! ### analyzeLink -/

theorem toLower_eq_space (c : Char) : c.toLower = Char.ofNat 32 ↔ c = Char.ofNat 32 := by
  constructor
  · intro h
    unfold Char.toLower at h
    simp only [] at h
    by_cases hupper : c.toNat ≥ 65 ∧ c.toNat ≤ 90
    · rw [if_pos hupper] at h
      exfalso
      generalize c.toNat = n at h hupper
      obtain ⟨h65, h90⟩ := hupper
      interval_cases n <;> exact absurd h (by decide)
    · rw [if_neg hupper] at h
      exact h
  · intro h
    rw [h]
    decide

theorem jsSplitSpace_map_toLower (cs : List Char) :
    jsSplitSpace (cs.map Char.toLower) = (jsSplitSpace cs).map (fun piece => piece.map Char.toLower)
    := by
  induction cs with
  | nil => rfl
  | cons c cs ih =>
    by_cases hc : c = Char.ofNat 32
    · subst hc
      have hl : (Char.ofNat 32).toLower = Char.ofNat 32 := by decide
      simp [jsSplitSpace, hl, ih]
    · have hl : ¬ c.toLower = Char.ofNat 32 := fun h => hc ((toLower_eq_space c).mp h)
      simp only [List.map_cons, jsSplitSpace, hl, hc, if_false, ih]
      cases jsSplitSpace cs with
      | nil => rfl
      | cons piece pieces => rfl

theorem mem_relTokens (rel : String) (token : String) (hne : token ≠ "") :
    token ∈ relTokens rel ↔
      ∃ piece ∈ jsSplitSpace rel.data, jsToLowerCase (String.mk piece) = token := by
  unfold relTokens
  have hdata : (jsToLowerCase rel).data = rel.data.map Char.toLower := rfl
  rw [hdata, jsSplitSpace_map_toLower]
  simp only [List.mem_map, List.mem_filter, decide_eq_true_eq]
  constructor
  · rintro ⟨lowered, ⟨⟨piece, hpiece, rfl⟩, -⟩, rfl⟩
    exact ⟨piece, hpiece, rfl⟩
  · rintro ⟨piece, hpiece, rfl⟩
    refine ⟨piece.map Char.toLower, ⟨⟨piece, hpiece, rfl⟩, ?_⟩, rfl⟩
    intro hnil
    apply hne
    show String.mk (piece.map Char.toLower) = ""
    rw [hnil]

theorem linkType_by_flags (isInternal isNofollow : Bool) :
    (if (isInternal && isNofollow) = true then "internal-nofollow"
      else if isInternal = true then "internal-dofollow"
      else if (!isInternal && isNofollow) = true then "external-nofollow"
      else "external-dofollow") =
    (if isInternal = true then
      (if isNofollow = true then "internal-nofollow" else "internal-dofollow")
    else (if isNofollow = true then "external-nofollow" else "external-dofollow")) := by
  cases isInternal <;> cases isNofollow <;> rfl

/-- C30, as stated, fails: in the `rel` value `sponsored`, tab, `nofollow` the
white-space-separated tokens include `sponsored`, but `analyzeLink` splits at spaces
only and classifies the external link as `external-dofollow`. -/
theorem analyzeLink_tab_separated_rel :
    "sponsored" ∈ relTokensByWhiteSpace
      (String.mk ("sponsored".data ++ [Char.ofNat 9] ++ "nofollow".data)) ∧
    (analyzeLink sampleLinkContext
      { href := "https://other.net/a"
        rel := String.mk ("sponsored".data ++ [Char.ofNat 9] ++ "nofollow".data)
        textContent := "offer" }).isSponsored = false ∧
    (analyzeLink sampleLinkContext
      { href := "https://other.net/a"
        rel := String.mk ("sponsored".data ++ [Char.ofNat 9] ++ "nofollow".data)
        textContent := "offer" }).linkType = "external-dofollow" := by
  decide

/-- C30, amended: `analyzeLink` classifies by the stated priority: the type is
`sponsored` whenever the rel tokens include `sponsored`, whatever else holds;
otherwise `ugc` whenever they include `ugc`; otherwise `internal-nofollow`,
`internal-dofollow`, `external-nofollow` or `external-dofollow` exactly as
`isInternal` and `isNofollow` say.  The rel tokens are the non-empty pieces of the
`rel` value between space characters (U+0020 only), compared without regard to
letter case. -/
theorem analyzeLink_priority (ctx : LinkContext) (link : Link) :
    ((analyzeLink ctx link).isSponsored = true → (analyzeLink ctx link).linkType = "sponsored") ∧
    ((analyzeLink ctx link).isSponsored = false → (analyzeLink ctx link).isUgc = true →
      (analyzeLink ctx link).linkType = "ugc") ∧
    ((analyzeLink ctx link).isSponsored = false → (analyzeLink ctx link).isUgc = false →
      (analyzeLink ctx link).linkType =
        (if (analyzeLink ctx link).isInternal then
          (if (analyzeLink ctx link).isNofollow then "internal-nofollow"
            else "internal-dofollow")
        else
          (if (analyzeLink ctx link).isNofollow then "external-nofollow"
            else "external-dofollow"))) ∧
    ((analyzeLink ctx link).isSponsored = true ↔
      ∃ piece ∈ jsSplitSpace link.rel.data, jsToLowerCase (String.mk piece) = "sponsored") ∧
    ((analyzeLink ctx link).isUgc = true ↔
      ∃ piece ∈ jsSplitSpace link.rel.data, jsToLowerCase (String.mk piece) = "ugc") ∧
    ((analyzeLink ctx link).isNofollow = true ↔
      ∃ piece ∈ jsSplitSpace link.rel.data, jsToLowerCase (String.mk piece) = "nofollow") := by
  refine ⟨?_, ?_, ?_, ?_, ?_, ?_⟩
  · intro h
    have h1 : decide ("sponsored" ∈ relTokens link.rel) = true := h
    unfold analyzeLink
    simp only [h1, if_true]
  · intro h hu
    have h1 : decide ("sponsored" ∈ relTokens link.rel) = false := h
    have h2 : decide ("ugc" ∈ relTokens link.rel) = true := hu
    unfold analyzeLink
    simp only [h1, h2, Bool.false_eq_true, if_false, if_true]
  · intro h hu
    have h1 : decide ("sponsored" ∈ relTokens link.rel) = false := h
    have h2 : decide ("ugc" ∈ relTokens link.rel) = false := hu
    unfold analyzeLink
    simp only [h1, h2, Bool.false_eq_true, if_false]
    exact linkType_by_flags _ _
  · show decide ("sponsored" ∈ relTokens link.rel) = true ↔ _
    rw [decide_eq_true_eq]
    exact mem_relTokens link.rel "sponsored" (by decide)
  · show decide ("ugc" ∈ relTokens link.rel) = true ↔ _
    rw [decide_eq_true_eq]
    exact mem_relTokens link.rel "ugc" (by decide)
  · show decide ("nofollow" ∈ relTokens link.rel) = true ↔ _
    rw [decide_eq_true_eq]
    exact mem_relTokens link.rel "nofollow" (by decide)

/-! ### Attachment checks: the history manager guards its writes, the editor does not -/

theorem modifyProperty_style (eng : StyleEngine) (w : World) (e : Nat)
    (property value : String) (addToHistory : Bool) (now : Nat) :
    (CSSEditor.modifyProperty eng w (some e) property value addToHistory now).2 =
        CSSParser.isValidValue eng property value ∧
      ((CSSEditor.modifyProperty eng w (some e) property value addToHistory now).1.doc.node
          e).style =
        (if CSSParser.isValidValue eng property value = true then
          styleSetProperty eng (w.doc.node e).style property value
        else (w.doc.node e).style) := by
  by_cases hvalid : CSSParser.isValidValue eng property value = true
  · rw [modifyProperty_of_valid eng w e property value addToHistory now hvalid, if_pos hvalid]
    exact ⟨hvalid.symm, (writeProperty_node_same eng w.doc e property value).1⟩
  · have hinvalid : CSSParser.isValidValue eng property value = false := by
      simpa using hvalid
    have hmod : CSSEditor.modifyProperty eng w (some e) property value addToHistory now =
        (w, false) := by
      unfold CSSEditor.modifyProperty
      simp [hinvalid]
    rw [hmod, if_neg hvalid]
    exact ⟨hinvalid.symm, rfl⟩

theorem modifyPropertyUndefined_style (eng : StyleEngine) (w : World) (e : Nat)
    (property : String) (now : Nat) :
    ((CSSEditor.modifyPropertyUndefined eng w e property now).1.doc.node e).style =
      styleSetProperty eng (w.doc.node e).style property "undefined" :=
  (writeProperty_node_same eng w.doc e property "undefined").1

theorem toggleProperty_style (eng : StyleEngine) (w : World) (e : Nat) (property : String)
    (now : Nat) :
    ((CSSEditor.toggleProperty eng w (some e) property now).1.doc.node e).style =
      (if getPropertyValue (w.doc.node e).style property ≠ "" then
        removeDeclaration (w.doc.node e).style property
      else
        match CSSEditor.restoredValue eng w e property with
        | some value =>
          if CSSParser.isValidValue eng property value = true then
            styleSetProperty eng (w.doc.node e).style property value
          else (w.doc.node e).style
        | none => styleSetProperty eng (w.doc.node e).style property "undefined") := by
  by_cases hset : getPropertyValue (w.doc.node e).style property ≠ ""
  · rw [toggleProperty_of_set eng w e property now hset, if_pos hset]
    exact (setStyle_node_same w.doc e _).1
  · have hunset : getPropertyValue (w.doc.node e).style property = "" := by
      simpa using hset
    rw [toggleProperty_of_unset eng w e property now hunset, if_neg hset]
    cases CSSEditor.restoredValue eng w e property with
    | some value => exact (modifyProperty_style eng w e property value true now).2
    | none => exact modifyPropertyUndefined_style eng w e property now

theorem adjustNumericValue_result (eng : StyleEngine) (w : World) (e : Nat)
    (property : String) (delta : Int) (shiftKey : Bool) (now : Nat) (r : World × Bool)
    (hr : CSSEditor.adjustNumericValue eng w (some e) property delta shiftKey now = some r) :
    r = (w, false) ∨
      ∃ value, r = CSSEditor.modifyProperty eng w (some e) property value true now := by
  unfold CSSEditor.adjustNumericValue at hr
  simp only at hr
  split at hr
  · exact Or.inl (Option.some.inj hr).symm
  · split at hr
    · split_ifs at hr <;> exact Or.inr ⟨_, (Option.some.inj hr).symm⟩
    · exact absurd hr (by simp)

/-- C10, amended: the attachment check belongs to `HistoryManager` alone.  On a state
satisfying the history invariant `undo()` and `redo()` never fail, and `undo()`,
`redo()` and `resetElement(e)` leave the whole page unchanged when the element they
would write to is detached.  The five `CSSEditor` operations check only that the
element reference is not null.  For a null reference `modifyProperty`,
`removeProperty`, `adjustNumericValue` and `toggleProperty` return false and
`resetElement` returns 0, and nothing changes.  For every element `e`, attached or
detached alike, the write is the same: `modifyProperty` returns whether the value is
valid and, when it is, leaves the inline style that `style.setProperty` produces (an
invalid value leaves it as it was); `removeProperty` returns true and leaves the inline
style with the declaration removed; `resetElement` leaves the inline style empty;
`toggleProperty` removes the declaration of a property that is set inline and otherwise
writes the restored value exactly as `modifyProperty` does (the text `undefined` when
the snapshot lacks the property); and every result of `adjustNumericValue` is either
the unchanged state with false or the result of `modifyProperty` on `e` for some
value. -/
theorem history_checks_attachment (eng : StyleEngine) (h : HistoryManager) (doc : Document)
    (hinv : h.Inv) :
    (h.undo eng doc).completion ≠ .typeError ∧
    (h.redo eng doc).completion ≠ .typeError ∧
    (∀ change, jsIndex h.history h.currentIndex = some change →
      (doc.node change.element).isConnected = false → (h.undo eng doc).doc = doc) ∧
    (∀ change, jsIndex h.history (h.currentIndex + 1) = some change →
      (doc.node change.element).isConnected = false → (h.redo eng doc).doc = doc) ∧
    (∀ e, (doc.node e).isConnected = false → (h.resetElement eng doc e).doc = doc) ∧
    (∀ (w : World) (property value : String) (addToHistory : Bool) (now : Nat),
      CSSEditor.modifyProperty eng w none property value addToHistory now = (w, false) ∧
      CSSEditor.removeProperty eng w none property addToHistory now = (w, false) ∧
      CSSEditor.resetElement eng w none = (w, 0)) ∧
    (∀ (w : World) (property : String) (delta : Int) (shiftKey : Bool) (now : Nat),
      CSSEditor.adjustNumericValue eng w none property delta shiftKey now = some (w, false) ∧
      CSSEditor.toggleProperty eng w none property now = (w, false)) ∧
    (∀ (w : World) (e : Nat) (property value : String) (addToHistory : Bool) (now : Nat),
      (CSSEditor.modifyProperty eng w (some e) property value addToHistory now).2 =
        CSSParser.isValidValue eng property value ∧
      ((CSSEditor.modifyProperty eng w (some e) property value addToHistory now).1.doc.node
          e).style =
        (if CSSParser.isValidValue eng property value = true then
          styleSetProperty eng (w.doc.node e).style property value
        else (w.doc.node e).style) ∧
      (CSSEditor.removeProperty eng w (some e) property addToHistory now).2 = true ∧
      ((CSSEditor.removeProperty eng w (some e) property addToHistory now).1.doc.node
          e).style = removeDeclaration (w.doc.node e).style property ∧
      ((CSSEditor.resetElement eng w (some e)).1.doc.node e).style = []) ∧
    (∀ (w : World) (e : Nat) (property : String) (now : Nat),
      ((CSSEditor.toggleProperty eng w (some e) property now).1.doc.node e).style =
        (if getPropertyValue (w.doc.node e).style property ≠ "" then
          removeDeclaration (w.doc.node e).style property
        else
          match CSSEditor.restoredValue eng w e property with
          | some value =>
            if CSSParser.isValidValue eng property value = true then
              styleSetProperty eng (w.doc.node e).style property value
            else (w.doc.node e).style
          | none => styleSetProperty eng (w.doc.node e).style property "undefined")) ∧
    (∀ (w : World) (e : Nat) (property : String) (delta : Int) (shiftKey : Bool) (now : Nat)
        (r : World × Bool),
      CSSEditor.adjustNumericValue eng w (some e) property delta shiftKey now = some r →
        r = (w, false) ∨
          ∃ value, r = CSSEditor.modifyProperty eng w (some e) property value true now) := by
  refine ⟨?_, ?_, ?_, ?_, ?_, ?_, ?_, ?_, ?_, ?_⟩
  · by_cases hc : h.canUndo = true
    · obtain ⟨change, hrec⟩ := canUndo_record h hinv hc
      rw [undo_of_canUndo eng h doc change hc hrec]
      simp
    · rw [undo_of_not_canUndo eng h doc (by simpa using hc)]
      simp
  · by_cases hc : h.canRedo = true
    · obtain ⟨change, hrec⟩ := canRedo_record h hinv hc
      rw [redo_of_canRedo eng h doc change hc hrec]
      simp
    · rw [redo_of_not_canRedo eng h doc (by simpa using hc)]
      simp
  · intro change hrec hconn
    have hb := jsIndex_some_bounds _ _ _ hrec
    have hc : h.canUndo = true := by
      simp only [HistoryManager.canUndo, decide_eq_true_eq]
      omega
    rw [undo_of_canUndo eng h doc change hc hrec]
    simp only [hconn, Bool.false_eq_true, if_false]
  · intro change hrec hconn
    have hb := jsIndex_some_bounds _ _ _ hrec
    have hc : h.canRedo = true := by
      simp only [HistoryManager.canRedo, decide_eq_true_eq]
      omega
    rw [redo_of_canRedo eng h doc change hc hrec]
    simp only [hconn, Bool.false_eq_true, if_false]
  · intro e hconn
    show (h.getElementChanges e).foldl (resetChange eng) doc = doc
    apply resetChanges_detached eng e _ doc hconn
    intro change hchange
    simpa using (List.mem_filter.mp hchange).2
  · intro w property value addToHistory now
    exact ⟨rfl, rfl, rfl⟩
  · intro w property delta shiftKey now
    exact ⟨rfl, rfl⟩
  · intro w e property value addToHistory now
    refine ⟨(modifyProperty_style eng w e property value addToHistory now).1,
      (modifyProperty_style eng w e property value addToHistory now).2, rfl,
      (setStyle_node_same w.doc e _).1, ?_⟩
    show (((w.cssHistory.getElementChanges e).foldl (resetChange eng)
      (w.doc.setStyle e [])).node e).style = []
    apply resetChanges_keep_empty_style eng e _ _ (setStyle_node_same w.doc e []).1
    intro change hchange
    simpa using (List.mem_filter.mp hchange).2
  · intro w e property now
    exact toggleProperty_style eng w e property now
  · intro w e property delta shiftKey now r hr
    exact adjustNumericValue_result eng w e property delta shiftKey now r hr

theorem history_checks_attachment_witness :
    sampleManager.Inv ∧ (sampleDocument.node 2).isConnected = false ∧
      (sampleManager.redo sampleEngine sampleDocument).doc = sampleDocument ∧
      (sampleManager.resetElement sampleEngine sampleDocument 2).doc = sampleDocument ∧
      (sampleManager.resetElement sampleEngine sampleDocument 2).count = 1 ∧
      CSSParser.isValidValue sampleEngine "color" "blue" = true ∧
      (CSSEditor.modifyProperty sampleEngine sampleWorld (some 2) "color" "blue" true 0).2 =
        CSSParser.isValidValue sampleEngine "color" "blue" ∧
      CSSEditor.toggleProperty sampleEngine sampleWorld none "color" 0 = (sampleWorld, false) :=
  ⟨by decide, by decide,
    (history_checks_attachment sampleEngine sampleManager sampleDocument (by decide)).2.2.2.1
      (newRecord sampleDocument 2 "width" "1px" "2px" 1) (by decide) (by decide),
    (history_checks_attachment sampleEngine sampleManager sampleDocument
      (by decide)).2.2.2.2.1 2 (by decide),
    by decide, by decide,
    ((history_checks_attachment sampleEngine sampleManager sampleDocument
      (by decide)).2.2.2.2.2.2.2.1 sampleWorld 2 "color" "blue" true 0).1,
    ((history_checks_attachment sampleEngine sampleManager sampleDocument
      (by decide)).2.2.2.2.2.2.1 sampleWorld "color" 0 false 0).2⟩

end CssInspector
